import Mathlib

/-!
Distributed shared memory (Lab8): wire codec, group registry, coordinator.

A shallow embedding of `src/Lab8/src/dsm.cpp` / `dsm.hpp`.

* `std::string` is a list of characters (`Str`); every `char` of the C++ string is one `Char`.
* `int` / `long long` values are mathematical integers (`Int`); the places where the C++ code
  checks a range (`std::stoi`, `std::stoll`) carry the range explicitly.  Signed overflow is
  undefined behaviour in C++, so the `++` on the `long long` counters is plain `+ 1` on `Int`.
* `std::unordered_map` is an association list with at most one entry per key (`Map`).
* Calls that leave the process (`send_message_to`, the change callback) are recorded in a trace
  of `Effect`s; what the network answers is an explicit parameter (`Net`).

Polynomial multiplication (Lab5, Lab7) and the search for a Hamiltonian cycle (Lab6) follow in
the namespaces `Lab5` and `Lab6`.

* A `std::vector` is a list; a write or read outside a vector is undefined behaviour and ends
  the call with `undefined`.
* A recursive function takes a budget for the depth of its recursion; that the budget the model
  gives is enough, and that a larger one changes nothing, is proved.
-/

namespace Lab8

/-! ## Strings and numbers -/

/-- A `std::string`, one `Char` per C++ `char`. -/
abbrev Str := List Char

/-- The loop of `split`: `item` is the text `std::getline` has collected for the current piece,
the list is the unread rest of the stream.  A piece is pushed only when it is not empty; the
`getline` that hits the end of the stream without reading a character ends the loop. -/
def splitLoop (sep : Char) : Str → Str → List Str
  | [], item => if item = [] then [] else [item]
  | c :: cs, item =>
    if c = sep then
      (if item = [] then splitLoop sep cs [] else item :: splitLoop sep cs [])
    else splitLoop sep cs (item ++ [c])

/-- The static function `split(s, sep)` of dsm.cpp. -/
def split (s : Str) (sep : Char) : List Str := splitLoop sep s []

/-- The decimal digit `d` (0..9) as a character. -/
def digitChar (d : Nat) : Char :=
  match d with
  | 0 => '0' | 1 => '1' | 2 => '2' | 3 => '3' | 4 => '4'
  | 5 => '5' | 6 => '6' | 7 => '7' | 8 => '8' | _ => '9'

/-- Decimal digits of `n`, most significant first, in front of `acc`; `fuel` bounds the number
of digits. -/
def natToStrAux : Nat → Nat → Str → Str
  | 0, _, acc => acc
  | fuel + 1, n, acc =>
    if n < 10 then digitChar n :: acc
    else natToStrAux fuel (n / 10) (digitChar (n % 10) :: acc)

/-- What `operator<<` prints for a non-negative integer: decimal, no leading zeros. -/
def natToStr (n : Nat) : Str := natToStrAux (n + 1) n []

/-- What `operator<<` prints for an `int` / `long long`. -/
def intToStr (x : Int) : Str :=
  if x < 0 then '-' :: natToStr x.natAbs else natToStr x.natAbs

/-- The C `isspace` in the default locale. -/
def isSpace (c : Char) : Bool :=
  c = ' ' || c = '\t' || c = '\n' || c = '\x0b' || c = '\x0c' || c = '\r'

/-- The C `isdigit`. -/
def isDigit (c : Char) : Bool := decide ('0'.toNat ≤ c.toNat) && decide (c.toNat ≤ '9'.toNat)

/-- Value of a run of decimal digits. -/
def digitsValue (ds : Str) : Nat := ds.foldl (fun a c => 10 * a + (c.toNat - '0'.toNat)) 0

/-- The conversion `strtol` / `strtoll` perform in base 10, before any range check: leading
white space is skipped, one optional sign is read, then the longest run of digits; what follows
the digits is ignored.  `none` when there is no digit to convert. -/
def strtoInt (s : Str) : Option Int :=
  let s1 := s.dropWhile isSpace
  let neg : Bool := match s1 with
    | '-' :: _ => true
    | _ => false
  let s2 : Str := match s1 with
    | '-' :: r => r
    | '+' :: r => r
    | _ => s1
  let ds := s2.takeWhile isDigit
  if ds = [] then none
  else some (if neg then - (digitsValue ds : Int) else (digitsValue ds : Int))

deriving instance DecidableEq for Except

/-- The exceptions the standard conversions throw. -/
inductive Exn where
  | invalid_argument
  | out_of_range
  deriving DecidableEq, Repr

def INT_MIN : Int := -2147483648
def INT_MAX : Int := 2147483647
def LLONG_MIN : Int := -9223372036854775808
def LLONG_MAX : Int := 9223372036854775807

/-- The function `std::stoi`: throws `invalid_argument` when nothing converts, `out_of_range` when the value
does not fit an `int`. -/
def stoi (s : Str) : Except Exn Int :=
  match strtoInt s with
  | none => .error .invalid_argument
  | some v => if INT_MIN ≤ v ∧ v ≤ INT_MAX then .ok v else .error .out_of_range

/-- The function `std::stoll`, the same for `long long`. -/
def stoll (s : Str) : Except Exn Int :=
  match strtoInt s with
  | none => .error .invalid_argument
  | some v => if LLONG_MIN ≤ v ∧ v ≤ LLONG_MAX then .ok v else .error .out_of_range

/-! ## Messages and their wire format -/

/-- The `struct DSMMessage` of dsm.hpp with its default member initialisers. -/
structure DSMMessage where
  type : Str := []
  op : Str := []
  varId : Int := -1
  value : Int := 0
  expected : Int := 0
  originId : Int := -1
  groupKey : Str := []
  seq : Int := 0
  reqId : Int := 0
  success : Int := -1
  deriving DecidableEq, Repr

/-- The function `DSM::serialize`. -/
def serialize (msg : DSMMessage) : Str :=
  "type=".toList ++ msg.type ++ ";".toList ++
  ("op=".toList ++ msg.op ++ ";".toList ++
  ("var=".toList ++ intToStr msg.varId ++ ";".toList ++
  ("value=".toList ++ intToStr msg.value ++ ";".toList ++
  ("expected=".toList ++ intToStr msg.expected ++ ";".toList ++
  ("origin=".toList ++ intToStr msg.originId ++ ";".toList ++
  ("group=".toList ++ msg.groupKey ++ ";".toList ++
  ("seq=".toList ++ intToStr msg.seq ++ ";".toList ++
  ("req=".toList ++ intToStr msg.reqId ++ ";".toList ++
  ("success=".toList ++ intToStr msg.success ++ ";".toList)))))))))

/-- The `if (k == ...) ... else if ...` chain of `DSM::deserialize` for one `key=value` pair. -/
def setField (m : DSMMessage) (k v : Str) : Except Exn DSMMessage :=
  if k = "type".toList then .ok { m with type := v }
  else if k = "op".toList then .ok { m with op := v }
  else if k = "var".toList then (stoi v).map (fun x => { m with varId := x })
  else if k = "value".toList then (stoi v).map (fun x => { m with value := x })
  else if k = "expected".toList then (stoi v).map (fun x => { m with expected := x })
  else if k = "origin".toList then (stoi v).map (fun x => { m with originId := x })
  else if k = "group".toList then .ok { m with groupKey := v }
  else if k = "seq".toList then (stoll v).map (fun x => { m with seq := x })
  else if k = "req".toList then (stoll v).map (fun x => { m with reqId := x })
  else if k = "success".toList then (stoi v).map (fun x => { m with success := x })
  else .ok m

/-- The `for (auto& kv : parts)` loop of `DSM::deserialize`; an exception of `stoi` / `stoll`
leaves the loop and the function. -/
def deserializeLoop : List Str → DSMMessage → Except Exn DSMMessage
  | [], m => .ok m
  | kv :: rest, m =>
    match split kv '=' with
    | [k, v] =>
      (match setField m k v with
       | .ok m1 => deserializeLoop rest m1
       | .error e => .error e)
    | _ => deserializeLoop rest m

/-- The function `DSM::deserialize`. -/
def deserialize (line : Str) : Except Exn DSMMessage :=
  deserializeLoop (split line ';') {}

/-! ## Maps -/

/-- A `std::unordered_map`: an association list that holds at most one entry per key.  The
order of the entries is the order of insertion; no function below depends on it except through
`Map.find`. -/
abbrev Map (K V : Type) := List (K × V)

/-- The lookup `m.find(k)`: `none` stands for `m.end()`. -/
def Map.find {K V : Type} [DecidableEq K] : Map K V → K → Option V
  | [], _ => none
  | (k1, v) :: r, k => if k1 = k then some v else Map.find r k

/-- The assignment `m[k] = v`. -/
def Map.set {K V : Type} [DecidableEq K] : Map K V → K → V → Map K V
  | [], k, v => [(k, v)]
  | (k1, v1) :: r, k, v => if k1 = k then (k1, v) :: r else (k1, v1) :: Map.set r k v

/-- What a mere access `m[k]` does to the map: a missing key is inserted with the
value-initialised `d`. -/
def Map.touch {K V : Type} [DecidableEq K] (m : Map K V) (k : K) (d : V) : Map K V :=
  match Map.find m k with
  | some _ => m
  | none => m ++ [(k, d)]

/-- The removal `m.erase(k)`. -/
def Map.erase {K V : Type} [DecidableEq K] : Map K V → K → Map K V
  | [], _ => []
  | (k1, v1) :: r, k => if k1 = k then r else (k1, v1) :: Map.erase r k

/-! ## The state of one node -/

/-- The `struct DSMNode`. -/
structure DSMNode where
  id : Int
  host : Str
  port : Int
  deriving DecidableEq, Repr

/-- The `struct DSMVariableCfg`. -/
structure DSMVariableCfg where
  id : Int
  initial : Int
  group : List Int
  deriving DecidableEq, Repr

/-- The `struct PendingReq` without its condition variable. -/
structure PendingReq where
  done : Bool := false
  success : Bool := false
  deriving DecidableEq, Repr

/-- The data members of `class DSM`.  `callback_` holds the identity of the registered
function object (`none` is the empty `std::function`); `self_` is `none` until `parse_config`
assigns it; `pending_` maps a request id to the `PendingReq` its caller waits on. -/
structure DSM where
  selfId_ : Int
  self_ : Option DSMNode := none
  nodes_ : Map Int DSMNode := []
  varValue_ : Map Int Int := []
  varGroupKey_ : Map Int Str := []
  groupMembers_ : Map Str (List Int) := []
  groupLeader_ : Map Str Int := []
  groupNextSeq_ : Map Str Int := []
  callback_ : Option Nat := none
  running_ : Bool := false
  nextReqId_ : Int := 1
  pending_ : Map Int PendingReq := []
  deriving DecidableEq, Repr

/-- The constructor `DSM::DSM(selfId, configPath)`. -/
def DSM.init (selfId : Int) : DSM := { selfId_ := selfId }

/-- What a node does to the outside world. -/
inductive Effect where
  /-- One call `send_message_to(nodeId, msg)`. -/
  | send (nodeId : Int) (msg : DSMMessage)
  /-- One call of the registered change callback `cb` with `(varId, value, seq)`. -/
  | callback (cb : Nat) (varId value seq : Int)
  deriving DecidableEq, Repr

/-- How the socket calls of one `send_message_to` end. -/
inductive ConnResult where
  | socket_failed
  | bad_address
  | connect_failed
  /-- The connection was made and `::send` returned `n`. -/
  | connected (n : Int)
  deriving DecidableEq, Repr

/-- The network as seen by `send_message_to`: the outcome of the socket calls for a target
node and a payload. -/
abbrev Net := DSMNode → Str → ConnResult

/-- The function `DSM::get_local_value`. -/
def DSM.get_local_value (s : DSM) (varId : Int) : Int :=
  match Map.find s.varValue_ varId with
  | none => 0
  | some v => v

/-- The function `DSM::on_change`. -/
def DSM.on_change (s : DSM) (cb : Option Nat) : DSM := { s with callback_ := cb }

/-- The call `std::sort` on a `std::vector<int>`: the ascending rearrangement. -/
def sortInts (g : List Int) : List Int := g.insertionSort (fun a b => a ≤ b)

/-- The printing loop of `canonical_group_key`; `first` is `i == 0`. -/
def keyLoop : Bool → List Int → Str
  | _, [] => []
  | first, x :: r => (if first then [] else ['-']) ++ intToStr x ++ keyLoop false r

/-- The function `DSM::canonical_group_key`. -/
def canonical_group_key (group : List Int) : Str := keyLoop true (sortInts group)

/-- The function `DSM::is_leader_for_group`. -/
def DSM.is_leader_for_group (s : DSM) (key : Str) : Bool :=
  match Map.find s.groupLeader_ key with
  | none => false
  | some leader => decide (leader = s.selfId_)

/-- The value `DSM::send_message_to` returns; the `Effect.send` of the call is recorded by the
caller.  The result of `::send` is not looked at. -/
def DSM.send_message_to (net : Net) (s : DSM) (nodeId : Int) (msg : DSMMessage) : Bool :=
  match Map.find s.nodes_ nodeId with
  | none => false
  | some node =>
    match net node (serialize msg) with
    | .connected _ => true
    | _ => false

/-- The loop of `broadcast_to_group` over the member list, from the running `ok`. -/
def DSM.broadcastLoop (net : Net) (s : DSM) (msg : DSMMessage) :
    List Int → Bool → Bool × List Effect
  | [], ok => (ok, [])
  | nid :: r, ok =>
    let res := DSM.broadcastLoop net s msg r (DSM.send_message_to net s nid msg && ok)
    (res.1, Effect.send nid msg :: res.2)

/-- The function `DSM::broadcast_to_group`. -/
def DSM.broadcast_to_group (net : Net) (s : DSM) (groupKey : Str) (msg : DSMMessage) :
    Bool × List Effect :=
  match Map.find s.groupMembers_ groupKey with
  | none => (false, [])
  | some members => DSM.broadcastLoop net s msg members true

/-- The function `DSM::apply_commit`. -/
def DSM.apply_commit (s : DSM) (commit : DSMMessage) : DSM × List Effect :=
  let s1 := { s with varValue_ := Map.set s.varValue_ commit.varId commit.value }
  let s2 :=
    match Map.find s1.pending_ commit.reqId with
    | some _ =>
      { s1 with pending_ := Map.set s1.pending_ commit.reqId { done := true, success := true } }
    | none => s1
  match s2.callback_ with
  | some cb => (s2, [Effect.callback cb commit.varId commit.value commit.seq])
  | none => (s2, [])

/-- The function `DSM::handle_request_as_leader`. -/
def DSM.handle_request_as_leader (net : Net) (s : DSM) (req : DSMMessage) : DSM × List Effect :=
  match Map.find s.groupMembers_ req.groupKey with
  | none => (s, [])
  | some _ =>
    if req.op = "WRITE".toList then
      let seq : Int := (Map.find s.groupNextSeq_ req.groupKey).getD 0
      let s1 := { s with groupNextSeq_ := Map.set s.groupNextSeq_ req.groupKey (seq + 1) }
      let commit : DSMMessage :=
        { type := "COMMIT".toList, op := req.op, varId := req.varId, value := req.value,
          groupKey := req.groupKey, seq := seq, reqId := req.reqId }
      (s1, (DSM.broadcast_to_group net s1 req.groupKey commit).2)
    else if req.op = "CMPXCHG".toList then
      let cur : Int := (Map.find s.varValue_ req.varId).getD 0
      let s0 := { s with varValue_ := Map.touch s.varValue_ req.varId 0 }
      if cur = req.expected then
        let seq : Int := (Map.find s0.groupNextSeq_ req.groupKey).getD 0
        let s1 := { s0 with groupNextSeq_ := Map.set s0.groupNextSeq_ req.groupKey (seq + 1) }
        let commit : DSMMessage :=
          { type := "COMMIT".toList, op := req.op, varId := req.varId, value := req.value,
            expected := req.expected, groupKey := req.groupKey, seq := seq, reqId := req.reqId }
        (s1, (DSM.broadcast_to_group net s1 req.groupKey commit).2)
      else
        let resp : DSMMessage :=
          { type := "RESP".toList, op := "CMPXCHG".toList, varId := req.varId,
            originId := req.originId, groupKey := req.groupKey, reqId := req.reqId,
            success := 0 }
        (s0, [Effect.send req.originId resp])
    else (s, [])

/-- The function `DSM::handle_message`. -/
def DSM.handle_message (net : Net) (s : DSM) (msg : DSMMessage) : DSM × List Effect :=
  if msg.type = "REQUEST".toList then
    if s.is_leader_for_group msg.groupKey then s.handle_request_as_leader net msg
    else (s, [])
  else if msg.type = "COMMIT".toList then s.apply_commit msg
  else if msg.type = "RESP".toList then
    match Map.find s.pending_ msg.reqId with
    | some _ =>
      let pr : PendingReq := { done := true, success := decide (msg.success = 1) }
      ({ s with pending_ := Map.set s.pending_ msg.reqId pr }, [])
    | none => (s, [])
  else (s, [])

/-- How a call of `write` / `compare_exchange` stands when it stops running: it has returned,
or it waits on the condition variable of the request it registered. -/
inductive Call where
  | returned (result : Bool)
  | blocked (reqId : Int)
  deriving DecidableEq, Repr

/-- The function `DSM::write` from its entry to the `pr.cv.wait`. -/
def DSM.write (net : Net) (s : DSM) (varId value : Int) : Call × DSM × List Effect :=
  match Map.find s.varGroupKey_ varId with
  | none => (.returned false, s, [])
  | some gk =>
    let s0 := { s with groupMembers_ := Map.touch s.groupMembers_ gk [] }
    if s.selfId_ ∉ (Map.find s0.groupMembers_ gk).getD [] then (.returned false, s0, [])
    else
      let reqId := s0.nextReqId_
      let s1 := { s0 with nextReqId_ := reqId + 1, pending_ := Map.set s0.pending_ reqId {} }
      let req : DSMMessage :=
        { type := "REQUEST".toList, op := "WRITE".toList, varId := varId, value := value,
          originId := s.selfId_, groupKey := gk, reqId := reqId }
      let leader : Int := (Map.find s1.groupLeader_ gk).getD 0
      let s2 := { s1 with groupLeader_ := Map.touch s1.groupLeader_ gk 0 }
      if s2.send_message_to net leader req then (.blocked reqId, s2, [Effect.send leader req])
      else
        (.returned false, { s2 with pending_ := Map.erase s2.pending_ reqId },
          [Effect.send leader req])

/-- The function `DSM::compare_exchange` from its entry to the `pr.cv.wait`. -/
def DSM.compare_exchange (net : Net) (s : DSM) (varId expected desired : Int) :
    Call × DSM × List Effect :=
  match Map.find s.varGroupKey_ varId with
  | none => (.returned false, s, [])
  | some gk =>
    let s0 := { s with groupMembers_ := Map.touch s.groupMembers_ gk [] }
    if s.selfId_ ∉ (Map.find s0.groupMembers_ gk).getD [] then (.returned false, s0, [])
    else
      let reqId := s0.nextReqId_
      let s1 := { s0 with nextReqId_ := reqId + 1, pending_ := Map.set s0.pending_ reqId {} }
      let req : DSMMessage :=
        { type := "REQUEST".toList, op := "CMPXCHG".toList, varId := varId, value := desired,
          expected := expected, originId := s.selfId_, groupKey := gk, reqId := reqId }
      let leader : Int := (Map.find s1.groupLeader_ gk).getD 0
      let s2 := { s1 with groupLeader_ := Map.touch s1.groupLeader_ gk 0 }
      if s2.send_message_to net leader req then (.blocked reqId, s2, [Effect.send leader req])
      else
        (.returned false, { s2 with pending_ := Map.erase s2.pending_ reqId },
          [Effect.send leader req])

/-- The rest of `write` / `compare_exchange` after `pr.cv.wait`: `none` while the request is
not done (the caller stays blocked), else the entry is erased and `pr.success` returned. -/
def DSM.resume (s : DSM) (reqId : Int) : Option (Bool × DSM) :=
  match Map.find s.pending_ reqId with
  | none => none
  | some pr =>
    if pr.done then some (pr.success, { s with pending_ := Map.erase s.pending_ reqId })
    else none

/-! ## Reading the configuration -/

/-- Result of code that can throw or run into undefined behaviour. -/
inductive Res (α : Type) where
  | ok (a : α)
  | threw (e : Exn)
  | undefined
  deriving DecidableEq, Repr

/-- A `std::stringstream` being read: the unread characters and the fail bit. -/
structure IStream where
  buf : Str
  failed : Bool := false
  deriving DecidableEq, Repr

/-- The extraction `ss >> x` for an `int x`.  The second component is what is stored into `x`:
`none` when `x` is not written (the stream had failed already, or only white space was left),
`some 0` when no number can be read, the nearest `int` when the number is out of range. -/
def IStream.readInt (st : IStream) : IStream × Option Int :=
  if st.failed then (st, none)
  else
    let b := st.buf.dropWhile isSpace
    if b = [] then ({ buf := [], failed := true }, none)
    else
      let neg : Bool := match b with
        | '-' :: _ => true
        | _ => false
      let r : Str := match b with
        | '-' :: r => r
        | '+' :: r => r
        | _ => b
      let ds := r.takeWhile isDigit
      let rest := r.dropWhile isDigit
      if ds = [] then ({ buf := rest, failed := true }, some 0)
      else
        let v : Int := if neg then - (digitsValue ds : Int) else (digitsValue ds : Int)
        if v < INT_MIN then ({ buf := rest, failed := true }, some INT_MIN)
        else if INT_MAX < v then ({ buf := rest, failed := true }, some INT_MAX)
        else ({ buf := rest, failed := false }, some v)

/-- The extraction `ss >> w` for a `std::string w`: `none` when `w` is not written. -/
def IStream.readWord (st : IStream) : IStream × Option Str :=
  if st.failed then (st, none)
  else
    let b := st.buf.dropWhile isSpace
    if b = [] then ({ buf := [], failed := true }, none)
    else ({ buf := b.dropWhile (fun c => !isSpace c), failed := false },
      some (b.takeWhile (fun c => !isSpace c)))

/-- The body of the `NODES` branch: `DSMNode n; ss >> n.id >> n.host >> n.port;`.  `n.id` and
`n.port` start uninitialised; `none` when one of them is still uninitialised after the
extractions, so that `nodes[n.id] = n` reads an indeterminate value. -/
def parseNodeLine (line : Str) : Option DSMNode :=
  let r1 := IStream.readInt { buf := line }
  let r2 := IStream.readWord r1.1
  let r3 := IStream.readInt r2.1
  match r1.2, r3.2 with
  | some id, some port => some { id := id, host := r2.2.getD [], port := port }
  | _, _ => none

/-- The loop `for (auto& p : parts) v.group.push_back(std::stoi(p))`. -/
def parseGroup : List Str → Except Exn (List Int)
  | [] => .ok []
  | p :: r =>
    match stoi p with
    | .error e => .error e
    | .ok x =>
      match parseGroup r with
      | .error e => .error e
      | .ok xs => .ok (x :: xs)

/-- The body of the `VARS` branch up to `vars.push_back(v)`.  `v.id` and `v.initial` start
uninitialised; `undefined` when the `push_back` copies one that still is. -/
def parseVarLine (line : Str) : Res DSMVariableCfg :=
  let r1 := IStream.readInt { buf := line }
  let r2 := IStream.readInt r1.1
  let r3 := IStream.readWord r2.1
  match parseGroup (split (r3.2.getD []) ',') with
  | .error e => .threw e
  | .ok group =>
    match r1.2, r2.2 with
    | some id, some initial => .ok { id := id, initial := initial, group := group }
    | _, _ => .undefined

/-- The `std::getline(f, line)` loop: the lines of the file, empty ones included. -/
def getLinesLoop : Str → Str → List Str
  | [], item => if item = [] then [] else [item]
  | c :: cs, item => if c = '\n' then item :: getLinesLoop cs [] else getLinesLoop cs (item ++ [c])

/-- The lines `std::getline` delivers for a file content. -/
def getLines (content : Str) : List Str := getLinesLoop content []

/-- The `enum Section` of `parse_config`. -/
inductive Section where
  | NONE
  | NODES
  | VARS
  deriving DecidableEq, Repr

/-- The `while (std::getline(f, line))` loop of `parse_config` over the lines of the file. -/
def readLines : List Str → Section → Map Int DSMNode → List DSMVariableCfg →
    Res (Map Int DSMNode × List DSMVariableCfg)
  | [], _, nodes, vars => .ok (nodes, vars)
  | line :: rest, sec, nodes, vars =>
    if line = [] then readLines rest sec nodes vars
    else if line.head? = some '#' then readLines rest sec nodes vars
    else if line = "Nodes:".toList then readLines rest .NODES nodes vars
    else if line = "Variables:".toList then readLines rest .VARS nodes vars
    else
      match sec with
      | .NODES =>
        (match parseNodeLine line with
         | some n => readLines rest sec (Map.set nodes n.id n) vars
         | none => .undefined)
      | .VARS =>
        (match parseVarLine line with
         | .ok v => readLines rest sec nodes (vars ++ [v])
         | .threw e => .threw e
         | .undefined => .undefined)
      | .NONE => readLines rest sec nodes vars

/-- The loop `for (auto& v : vars)` of `parse_config`. -/
def DSM.loadVars (s : DSM) : List DSMVariableCfg → DSM
  | [] => s
  | v :: r =>
    let gk := canonical_group_key v.group
    DSM.loadVars
      { s with varValue_ := Map.set s.varValue_ v.id v.initial,
               varGroupKey_ := Map.set s.varGroupKey_ v.id gk,
               groupMembers_ := Map.set s.groupMembers_ gk v.group } r

/-- The value `*std::min_element(members.begin(), members.end())`; `none` for an empty list,
where the iterator returned is `end()` and must not be dereferenced. -/
def minElement : List Int → Option Int
  | [] => none
  | x :: r => some (r.foldl min x)

/-- The loop `for (auto& kv : groupMembers_)` of `parse_config` over the entries of
`groupMembers_`; `none` when a member list is empty. -/
def DSM.electLeaders (s : DSM) : List (Str × List Int) → Option DSM
  | [] => some s
  | (key, members) :: r =>
    match minElement members with
    | none => none
    | some leader =>
      let s1 := { s with groupLeader_ := Map.set s.groupLeader_ key leader }
      let s2 := if leader = s.selfId_ then
        { s1 with groupNextSeq_ := Map.set s1.groupNextSeq_ key 1 } else s1
      DSM.electLeaders s2 r

/-- The function `DSM::parse_config`; `file` is the content of the file at `path`, `none` when it cannot
be opened.  The result is the value returned together with the state of the object. -/
def DSM.parse_config (s : DSM) (file : Option Str) : Res (Bool × DSM) :=
  match file with
  | none => .ok (false, s)
  | some content =>
    match readLines (getLines content) .NONE [] [] with
    | .threw e => .threw e
    | .undefined => .undefined
    | .ok (nodes, vars) =>
      match Map.find nodes s.selfId_ with
      | none => .ok (false, s)
      | some me =>
        let s1 := { s with nodes_ := nodes, self_ := some me }
        let s2 := s1.loadVars vars
        match s2.electLeaders s2.groupMembers_ with
        | none => .undefined
        | some s3 => .ok (true, s3)

/-- The function `DSM::start` without the creation of the server thread. -/
def DSM.start (s : DSM) (file : Option Str) : Res (Bool × DSM) :=
  match s.parse_config file with
  | .ok (true, s1) => .ok (true, { s1 with running_ := true })
  | .ok (false, s1) => .ok (false, s1)
  | .threw e => .threw e
  | .undefined => .undefined

/-- A configuration of three nodes and three variables: 100 and 200 have the same group,
listed in two orders; 300 is replicated on nodes 2 and 3 only. -/
def sampleConfig : Str :=
  ("# topology\nNodes:\n1 127.0.0.1 5001\n2 127.0.0.1 5002\n3 127.0.0.1 5003\n" ++
   "Variables:\n100 10 1,2,3\n200 7 3,1,2\n300 0 2,3\n").toList

/-! ## Sample data -/

/-- A network on which every connection succeeds. -/
def netUp : Net := fun _ _ => .connected 0

/-- The node `selfId` after a `parse_config` of `sampleConfig`. -/
def sampleNode (selfId : Int) : DSM :=
  match (DSM.init selfId).parse_config (some sampleConfig) with
  | .ok (_, s) => s
  | _ => DSM.init selfId

/-- The variable lines of `sampleConfig`. -/
def sampleVars : List DSMVariableCfg :=
  [⟨100, 10, [1, 2, 3]⟩, ⟨200, 7, [3, 1, 2]⟩, ⟨300, 0, [2, 3]⟩]

/-- The node table of `sampleConfig`. -/
def sampleNodes : Map Int DSMNode :=
  [(1, ⟨1, "127.0.0.1".toList, 5001⟩), (2, ⟨2, "127.0.0.1".toList, 5002⟩),
   (3, ⟨3, "127.0.0.1".toList, 5003⟩)]

/-- A CMPXCHG request of node 3 for variable 100 that expects the configured value 10. -/
def sampleCas : DSMMessage :=
  { type := "REQUEST".toList, op := "CMPXCHG".toList, varId := 100, value := 5, expected := 10,
    originId := 3, groupKey := "1-2-3".toList, reqId := 1 }

/-- A CMPXCHG request of node 2 for variable 100 that expects 99. -/
def sampleCasStale : DSMMessage :=
  { type := "REQUEST".toList, op := "CMPXCHG".toList, varId := 100, value := 1, expected := 99,
    originId := 2, groupKey := "1-2-3".toList, reqId := 1 }

/-- A WRITE request of node 3 for variable 100. -/
def sampleWrite : DSMMessage :=
  { type := "REQUEST".toList, op := "WRITE".toList, varId := 100, value := 42,
    originId := 3, groupKey := "1-2-3".toList, reqId := 1 }

/-- A COMMIT for variable 100 of the group of `sampleConfig`. -/
def sampleCommit (value seq : Int) : DSMMessage :=
  { type := "COMMIT".toList, op := "WRITE".toList, varId := 100, value := value,
    groupKey := "1-2-3".toList, seq := seq }

/-- The key of the group of all three nodes of `sampleConfig`. -/
def sampleKey : Str := "1-2-3".toList

/-- The COMMIT `handle_request_as_leader` builds for a CMPXCHG request `req` when the counter
of the group reads `seq`. -/
def cmpxchgCommit (req : DSMMessage) (seq : Int) : DSMMessage :=
  { type := "COMMIT".toList, op := "CMPXCHG".toList, varId := req.varId, value := req.value,
    expected := req.expected, groupKey := req.groupKey, seq := seq, reqId := req.reqId }

/-- The COMMIT `handle_request_as_leader` builds for a WRITE request `req` when the counter of
the group reads `seq`. -/
def writeCommit (req : DSMMessage) (seq : Int) : DSMMessage :=
  { type := "COMMIT".toList, op := "WRITE".toList, varId := req.varId, value := req.value,
    groupKey := req.groupKey, seq := seq, reqId := req.reqId }

/-- The RESP `handle_request_as_leader` builds for a CMPXCHG request `req` it rejects. -/
def rejectResp (req : DSMMessage) : DSMMessage :=
  { type := "RESP".toList, op := "CMPXCHG".toList, varId := req.varId,
    originId := req.originId, groupKey := req.groupKey, reqId := req.reqId, success := 0 }

/-- The value a sequence counter reads as: a missing entry is created as 0 by `operator[]`. -/
def DSM.seqOf (s : DSM) (key : Str) : Int := (Map.find s.groupNextSeq_ key).getD 0

/-! ## Runs -/

/-- The accept loop handling the given messages one after the other, each with the network as
it is at that time; the traces are concatenated. -/
def DSM.run (s : DSM) : List (Net × DSMMessage) → DSM × List Effect
  | [] => (s, [])
  | step :: r =>
    let a := s.handle_message step.1 step.2
    let b := DSM.run a.1 r
    (b.1, a.2 ++ b.2)

/-- The sequence numbers of the COMMITs for group `key` among the sends of a trace, in the
order of the sends. -/
def commitSeqs (key : Str) : List Effect → List Int
  | [] => []
  | Effect.send _ m :: r =>
    if m.type = "COMMIT".toList ∧ m.groupKey = key then m.seq :: commitSeqs key r
    else commitSeqs key r
  | Effect.callback _ _ _ _ :: r => commitSeqs key r

/-- The messages that are to get a sequence number of group `key` from its leader in state `s`:
a WRITE request for the group, or a CMPXCHG request for the group whose expected value is the
leader's local value of the variable. -/
def DSM.sequences (s : DSM) (m : DSMMessage) (key : Str) : Bool :=
  decide (m.type = "REQUEST".toList) && decide (m.groupKey = key) &&
    (decide (m.op = "WRITE".toList) ||
      (decide (m.op = "CMPXCHG".toList) && decide (s.get_local_value m.varId = m.expected)))

/-- How many of the messages of a run are to get a sequence number of group `key`. -/
def DSM.countSequenced (s : DSM) (key : Str) : List (Net × DSMMessage) → Nat
  | [] => 0
  | step :: r =>
    (if s.sequences step.2 key then 1 else 0) +
      DSM.countSequenced (s.handle_message step.1 step.2).1 key r

/-- The list `first, first + 1, ...` of `k` consecutive numbers, each repeated `m` times. -/
def consecutiveBlocks (m : Nat) : Int → Nat → List Int
  | _, 0 => []
  | first, k + 1 => List.replicate m first ++ consecutiveBlocks m (first + 1) k

/-- Applying the given COMMITs one after the other. -/
def DSM.apply_commits (s : DSM) : List DSMMessage → DSM
  | [] => s
  | c :: r => DSM.apply_commits (s.apply_commit c).1 r

/-! ## Histories of one node -/

/-- What happens on one node, one after the other: the local calls and the messages the accept
loop handles.  `resume` is the part of a blocked `write` / `compare_exchange` after its wait. -/
inductive Event where
  | write (net : Net) (varId value : Int)
  | compare_exchange (net : Net) (varId expected desired : Int)
  | resume (reqId : Int)
  | on_change (cb : Option Nat)
  | get_local_value (varId : Int)
  | message (net : Net) (msg : DSMMessage)

/-- The state of the node after one event.  `get_local_value` only reads; a `resume` whose
request is not done leaves the caller blocked and the state as it is. -/
def DSM.step (s : DSM) : Event → DSM
  | .write net varId value => (s.write net varId value).2.1
  | .compare_exchange net varId expected desired =>
    (s.compare_exchange net varId expected desired).2.1
  | .resume reqId =>
    match s.resume reqId with
    | some r => r.2
    | none => s
  | .on_change cb => s.on_change cb
  | .get_local_value _ => s
  | .message net msg => (s.handle_message net msg).1

/-- The state of the node after a list of events. -/
def DSM.exec (s : DSM) : List Event → DSM
  | [] => s
  | e :: r => DSM.exec (s.step e) r

/-- The value of the COMMIT for variable `v` that an event applies, if it applies one. -/
def commitValue (v : Int) : Event → Option Int
  | .message _ m => if m.type = "COMMIT".toList ∧ m.varId = v then some m.value else none
  | _ => none

/-- The value of the last COMMIT for variable `v` among the events, if there is one. -/
def lastCommit (v : Int) : List Event → Option Int
  | [] => none
  | e :: r =>
    match lastCommit v r with
    | some x => some x
    | none => commitValue v e

/-- Every key of the pending table is an id that has been allocated: at least 1 and smaller
than the next id. -/
def DSM.keysFresh (s : DSM) : Prop :=
  ∀ id ∈ s.pending_.map Prod.fst, 1 ≤ id ∧ id < s.nextReqId_

/-! ## Pairs of a wire line -/

/-- The key and the value of a piece `kv` of the line when `split(kv, '=')` has exactly two
parts; the other pieces are skipped by `if (p.size() != 2) continue`. -/
def pairOf (kv : Str) : Option (Str × Str) :=
  match split kv '=' with
  | [k, v] => some (k, v)
  | _ => none

/-- The `key=value` pairs `deserialize` looks at, in the order of the line. -/
def pairsOf (line : Str) : List (Str × Str) := (split line ';').filterMap pairOf

/-- The numeric keys read with `std::stoi`. -/
def intKeys : List Str :=
  ["var".toList, "value".toList, "expected".toList, "origin".toList, "success".toList]

/-- The numeric keys read with `std::stoll`. -/
def longKeys : List Str := ["seq".toList, "req".toList]

/-- The keys `deserialize` knows. -/
def knownKeys : List Str :=
  ["type".toList, "op".toList, "var".toList, "value".toList, "expected".toList,
   "origin".toList, "group".toList, "seq".toList, "req".toList, "success".toList]

/-- The conversion `deserialize` applies to the value of key `k`: `stoll` for `seq` and `req`,
`stoi` for the other numeric keys, none (`.ok 0`) for every other key. -/
def convert (k v : Str) : Except Exn Int :=
  if k = "seq".toList ∨ k = "req".toList then stoll v
  else if k = "var".toList ∨ k = "value".toList ∨ k = "expected".toList ∨
      k = "origin".toList ∨ k = "success".toList then stoi v
  else .ok 0

/-! ## The accept loop -/

/-- One round of the `while (running_)` loop of `server_loop` for a connection whose payload
is `buf`: an empty payload is skipped, else the payload is decoded and dispatched.  An
exception of `deserialize` is not caught in `server_loop`. -/
def DSM.serve (net : Net) (s : DSM) (buf : Str) : Res (DSM × List Effect) :=
  if buf = [] then .ok (s, [])
  else
    match deserialize buf with
    | .error e => .threw e
    | .ok msg => .ok (s.handle_message net msg)

/-- The `while (running_)` loop of `server_loop` over the payloads of the connections it
accepts, after a successful `socket` / `bind` / `listen`; the traces are concatenated. -/
def DSM.server_loop (net : Net) (s : DSM) : List Str → Res (DSM × List Effect)
  | [] => .ok (s, [])
  | buf :: rest =>
    if s.running_ then
      match s.serve net buf with
      | .ok a =>
        (match DSM.server_loop net a.1 rest with
         | .ok b => .ok (b.1, a.2 ++ b.2)
         | .threw e => .threw e
         | .undefined => .undefined)
      | .threw e => .threw e
      | .undefined => .undefined
    else .ok (s, [])

/-- The payloads that the sends of a trace put on the wire for node `nid`. -/
def wireInbox (nid : Int) : List Effect → List Str
  | [] => []
  | Effect.send n m :: r => if n = nid then serialize m :: wireInbox nid r else wireInbox nid r
  | Effect.callback _ _ _ _ :: r => wireInbox nid r

/-- A network on which no connection can be made. -/
def netDown : Net := fun _ _ => .connect_failed

/-- A network on which every connection is made and every `::send` fails with -1. -/
def netSendFails : Net := fun _ _ => .connected (-1)

/-! ## The three-node scenario -/

/-- Three nodes and one variable, 7, with initial value 10 and group 1,2,3. -/
def scenarioConfig : Str :=
  ("Nodes:\n1 127.0.0.1 5001\n2 127.0.0.1 5002\n3 127.0.0.1 5003\n" ++
   "Variables:\n7 10 1,2,3\n").toList

/-- Node `i` of the scenario as `main` sets it up: constructed, callback `cb` registered,
started on `scenarioConfig`. -/
def scenarioNode (i : Int) (cb : Nat) : DSM :=
  match ((DSM.init i).on_change (some cb)).start (some scenarioConfig) with
  | .ok (_, s) => s
  | _ => DSM.init i

/-- What the scenario ends with. -/
structure ScenarioResult where
  /-- The counter of group 1-2-3 on the leader, node 1. -/
  leaderSeq : Int
  /-- What `get_local_value 7` returns on nodes 1, 2, 3. -/
  values : List Int
  /-- The effects of nodes 1, 2, 3 while they handle the COMMIT. -/
  effects : List (List Effect)
  /-- What the `write` of node 3 returns once it is resumed. -/
  result : Option Bool
  deriving DecidableEq, Repr

/-- The scenario: node 3 calls `write(7, 42)`; node 1 serves the payloads sent to it; then each
node serves the payloads node 1 has sent to it; then the call of node 3 is resumed. -/
def writeScenario : Option ScenarioResult :=
  match (scenarioNode 3 3).write netUp 7 42 with
  | (.blocked reqId, n3, tr3) =>
    (match (scenarioNode 1 1).server_loop netUp (wireInbox 1 tr3) with
     | .ok (l1, tr1) =>
       (match l1.server_loop netUp (wireInbox 1 tr1),
          (scenarioNode 2 2).server_loop netUp (wireInbox 2 tr1),
          n3.server_loop netUp (wireInbox 3 tr1) with
        | .ok (m1, e1), .ok (m2, e2), .ok (m3, e3) =>
          some { leaderSeq := m1.seqOf "1-2-3".toList,
                 values := [m1.get_local_value 7, m2.get_local_value 7, m3.get_local_value 7],
                 effects := [e1, e2, e3],
                 result := (m3.resume reqId).map Prod.fst }
        | _, _, _ => none)
     | _ => none)
  | _ => none

/-- A configuration whose Variables line stops after the initial value: no group list. -/
def configNoGroup : Str :=
  "Nodes:\n1 127.0.0.1 5001\nVariables:\n5 10\n".toList

/-- A configuration whose group list is a lone comma: `split` drops the empty pieces, no
member is left. -/
def configEmptyGroup : Str :=
  "Nodes:\n1 127.0.0.1 5001\nVariables:\n5 10 ,\n".toList

/-- A configuration whose group list has a member that is no integer. -/
def configBadMember : Str :=
  "Nodes:\n1 127.0.0.1 5001\nVariables:\n5 10 1,x\n".toList

/-- A configuration whose group list has a member that only begins with an integer. -/
def configTrailingMember : Str :=
  "Nodes:\n1 127.0.0.1 5001\nVariables:\n5 10 1x\n".toList

/-! ## Request ids -/

/-- The subscriber check at the head of `write` and `compare_exchange`: the variable has a
group key and the node is in the member list of that group. -/
def DSM.subscribes (s : DSM) (varId : Int) : Bool :=
  match Map.find s.varGroupKey_ varId with
  | none => false
  | some gk => decide (s.selfId_ ∈ (Map.find s.groupMembers_ gk).getD [])

/-- Whether an event is a call of `write` / `compare_exchange` that passes the subscriber
check in state `s`. -/
def DSM.passes (s : DSM) : Event → Bool
  | .write _ varId _ => s.subscribes varId
  | .compare_exchange _ varId _ _ => s.subscribes varId
  | _ => false

/-- The request id a call of `write` / `compare_exchange` is given in state `s`: the `req`
field of the REQUEST it sends.  `none` for a call that sends nothing and for the other events. -/
def DSM.idGiven (s : DSM) : Event → Option Int
  | .write net varId value =>
    match (s.write net varId value).2.2 with
    | Effect.send _ m :: _ => some m.reqId
    | _ => none
  | .compare_exchange net varId expected desired =>
    match (s.compare_exchange net varId expected desired).2.2 with
    | Effect.send _ m :: _ => some m.reqId
    | _ => none
  | _ => none

/-- The request ids given along a history, in the order of the calls. -/
def DSM.idsGiven (s : DSM) : List Event → List Int
  | [] => []
  | e :: r => (s.idGiven e).toList ++ DSM.idsGiven (s.step e) r

/-- How many calls of a history pass the subscriber check. -/
def DSM.passing (s : DSM) : List Event → Nat
  | [] => 0
  | e :: r => (if s.passes e then 1 else 0) + DSM.passing (s.step e) r

/-- The numbers `first, first + 1, ...`, `k` of them. -/
def idsFrom : Int → Nat → List Int
  | _, 0 => []
  | first, k + 1 => first :: idsFrom (first + 1) k

/-! ## Two requests in flight -/

/-- The messages the sends of a trace deliver to node `nid`, each to be handled on the network
`net`. -/
def inbox (net : Net) (nid : Int) : List Effect → List (Net × DSMMessage)
  | [] => []
  | Effect.send n m :: r => if n = nid then (net, m) :: inbox net nid r else inbox net nid r
  | Effect.callback _ _ _ _ :: r => inbox net nid r

/-- What the scenario of two callers ends with. -/
structure CrossResult where
  /-- How the `compare_exchange` of node 2 and the `write` of node 3 stand after the call. -/
  calls : List Call
  /-- The `req` fields of the COMMITs node 1 sends to node 2 for the request of node 3. -/
  commitReqs : List Int
  /-- What the `compare_exchange` of node 2 returns once node 2 has handled those COMMITs. -/
  result2 : Option Bool
  /-- What node 2 reads for variable 100 at that time. -/
  value2 : Int
  /-- What node 1 sends when it then handles the request of node 2. -/
  answer2 : List Effect
  deriving DecidableEq, Repr

/-- On the sample configuration node 2 calls `compare_exchange(100, 99, 1)` and node 3 calls
`write(100, 42)`, each its first call.  Node 1 handles the request of node 3; node 2 handles
what node 1 has sent to it, and its call is resumed; then node 1 handles the request of
node 2. -/
def crossScenario : CrossResult :=
  let a := (sampleNode 2).compare_exchange netUp 100 99 1
  let b := (sampleNode 3).write netUp 100 42
  let l := (sampleNode 1).run (inbox netUp 1 b.2.2)
  let m := a.2.1.run (inbox netUp 2 l.2)
  { calls := [a.1, b.1],
    commitReqs := (inbox netUp 2 l.2).map (fun p => p.2.reqId),
    result2 := (m.1.resume 1).map Prod.fst,
    value2 := m.1.get_local_value 100,
    answer2 := (l.1.run (inbox netUp 1 a.2.2)).2 }

/-- A CMPXCHG request of node 2 for variable 100 that expects the configured value 10 and
desires 6. -/
def sampleCas2 : DSMMessage :=
  { type := "REQUEST".toList, op := "CMPXCHG".toList, varId := 100, value := 6, expected := 10,
    originId := 2, groupKey := "1-2-3".toList, reqId := 1 }

/-- Three nodes and two variables whose groups, 1,2 and 1,3, differ and have the same minimum. -/
def leaderConfig : Str :=
  ("Nodes:\n1 127.0.0.1 5001\n2 127.0.0.1 5002\n3 127.0.0.1 5003\n" ++
   "Variables:\n10 0 1,2\n20 0 1,3\n").toList

/-- The node `selfId` after a `parse_config` of `leaderConfig`. -/
def leaderNode (selfId : Int) : DSM :=
  match (DSM.init selfId).parse_config (some leaderConfig) with
  | .ok (_, s) => s
  | _ => DSM.init selfId

/-- The messages the wire format can carry: no string field contains one of the two delimiters,
and every numeric field holds a value of its C++ type. -/
def validMessage (m : DSMMessage) : Prop :=
  (';' ∉ m.type ∧ '=' ∉ m.type) ∧ (';' ∉ m.op ∧ '=' ∉ m.op) ∧
  (';' ∉ m.groupKey ∧ '=' ∉ m.groupKey) ∧
  (INT_MIN ≤ m.varId ∧ m.varId ≤ INT_MAX) ∧ (INT_MIN ≤ m.value ∧ m.value ≤ INT_MAX) ∧
  (INT_MIN ≤ m.expected ∧ m.expected ≤ INT_MAX) ∧
  (INT_MIN ≤ m.originId ∧ m.originId ≤ INT_MAX) ∧
  (LLONG_MIN ≤ m.seq ∧ m.seq ≤ LLONG_MAX) ∧ (LLONG_MIN ≤ m.reqId ∧ m.reqId ≤ LLONG_MAX) ∧
  (INT_MIN ≤ m.success ∧ m.success ≤ INT_MAX)

/-- A CMPXCHG request with an empty group key and extreme numbers. -/
def sampleRequest : DSMMessage :=
  { type := "REQUEST".toList, op := "CMPXCHG".toList, varId := 3, value := -17,
    expected := 2147483647, originId := 2, groupKey := [], seq := -9223372036854775808,
    reqId := 5, success := -1 }

instance (m : DSMMessage) : Decidable (validMessage m) := by
  unfold validMessage
  infer_instance

end Lab8

namespace Lab5

/-! ## Polynomials as coefficient vectors

The polynomial code of Lab5/main.cpp, which Lab7/main.cpp repeats.  The coefficients are taken
from a commutative ring `R`: the integers for `int` arithmetic that does not overflow. -/

/-- How a call ends: with a value, in undefined behaviour (a write outside a vector), or
cut off because the recursion budget of the model is used up. -/
inductive Run (α : Type) where
  | done (a : α)
  | undefined
  | outOfFuel
  deriving DecidableEq, Repr

/-- The function `Polynomial::degree`: `coefficients.size() - 1` as an `int`; a polynomial is
its vector `coefficients`, lowest power first. -/
def degree {R : Type} (p : List R) : Int := (p.length : Int) - 1

/-- The constructor `Polynomial(int degree)`: `degree + 1` zero coefficients (none when
`degree + 1` is 0; a negative size does not occur for vectors that are not both empty). -/
def zeroPoly {R : Type} [CommRing R] (deg : Int) : List R := List.replicate (deg + 1).toNat 0

/-- The statement `v[k] += x`; `none` when `k` is outside the vector. -/
def addAt {R : Type} [CommRing R] : List R → Nat → R → Option (List R)
  | [], _, _ => none
  | a :: v, 0, x => some ((a + x) :: v)
  | a :: v, k + 1, x =>
    match addAt v k x with
    | none => none
    | some w => some (a :: w)

/-- The loop `for (j ...) result[i + j] += p1[i] * p2[j]` over the coefficients of `p2` still to
come; `ai` is `p1[i]` and `k` is `i + j`. -/
def mulInner {R : Type} [CommRing R] (ai : R) : List R → Nat → List R → Option (List R)
  | [], _, res => some res
  | bj :: r, k, res =>
    match addAt res k (ai * bj) with
    | none => none
    | some res1 => mulInner ai r (k + 1) res1

/-- The loop `for (i ...)` of `multiplyRegularSequential` over the coefficients of `p1` still
to come. -/
def mulOuter {R : Type} [CommRing R] : List R → Nat → List R → List R → Option (List R)
  | [], _, _, res => some res
  | ai :: r, i, p2, res =>
    match mulInner ai p2 i res with
    | none => none
    | some res1 => mulOuter r (i + 1) p2 res1

/-- The function `multiplyRegularSequential`. -/
def multiplyRegularSequential {R : Type} [CommRing R] (p1 p2 : List R) : Option (List R) :=
  mulOuter p1 0 p2 (zeroPoly (degree p1 + degree p2))

/-- The function `addPolynomials`: coefficient `i` of the result is the sum of the coefficients
`i` that exist. -/
def addPolynomials {R : Type} [CommRing R] : List R → List R → List R
  | [], q => q
  | a :: p, [] => a :: p
  | a :: p, b :: q => (a + b) :: addPolynomials p q

/-- The function `subtractPolynomials`. -/
def subtractPolynomials {R : Type} [CommRing R] : List R → List R → List R
  | [], q => q.map (fun b => 0 - b)
  | a :: p, [] => a :: p
  | a :: p, b :: q => (a - b) :: subtractPolynomials p q

/-- The polynomial `low` of `karatsubaSequential`: `Polynomial low(mid - 1)` (in Lab7
`low(max(0, mid - 1))`, the same vector since `mid` is at least 5 there) after the loop
`for (i = 0; i < mid && i <= p.degree(); i++) low[i] = p[i]`. -/
def lowPart {R : Type} [CommRing R] (mid : Nat) (p : List R) : List R :=
  p.take mid ++ List.replicate (mid - p.length) 0

/-- The polynomial `high` of `karatsubaSequential`: `Polynomial high(max(0, p.degree() - mid))`
after the loop `for (i = mid; i <= p.degree(); i++) high[i - mid] = p[i]`. -/
def highPart {R : Type} [CommRing R] (mid : Nat) (p : List R) : List R :=
  if degree p < mid then [0] else p.drop mid

/-- The loop `for (i = 0; i <= z.degree(); i++) result[i + shift] += z[i]` over the
coefficients of `z` still to come; `k` is `i + shift`. -/
def addLoop {R : Type} [CommRing R] : List R → Nat → List R → Option (List R)
  | [], _, res => some res
  | c :: z, k, res =>
    match addAt res k c with
    | none => none
    | some res1 => addLoop z (k + 1) res1

/-- The combine step of `karatsubaSequential`: the three loops that add `z0`, `z1` shifted by
`mid` and `z2` shifted by `2 * mid` into `Polynomial result(deg)`. -/
def combine {R : Type} [CommRing R] (deg : Int) (mid : Nat) (z0 z1 z2 : List R) :
    Option (List R) :=
  match addLoop z0 0 (zeroPoly deg) with
  | none => none
  | some r0 =>
    match addLoop z1 mid r0 with
    | none => none
    | some r1 => addLoop z2 (2 * mid) r1

/-- The body of `karatsubaSequential`; `self` stands for the function in its three recursive
calls.  `n` is positive where it is divided, so the division is the one of C++. -/
def karatsubaBody {R : Type} [CommRing R] (self : List R → List R → Run (List R))
    (p1 p2 : List R) : Run (List R) :=
  if degree p1 < 10 ∨ degree p2 < 10 then
    match multiplyRegularSequential p1 p2 with
    | some r => .done r
    | none => .undefined
  else
    let n : Int := max (degree p1) (degree p2) + 1
    let mid : Nat := (n / 2).toNat
    let low1 := lowPart mid p1
    let high1 := highPart mid p1
    let low2 := lowPart mid p2
    let high2 := highPart mid p2
    match self low1 low2 with
    | .done z0 =>
      (match self high1 high2 with
       | .done z2 =>
         (match self (addPolynomials low1 high1) (addPolynomials low2 high2) with
          | .done z1 =>
            (match combine (degree p1 + degree p2) mid z0
                (subtractPolynomials (subtractPolynomials z1 z2) z0) z2 with
             | some r => .done r
             | none => .undefined)
          | .undefined => .undefined
          | .outOfFuel => .outOfFuel)
       | .undefined => .undefined
       | .outOfFuel => .outOfFuel)
    | .undefined => .undefined
    | .outOfFuel => .outOfFuel

/-- The function `karatsubaSequential` with a budget for the depth of the recursion. -/
def karatsubaFuel {R : Type} [CommRing R] : Nat → List R → List R → Run (List R)
  | 0, _, _ => .outOfFuel
  | fuel + 1, p1, p2 => karatsubaBody (karatsubaFuel fuel) p1 p2

/-- The function `karatsubaSequential`: the recursion is less deep than the longer of the two
vectors is long. -/
def karatsubaSequential {R : Type} [CommRing R] (p1 p2 : List R) : Run (List R) :=
  karatsubaFuel (max p1.length p2.length + 1) p1 p2

/-- The value of the polynomial with coefficient vector `p` at `x`, the coefficients taken
into `S` by `f` (Horner's rule). -/
def evalAt {R S : Type} [Semiring S] (f : R → S) (x : S) : List R → S
  | [] => 0
  | a :: p => f a + x * evalAt f x p

/-- The polynomial `1 + x + ... + x^deg` that `Polynomial::random(deg)` returns. -/
def ones (deg : Nat) : List Int := List.replicate (deg + 1) 1

end Lab5

namespace Lab6

/-! ## The search for a Hamiltonian cycle

The class `HamiltonianCycleFinder` of Lab6/hamiltonian.cpp as it runs with one thread. -/

/-- How a call ends: with a value, in undefined behaviour (an index outside a vector), or cut
off because the recursion budget of the model is used up. -/
inductive Outcome (α : Type) where
  | done (a : α)
  | undefined
  | outOfFuel
  deriving DecidableEq, Repr

/-- The class `Graph`: the adjacency lists; the member `n` is the number of lists from the
constructor on. -/
structure Graph where
  adj : List (List Int)
  deriving DecidableEq, Repr

/-- The function `Graph::getVertexCount`. -/
def Graph.getVertexCount (g : Graph) : Nat := g.adj.length

/-- The function `Graph::getNeighbors`: `adj[vertex]`, `none` for an index outside `adj`. -/
def Graph.getNeighbors (g : Graph) (vertex : Int) : Option (List Int) :=
  if vertex < 0 then none else g.adj[vertex.toNat]?

/-- The members `found` and `result` of a `HamiltonianCycleFinder`. -/
structure Finder where
  found : Bool
  result : List Int
  deriving DecidableEq, Repr

/-- The function `isInPath`. -/
def isInPath (path : List Int) (vertex : Int) : Bool := decide (vertex ∈ path)

/-- The function `isHamiltonianCycle`; `none` when `path.back()` or `adj[...]` is undefined. -/
def isHamiltonianCycle (g : Graph) (startVertex : Int) (path : List Int) : Option Bool :=
  if path.length ≠ g.getVertexCount then some false
  else
    match path.getLast? with
    | none => none
    | some last =>
      match g.getNeighbors last with
      | none => none
      | some neighbors => some (decide (startVertex ∈ neighbors))

/-- The block `if (path.size() == graph.getVertexCount()) { ... return; }` of both searches. -/
def leaf (g : Graph) (startVertex : Int) (path : List Int) (st : Finder) : Outcome Finder :=
  match isHamiltonianCycle g startVertex path with
  | none => .undefined
  | some true =>
    if st.found then .done st else .done { found := true, result := path ++ [startVertex] }
  | some false => .done st

/-- The loop `for (int neighbor : neighbors)` of `sequentialSearch` over the neighbours still to
come; `self` stands for the recursive call. -/
def neighborLoop (self : List Int → Finder → Outcome Finder) (path : List Int) :
    List Int → Finder → Outcome Finder
  | [], st => .done st
  | neighbor :: rest, st =>
    if st.found then .done st
    else if isInPath path neighbor then neighborLoop self path rest st
    else
      match self (path ++ [neighbor]) st with
      | .done st1 => neighborLoop self path rest st1
      | .undefined => .undefined
      | .outOfFuel => .outOfFuel

/-- The body of `sequentialSearch`; `self` stands for the function in its recursive call. -/
def sequentialBody (g : Graph) (startVertex : Int) (self : List Int → Finder → Outcome Finder)
    (path : List Int) (st : Finder) : Outcome Finder :=
  if st.found then .done st
  else if path.length = g.getVertexCount then leaf g startVertex path st
  else
    match path.getLast? with
    | none => .undefined
    | some currentVertex =>
      match g.getNeighbors currentVertex with
      | none => .undefined
      | some neighbors => neighborLoop self path neighbors st

/-- The function `sequentialSearch` with a budget for the depth of the recursion. -/
def sequentialFuel (g : Graph) (startVertex : Int) :
    Nat → List Int → Finder → Outcome Finder
  | 0, _, _ => .outOfFuel
  | fuel + 1, path, st =>
    sequentialBody g startVertex (sequentialFuel g startVertex fuel) path st

/-- The function `sequentialSearch`: a path grows by one vertex per level of the recursion. -/
def sequentialSearch (g : Graph) (startVertex : Int) (path : List Int) (st : Finder) :
    Outcome Finder :=
  sequentialFuel g startVertex (g.getVertexCount + 1) path st

/-- The loop `for (int neighbor : validNeighbors)` of `parallelSearch`. -/
def validLoop (self : List Int → Finder → Outcome Finder) (path : List Int) :
    List Int → Finder → Outcome Finder
  | [], st => .done st
  | neighbor :: rest, st =>
    if st.found then .done st
    else
      match self (path ++ [neighbor]) st with
      | .done st1 => validLoop self path rest st1
      | .undefined => .undefined
      | .outOfFuel => .outOfFuel

/-- The function `parallelSearch` for `threadsAvailable <= 1`, where no thread is created. -/
def parallelSearch (g : Graph) (startVertex : Int) (path : List Int) (st : Finder) :
    Outcome Finder :=
  if st.found then .done st
  else if path.length = g.getVertexCount then leaf g startVertex path st
  else
    match path.getLast? with
    | none => .undefined
    | some currentVertex =>
      match g.getNeighbors currentVertex with
      | none => .undefined
      | some neighbors =>
        let validNeighbors := neighbors.filter (fun neighbor => !isInPath path neighbor)
        if validNeighbors = [] then .done st
        else validLoop (sequentialSearch g startVertex) path validNeighbors st

/-- The function `findHamiltonianCycle` of a finder constructed with one thread. -/
def findHamiltonianCycle (g : Graph) (startVertex : Int) : Outcome (List Int) :=
  match parallelSearch g startVertex [startVertex] { found := false, result := [] } with
  | .done st => .done st.result
  | .undefined => .undefined
  | .outOfFuel => .outOfFuel

/-- Whether `adj[u]` exists and contains `v`. -/
def Graph.hasEdge (g : Graph) (u v : Int) : Bool :=
  match g.getNeighbors u with
  | some neighbors => decide (v ∈ neighbors)
  | none => false

/-- Every adjacency entry is a vertex index: at least 0 and below the vertex count. -/
def Graph.validEntries (g : Graph) : Prop :=
  ∀ l ∈ g.adj, ∀ v ∈ l, 0 ≤ v ∧ v < (g.getVertexCount : Int)

/-- What a list has to be to close a Hamiltonian cycle through `startVertex`: `n + 1` entries,
the first and the last `startVertex`, every vertex exactly once among the first `n`, and an
edge from every entry to the next. -/
def Graph.isCycle (g : Graph) (startVertex : Int) (r : List Int) : Prop :=
  r.length = g.getVertexCount + 1 ∧ r.head? = some startVertex ∧
    r.getLast? = some startVertex ∧
    (∀ v : Int, 0 ≤ v → v < (g.getVertexCount : Int) →
      (r.take g.getVertexCount).count v = 1) ∧
    List.Chain' (fun u v => g.hasEdge u v = true) r

/-- A path the search can stand on: it begins with `startVertex`, repeats no vertex, holds
vertex indices only, and has an edge from every entry to the next. -/
def Graph.isPath (g : Graph) (startVertex : Int) (path : List Int) : Prop :=
  path.head? = some startVertex ∧ path.Nodup ∧
    (∀ v ∈ path, 0 ≤ v ∧ v < (g.getVertexCount : Int)) ∧
    List.Chain' (fun u v => g.hasEdge u v = true) path

/-- The member `result` is empty or closes a Hamiltonian cycle through `startVertex`. -/
def Graph.goodResult (g : Graph) (startVertex : Int) (st : Finder) : Prop :=
  st.result = [] ∨ g.isCycle startVertex st.result

instance (g : Graph) : Decidable g.validEntries := by
  unfold Graph.validEntries
  infer_instance

/-- The function `createCompleteGraph` for three vertices. -/
def complete3 : Graph := ⟨[[1, 2], [0, 2], [0, 1]]⟩

/-- The function `createNonCyclicGraph` for three vertices. -/
def line3 : Graph := ⟨[[1], [0, 2], [1]]⟩

end Lab6

/-! # Theorems -/

namespace Lab8

/-! ## The wire codec -/

theorem splitLoop_append_sep (sep : Char) (w rest : Str) (hw : sep ∉ w) (item : Str) :
    splitLoop sep (w ++ sep :: rest) item =
      if item ++ w = [] then splitLoop sep rest [] else (item ++ w) :: splitLoop sep rest [] := by
  induction w generalizing item with
  | nil => simp [splitLoop]
  | cons c cs ih =>
    have hc : c ≠ sep := fun h => hw (by simp [h])
    have hcs : sep ∉ cs := fun h => hw (by simp [h])
    simp [splitLoop, hc, ih hcs]

theorem splitLoop_nosep (sep : Char) (w : Str) (hw : sep ∉ w) (item : Str) :
    splitLoop sep w item = if item ++ w = [] then [] else [item ++ w] := by
  induction w generalizing item with
  | nil => simp [splitLoop]
  | cons c cs ih =>
    have hc : c ≠ sep := fun h => hw (by simp [h])
    have hcs : sep ∉ cs := fun h => hw (by simp [h])
    simp [splitLoop, hc, ih hcs]

theorem digitChar_isDigit (d : Nat) : isDigit (digitChar d) = true := by
  unfold digitChar
  split <;> decide

theorem digitChar_val (d : Nat) (h : d < 10) : (digitChar d).toNat - '0'.toNat = d := by
  interval_cases d <;> rfl

theorem digitsValue_append (ds : Str) (c : Char) :
    digitsValue (ds ++ [c]) = 10 * digitsValue ds + (c.toNat - '0'.toNat) := by
  simp [digitsValue, List.foldl_append]

theorem natToStrAux_spec (fuel n : Nat) (acc : Str) (h : n < fuel) :
    ∃ ds : Str, natToStrAux fuel n acc = ds ++ acc ∧ ds ≠ [] ∧
      (∀ c ∈ ds, isDigit c = true) ∧ digitsValue ds = n := by
  induction fuel generalizing n acc with
  | zero => omega
  | succ fuel ih =>
    unfold natToStrAux
    by_cases h10 : n < 10
    · refine ⟨[digitChar n], by simp [h10], by simp, ?_, ?_⟩
      · intro c hc
        simp at hc
        rw [hc]; exact digitChar_isDigit n
      · have hv := digitChar_val n h10
        simpa [digitsValue] using hv
    · obtain ⟨ds, h1, h2, h3, h4⟩ := ih (n / 10) (digitChar (n % 10) :: acc) (by omega)
      refine ⟨ds ++ [digitChar (n % 10)], by simp [h10, h1], by simp, ?_, ?_⟩
      · intro c hc
        rcases List.mem_append.1 hc with hc | hc
        · exact h3 c hc
        · simp at hc
          rw [hc]; exact digitChar_isDigit _
      · rw [digitsValue_append, h4, digitChar_val _ (Nat.mod_lt _ (by decide))]
        omega

theorem natToStr_spec (n : Nat) :
    natToStr n ≠ [] ∧ (∀ c ∈ natToStr n, isDigit c = true) ∧ digitsValue (natToStr n) = n := by
  obtain ⟨ds, h1, h2, h3, h4⟩ := natToStrAux_spec (n + 1) n [] (by omega)
  have : natToStr n = ds := by simp [natToStr, h1]
  rw [this]
  exact ⟨h2, h3, h4⟩

theorem isDigit_not_special (c : Char) (h : isDigit c = true) :
    isSpace c = false ∧ c ≠ '-' ∧ c ≠ '+' ∧ c ≠ ';' ∧ c ≠ '=' := by
  simp only [isDigit, Bool.and_eq_true, decide_eq_true_eq] at h
  have h1 : 48 ≤ c.toNat := h.1
  have h2 : c.toNat ≤ 57 := h.2
  refine ⟨?_, ?_, ?_, ?_, ?_⟩
  · simp only [isSpace, Bool.or_eq_false_iff, decide_eq_false_iff_not]
    refine ⟨⟨⟨⟨⟨?_, ?_⟩, ?_⟩, ?_⟩, ?_⟩, ?_⟩ <;>
    · intro hc
      rw [hc] at h1
      revert h1
      decide
  all_goals
    intro hc
    rw [hc] at h1 h2
    revert h1 h2
    decide

theorem takeWhile_all {α : Type} (p : α → Bool) (l : List α) (h : ∀ a ∈ l, p a = true) :
    l.takeWhile p = l := by
  induction l with
  | nil => rfl
  | cons a l ih =>
    have ha : p a = true := h a (by simp)
    simp [List.takeWhile, ha, ih (fun b hb => h b (by simp [hb]))]

theorem strtoInt_natToStr (n : Nat) : strtoInt (natToStr n) = some (n : Int) := by
  obtain ⟨h1, h2, h3⟩ := natToStr_spec n
  cases hs : natToStr n with
  | nil => exact absurd hs h1
  | cons c cs =>
    rw [hs] at h2 h3
    have hc := isDigit_not_special c (h2 c (by simp))
    have htw : (c :: cs).takeWhile isDigit = c :: cs := takeWhile_all _ _ h2
    have hdw : (c :: cs).dropWhile isSpace = c :: cs := by simp [List.dropWhile, hc.1]
    unfold strtoInt
    simp only [hdw]
    have hneg : (match c :: cs with | '-' :: _ => true | _ => false) = false := by
      split
      · rename_i heq
        simp at heq
        exact absurd heq.1 hc.2.1
      · rfl
    have hs2 : (match c :: cs with | '-' :: r => r | '+' :: r => r | _ => c :: cs) = c :: cs := by
      split
      · rename_i heq
        simp at heq
        exact absurd heq.1 hc.2.1
      · rename_i heq
        simp at heq
        exact absurd heq.1 hc.2.2.1
      · rfl
    rw [hneg, hs2, htw]
    simp [h3]

theorem strtoInt_intToStr (x : Int) : strtoInt (intToStr x) = some x := by
  unfold intToStr
  by_cases hx : x < 0
  · simp only [hx, if_true]
    obtain ⟨h1, h2, h3⟩ := natToStr_spec x.natAbs
    have htw : (natToStr x.natAbs).takeWhile isDigit = natToStr x.natAbs := takeWhile_all _ _ h2
    have hsp : isSpace '-' = false := by decide
    have hval : -((x.natAbs : Nat) : Int) = x := by omega
    unfold strtoInt
    simp only [List.dropWhile, hsp, htw]
    simp only [h1, h3, if_false, if_true, hval]
  · simp only [hx, if_false]
    rw [strtoInt_natToStr]
    congr 1
    omega

theorem stoi_intToStr (x : Int) (h : INT_MIN ≤ x ∧ x ≤ INT_MAX) : stoi (intToStr x) = .ok x := by
  simp [stoi, strtoInt_intToStr, h]

theorem stoll_intToStr (x : Int) (h : LLONG_MIN ≤ x ∧ x ≤ LLONG_MAX) :
    stoll (intToStr x) = .ok x := by
  simp [stoll, strtoInt_intToStr, h]

theorem intToStr_ne_nil (x : Int) : intToStr x ≠ [] := by
  unfold intToStr
  split
  · simp
  · exact (natToStr_spec _).1

theorem intToStr_chars (x : Int) : ';' ∉ intToStr x ∧ '=' ∉ intToStr x := by
  have key : ∀ c ∈ intToStr x, c ≠ ';' ∧ c ≠ '=' := by
    intro c hc
    unfold intToStr at hc
    split at hc
    · rcases List.mem_cons.1 hc with hc | hc
      · rw [hc]; decide
      · have := isDigit_not_special c ((natToStr_spec _).2.1 c hc)
        exact ⟨this.2.2.2.1, this.2.2.2.2⟩
    · have := isDigit_not_special c ((natToStr_spec _).2.1 c hc)
      exact ⟨this.2.2.2.1, this.2.2.2.2⟩
  exact ⟨fun h => (key _ h).1 rfl, fun h => (key _ h).2 rfl⟩

end Lab8

namespace Lab8

theorem serialize_eq (m : DSMMessage) :
    serialize m =
      "type".toList ++ '=' :: (m.type ++ ';' ::
      ("op".toList ++ '=' :: (m.op ++ ';' ::
      ("var".toList ++ '=' :: (intToStr m.varId ++ ';' ::
      ("value".toList ++ '=' :: (intToStr m.value ++ ';' ::
      ("expected".toList ++ '=' :: (intToStr m.expected ++ ';' ::
      ("origin".toList ++ '=' :: (intToStr m.originId ++ ';' ::
      ("group".toList ++ '=' :: (m.groupKey ++ ';' ::
      ("seq".toList ++ '=' :: (intToStr m.seq ++ ';' ::
      ("req".toList ++ '=' :: (intToStr m.reqId ++ ';' ::
      ("success".toList ++ '=' :: (intToStr m.success ++ ';' :: []))))))))))))))))))) := by
  simp only [serialize, List.append_assoc]
  rfl

theorem splitLoop_field (k v rest : Str) (hk : k ≠ []) (hk2 : ';' ∉ k) (hv : ';' ∉ v) :
    splitLoop ';' (k ++ '=' :: (v ++ ';' :: rest)) [] =
      (k ++ '=' :: v) :: splitLoop ';' rest [] := by
  have h : k ++ '=' :: (v ++ ';' :: rest) = (k ++ '=' :: v) ++ ';' :: rest := by simp
  have hw : ';' ∉ k ++ '=' :: v := by
    intro hm
    rcases List.mem_append.1 hm with hm | hm
    · exact hk2 hm
    · rcases List.mem_cons.1 hm with hm | hm
      · revert hm; decide
      · exact hv hm
  rw [h, splitLoop_append_sep ';' _ rest hw []]
  simp [hk]

theorem split_pair (k v : Str) (hk : k ≠ []) (hk2 : '=' ∉ k) (hv : '=' ∉ v) :
    split (k ++ '=' :: v) '=' = if v = [] then [k] else [k, v] := by
  unfold split
  rw [splitLoop_append_sep '=' k v hk2 [], splitLoop_nosep '=' v hv []]
  by_cases h : v = [] <;> simp [hk, h]

theorem deserializeLoop_pair (k v : Str) (rest : List Str) (m : DSMMessage)
    (hk : k ≠ []) (hk2 : '=' ∉ k) (hv : '=' ∉ v) (hne : v ≠ []) :
    deserializeLoop ((k ++ '=' :: v) :: rest) m =
      match setField m k v with
      | .ok m1 => deserializeLoop rest m1
      | .error e => .error e := by
  rw [deserializeLoop, split_pair k v hk hk2 hv]
  simp only [hne, if_false]

theorem deserializeLoop_single (k : Str) (rest : List Str) (m : DSMMessage)
    (hk : k ≠ []) (hk2 : '=' ∉ k) :
    deserializeLoop ((k ++ '=' :: []) :: rest) m = deserializeLoop rest m := by
  rw [deserializeLoop, split_pair k [] hk hk2 (by simp)]
  simp

end Lab8

namespace Lab8

theorem split_serialize (m : DSMMessage) (h : validMessage m) :
    split (serialize m) ';' =
      [ "type".toList ++ '=' :: m.type, "op".toList ++ '=' :: m.op,
        "var".toList ++ '=' :: intToStr m.varId, "value".toList ++ '=' :: intToStr m.value,
        "expected".toList ++ '=' :: intToStr m.expected,
        "origin".toList ++ '=' :: intToStr m.originId,
        "group".toList ++ '=' :: m.groupKey, "seq".toList ++ '=' :: intToStr m.seq,
        "req".toList ++ '=' :: intToStr m.reqId,
        "success".toList ++ '=' :: intToStr m.success ] := by
  obtain ⟨ht, ho, hg, -⟩ := h
  unfold split
  rw [serialize_eq,
    splitLoop_field _ _ _ (by decide) (by decide) ht.1,
    splitLoop_field _ _ _ (by decide) (by decide) ho.1,
    splitLoop_field _ _ _ (by decide) (by decide) (intToStr_chars _).1,
    splitLoop_field _ _ _ (by decide) (by decide) (intToStr_chars _).1,
    splitLoop_field _ _ _ (by decide) (by decide) (intToStr_chars _).1,
    splitLoop_field _ _ _ (by decide) (by decide) (intToStr_chars _).1,
    splitLoop_field _ _ _ (by decide) (by decide) hg.1,
    splitLoop_field _ _ _ (by decide) (by decide) (intToStr_chars _).1,
    splitLoop_field _ _ _ (by decide) (by decide) (intToStr_chars _).1,
    splitLoop_field _ _ _ (by decide) (by decide) (intToStr_chars _).1]
  rfl

theorem deserializeLoop_type (v : Str) (rest : List Str) (m : DSMMessage) (hv : '=' ∉ v)
    (hd : v = [] → m.type = []) :
    deserializeLoop (("type".toList ++ '=' :: v) :: rest) m =
      deserializeLoop rest { m with type := v } := by
  by_cases hne : v = []
  · subst hne
    rw [deserializeLoop_single _ _ _ (by decide) (by decide)]
    congr 1
    cases m
    simp only at hd
    simp [hd]
  · rw [deserializeLoop_pair _ _ _ _ (by decide) (by decide) hv hne]
    rfl

theorem deserializeLoop_op (v : Str) (rest : List Str) (m : DSMMessage) (hv : '=' ∉ v)
    (hd : v = [] → m.op = []) :
    deserializeLoop (("op".toList ++ '=' :: v) :: rest) m =
      deserializeLoop rest { m with op := v } := by
  by_cases hne : v = []
  · subst hne
    rw [deserializeLoop_single _ _ _ (by decide) (by decide)]
    congr 1
    cases m
    simp only at hd
    simp [hd]
  · rw [deserializeLoop_pair _ _ _ _ (by decide) (by decide) hv hne]
    rfl

theorem deserializeLoop_group (v : Str) (rest : List Str) (m : DSMMessage) (hv : '=' ∉ v)
    (hd : v = [] → m.groupKey = []) :
    deserializeLoop (("group".toList ++ '=' :: v) :: rest) m =
      deserializeLoop rest { m with groupKey := v } := by
  by_cases hne : v = []
  · subst hne
    rw [deserializeLoop_single _ _ _ (by decide) (by decide)]
    congr 1
    cases m
    simp only at hd
    simp [hd]
  · rw [deserializeLoop_pair _ _ _ _ (by decide) (by decide) hv hne]
    rfl

theorem deserializeLoop_num (k : Str) (x : Int) (rest : List Str) (m m1 : DSMMessage)
    (hk : k ≠ []) (hk2 : '=' ∉ k) (hset : setField m k (intToStr x) = .ok m1) :
    deserializeLoop ((k ++ '=' :: intToStr x) :: rest) m = deserializeLoop rest m1 := by
  rw [deserializeLoop_pair _ _ _ _ hk hk2 (intToStr_chars x).2 (intToStr_ne_nil x), hset]

end Lab8

namespace Lab8

theorem setField_var (m : DSMMessage) (v : Str) :
    setField m "var".toList v = (stoi v).map (fun x => { m with varId := x }) := by
  unfold setField
  rw [if_neg (by decide), if_neg (by decide), if_pos rfl]

theorem setField_value (m : DSMMessage) (v : Str) :
    setField m "value".toList v = (stoi v).map (fun x => { m with value := x }) := by
  unfold setField
  rw [if_neg (by decide), if_neg (by decide), if_neg (by decide), if_pos rfl]

theorem setField_expected (m : DSMMessage) (v : Str) :
    setField m "expected".toList v = (stoi v).map (fun x => { m with expected := x }) := by
  unfold setField
  rw [if_neg (by decide), if_neg (by decide), if_neg (by decide), if_neg (by decide), if_pos rfl]

theorem setField_origin (m : DSMMessage) (v : Str) :
    setField m "origin".toList v = (stoi v).map (fun x => { m with originId := x }) := by
  unfold setField
  rw [if_neg (by decide), if_neg (by decide), if_neg (by decide), if_neg (by decide), if_neg (by decide), if_pos rfl]

theorem setField_seq (m : DSMMessage) (v : Str) :
    setField m "seq".toList v = (stoll v).map (fun x => { m with seq := x }) := by
  unfold setField
  rw [if_neg (by decide), if_neg (by decide), if_neg (by decide), if_neg (by decide), if_neg (by decide), if_neg (by decide), if_neg (by decide), if_pos rfl]

theorem setField_req (m : DSMMessage) (v : Str) :
    setField m "req".toList v = (stoll v).map (fun x => { m with reqId := x }) := by
  unfold setField
  rw [if_neg (by decide), if_neg (by decide), if_neg (by decide), if_neg (by decide), if_neg (by decide), if_neg (by decide), if_neg (by decide), if_neg (by decide), if_pos rfl]

theorem setField_success (m : DSMMessage) (v : Str) :
    setField m "success".toList v = (stoi v).map (fun x => { m with success := x }) := by
  unfold setField
  rw [if_neg (by decide), if_neg (by decide), if_neg (by decide), if_neg (by decide), if_neg (by decide), if_neg (by decide), if_neg (by decide), if_neg (by decide), if_neg (by decide), if_pos rfl]

theorem deserializeLoop_var (x : Int) (rest : List Str) (m : DSMMessage)
    (hx : INT_MIN ≤ x ∧ x ≤ INT_MAX) :
    deserializeLoop (("var".toList ++ '=' :: intToStr x) :: rest) m =
      deserializeLoop rest { m with varId := x } :=
  deserializeLoop_num _ x rest m _ (by decide) (by decide)
    (by rw [setField_var, stoi_intToStr x hx]; rfl)

theorem deserializeLoop_value (x : Int) (rest : List Str) (m : DSMMessage)
    (hx : INT_MIN ≤ x ∧ x ≤ INT_MAX) :
    deserializeLoop (("value".toList ++ '=' :: intToStr x) :: rest) m =
      deserializeLoop rest { m with value := x } :=
  deserializeLoop_num _ x rest m _ (by decide) (by decide)
    (by rw [setField_value, stoi_intToStr x hx]; rfl)

theorem deserializeLoop_expected (x : Int) (rest : List Str) (m : DSMMessage)
    (hx : INT_MIN ≤ x ∧ x ≤ INT_MAX) :
    deserializeLoop (("expected".toList ++ '=' :: intToStr x) :: rest) m =
      deserializeLoop rest { m with expected := x } :=
  deserializeLoop_num _ x rest m _ (by decide) (by decide)
    (by rw [setField_expected, stoi_intToStr x hx]; rfl)

theorem deserializeLoop_origin (x : Int) (rest : List Str) (m : DSMMessage)
    (hx : INT_MIN ≤ x ∧ x ≤ INT_MAX) :
    deserializeLoop (("origin".toList ++ '=' :: intToStr x) :: rest) m =
      deserializeLoop rest { m with originId := x } :=
  deserializeLoop_num _ x rest m _ (by decide) (by decide)
    (by rw [setField_origin, stoi_intToStr x hx]; rfl)

theorem deserializeLoop_seq (x : Int) (rest : List Str) (m : DSMMessage)
    (hx : LLONG_MIN ≤ x ∧ x ≤ LLONG_MAX) :
    deserializeLoop (("seq".toList ++ '=' :: intToStr x) :: rest) m =
      deserializeLoop rest { m with seq := x } :=
  deserializeLoop_num _ x rest m _ (by decide) (by decide)
    (by rw [setField_seq, stoll_intToStr x hx]; rfl)

theorem deserializeLoop_req (x : Int) (rest : List Str) (m : DSMMessage)
    (hx : LLONG_MIN ≤ x ∧ x ≤ LLONG_MAX) :
    deserializeLoop (("req".toList ++ '=' :: intToStr x) :: rest) m =
      deserializeLoop rest { m with reqId := x } :=
  deserializeLoop_num _ x rest m _ (by decide) (by decide)
    (by rw [setField_req, stoll_intToStr x hx]; rfl)

theorem deserializeLoop_success (x : Int) (rest : List Str) (m : DSMMessage)
    (hx : INT_MIN ≤ x ∧ x ≤ INT_MAX) :
    deserializeLoop (("success".toList ++ '=' :: intToStr x) :: rest) m =
      deserializeLoop rest { m with success := x } :=
  deserializeLoop_num _ x rest m _ (by decide) (by decide)
    (by rw [setField_success, stoi_intToStr x hx]; rfl)

/-- C1: for every message whose string fields (type, op, groupKey) contain neither `;` nor `=`
(empty strings included) and whose numeric fields hold values of their C++ type (negative ones
included), `deserialize (serialize m)` returns normally and yields `m`, field for field. -/
theorem deserialize_serialize (m : DSMMessage) (h : validMessage m) :
    deserialize (serialize m) = .ok m := by
  have hs := split_serialize m h
  obtain ⟨ht, ho, hg, hvar, hval, hexp, horg, hseq, hreq, hsuc⟩ := h
  unfold deserialize
  rw [hs, deserializeLoop_type _ _ _ ht.2 (fun _ => rfl),
    deserializeLoop_op _ _ _ ho.2 (fun _ => rfl),
    deserializeLoop_var _ _ _ hvar, deserializeLoop_value _ _ _ hval,
    deserializeLoop_expected _ _ _ hexp, deserializeLoop_origin _ _ _ horg,
    deserializeLoop_group _ _ _ hg.2 (fun _ => rfl),
    deserializeLoop_seq _ _ _ hseq, deserializeLoop_req _ _ _ hreq,
    deserializeLoop_success _ _ _ hsuc]
  rfl

/-- Witness for C1: a CMPXCHG request with an empty group key and negative numbers. -/
theorem deserialize_serialize_witness :
    validMessage sampleRequest ∧ deserialize (serialize sampleRequest) = .ok sampleRequest :=
  ⟨by decide, deserialize_serialize sampleRequest (by decide)⟩

end Lab8

namespace Lab8

/-! ## Maps -/

theorem Map.find_set_same {K V : Type} [DecidableEq K] (m : Map K V) (k : K) (v : V) :
    Map.find (Map.set m k v) k = some v := by
  induction m with
  | nil => simp [Map.set, Map.find]
  | cons e r ih =>
    obtain ⟨k1, v1⟩ := e
    by_cases h : k1 = k <;> simp [Map.set, Map.find, h, ih]

theorem Map.find_set_other {K V : Type} [DecidableEq K] (m : Map K V) (k k2 : K) (v : V)
    (h : k2 ≠ k) : Map.find (Map.set m k v) k2 = Map.find m k2 := by
  induction m with
  | nil =>
    have h2 : ¬ k = k2 := fun e => h e.symm
    simp [Map.set, Map.find, h2]
  | cons e r ih =>
    obtain ⟨k1, v1⟩ := e
    by_cases h1 : k1 = k
    · subst h1
      have h2 : ¬ k1 = k2 := fun e => h e.symm
      simp [Map.set, Map.find, h2]
    · by_cases h3 : k1 = k2
      · subst h3
        simp [Map.set, Map.find, h1]
      · simp [Map.set, Map.find, h1, h3, ih]

theorem Map.find_append_none {K V : Type} [DecidableEq K] (m : Map K V) (k k2 : K) (d : V)
    (h : Map.find m k = none) :
    Map.find (m ++ [(k, d)]) k2 = if k = k2 then some d else Map.find m k2 := by
  induction m with
  | nil => simp [Map.find]
  | cons e r ih =>
    obtain ⟨k1, v1⟩ := e
    by_cases h1 : k1 = k
    · simp [Map.find, h1] at h
    · simp only [Map.find, h1, if_false] at h
      by_cases h3 : k1 = k2
      · have h4 : ¬ k = k2 := fun e => h1 (h3.trans e.symm)
        simp [Map.find, h3, h4]
      · simp [Map.find, h3, ih h]

theorem Map.find_touch_getD {K V : Type} [DecidableEq K] (m : Map K V) (k k2 : K) (d : V) :
    (Map.find (Map.touch m k d) k2).getD d = (Map.find m k2).getD d := by
  unfold Map.touch
  cases h : Map.find m k with
  | some v => rfl
  | none =>
    simp only
    rw [Map.find_append_none m k k2 d h]
    by_cases h2 : k = k2
    · subst h2
      simp [h]
    · simp [h2]

theorem Map.touch_of_find {K V : Type} [DecidableEq K] (m : Map K V) (k : K) (d v : V)
    (h : Map.find m k = some v) : Map.touch m k d = m := by
  simp [Map.touch, h]

end Lab8

namespace Lab8

/-! ## The leader's handling of requests -/

theorem broadcastLoop_trace (net : Net) (s : DSM) (msg : DSMMessage) (l : List Int) (ok : Bool) :
    (DSM.broadcastLoop net s msg l ok).2 = l.map (fun nid => Effect.send nid msg) := by
  induction l generalizing ok with
  | nil => rfl
  | cons nid r ih => simp [DSM.broadcastLoop, ih]

theorem broadcast_to_group_trace (net : Net) (s : DSM) (key : Str) (msg : DSMMessage)
    (members : List Int) (h : Map.find s.groupMembers_ key = some members) :
    (s.broadcast_to_group net key msg).2 = members.map (fun nid => Effect.send nid msg) := by
  simp [DSM.broadcast_to_group, h, broadcastLoop_trace]

theorem handle_message_request (net : Net) (s : DSM) (req : DSMMessage)
    (htype : req.type = "REQUEST".toList) (hlead : s.is_leader_for_group req.groupKey = true) :
    s.handle_message net req = s.handle_request_as_leader net req := by
  unfold DSM.handle_message
  rw [if_pos htype, if_pos hlead]

theorem handle_request_write (net : Net) (s : DSM) (req : DSMMessage) (members : List Int)
    (hop : req.op = "WRITE".toList)
    (hmem : Map.find s.groupMembers_ req.groupKey = some members) :
    s.handle_request_as_leader net req =
      ({ s with groupNextSeq_ :=
            Map.set s.groupNextSeq_ req.groupKey (s.seqOf req.groupKey + 1) },
        members.map (fun nid => Effect.send nid (writeCommit req (s.seqOf req.groupKey)))) := by
  unfold DSM.handle_request_as_leader
  rw [hmem]
  simp only
  rw [if_pos hop]
  simp only [DSM.broadcast_to_group, hmem, broadcastLoop_trace, DSM.seqOf, writeCommit, hop]

/-- C4: when the leader handles a WRITE REQUEST for a group it leads, it calls
`send_message_to` once per entry of the member list with one COMMIT whose varId, value,
groupKey and reqId are those of the request and whose seq is the value the group's counter had;
the counter of that group grows by exactly 1; the counters of the other groups, the variable
store and the pending table stay as they were. -/
theorem handle_write_request (net : Net) (s : DSM) (req : DSMMessage) (members : List Int)
    (htype : req.type = "REQUEST".toList) (hop : req.op = "WRITE".toList)
    (hlead : s.is_leader_for_group req.groupKey = true)
    (hmem : Map.find s.groupMembers_ req.groupKey = some members) :
    (s.handle_message net req).2 =
        members.map (fun nid => Effect.send nid (writeCommit req (s.seqOf req.groupKey))) ∧
      (s.handle_message net req).1.seqOf req.groupKey = s.seqOf req.groupKey + 1 ∧
      (∀ key, key ≠ req.groupKey →
        Map.find (s.handle_message net req).1.groupNextSeq_ key = Map.find s.groupNextSeq_ key) ∧
      (s.handle_message net req).1.varValue_ = s.varValue_ ∧
      (s.handle_message net req).1.pending_ = s.pending_ := by
  rw [handle_message_request net s req htype hlead, handle_request_write net s req members hop hmem]
  refine ⟨rfl, ?_, ?_, rfl, rfl⟩
  · simp [DSM.seqOf, Map.find_set_same]
  · intro key hkey
    exact Map.find_set_other _ _ _ _ hkey

end Lab8

namespace Lab8

/-! ## Applying a COMMIT -/

theorem get_local_value_eq (s : DSM) (v : Int) :
    s.get_local_value v = (Map.find s.varValue_ v).getD 0 := by
  unfold DSM.get_local_value
  cases Map.find s.varValue_ v <;> rfl

theorem apply_commit_varValue (s : DSM) (c : DSMMessage) :
    (s.apply_commit c).1.varValue_ = Map.set s.varValue_ c.varId c.value := by
  unfold DSM.apply_commit
  cases hp : Map.find s.pending_ c.reqId <;> cases hc : s.callback_ <;> simp [hp, hc]

theorem apply_commit_pending (s : DSM) (c : DSMMessage) :
    (s.apply_commit c).1.pending_ =
      match Map.find s.pending_ c.reqId with
      | some _ => Map.set s.pending_ c.reqId { done := true, success := true }
      | none => s.pending_ := by
  unfold DSM.apply_commit
  cases hp : Map.find s.pending_ c.reqId <;> cases hc : s.callback_ <;> simp [hp, hc]

theorem apply_commit_trace (s : DSM) (c : DSMMessage) :
    (s.apply_commit c).2 =
      match s.callback_ with
      | some cb => [Effect.callback cb c.varId c.value c.seq]
      | none => [] := by
  unfold DSM.apply_commit
  cases hp : Map.find s.pending_ c.reqId <;> cases hc : s.callback_ <;> simp [hp, hc]

theorem handle_message_commit (net : Net) (s : DSM) (c : DSMMessage)
    (h : c.type = "COMMIT".toList) : s.handle_message net c = s.apply_commit c := by
  unfold DSM.handle_message
  rw [if_neg (by rw [h]; decide), if_pos h]

theorem apply_commit_value (s : DSM) (c : DSMMessage) :
    (s.apply_commit c).1.get_local_value c.varId = c.value := by
  rw [get_local_value_eq, apply_commit_varValue, Map.find_set_same]
  rfl

theorem apply_commit_resolves (s : DSM) (c : DSMMessage) (pr : PendingReq)
    (hpr : Map.find s.pending_ c.reqId = some pr) :
    Map.find (s.apply_commit c).1.pending_ c.reqId = some { done := true, success := true } := by
  rw [apply_commit_pending, hpr]
  exact Map.find_set_same _ _ _

/-- C5: applying a COMMIT `c` sets the local value of `c.varId` to `c.value` and leaves the
entry of every other variable as it was; a pending request keyed by `c.reqId` becomes done with
success = true, every other pending request is untouched, and without such a request the
pending table is unchanged; the registered change callback (the one of the latest `on_change`)
is called exactly once with `(c.varId, c.value, c.seq)`, and nothing is called when none is
registered. -/
theorem apply_commit_spec (s : DSM) (c : DSMMessage) :
    (s.apply_commit c).1.get_local_value c.varId = c.value ∧
      (∀ v, v ≠ c.varId →
        Map.find (s.apply_commit c).1.varValue_ v = Map.find s.varValue_ v) ∧
      (∀ pr, Map.find s.pending_ c.reqId = some pr →
        Map.find (s.apply_commit c).1.pending_ c.reqId =
          some { done := true, success := true }) ∧
      (∀ id, id ≠ c.reqId →
        Map.find (s.apply_commit c).1.pending_ id = Map.find s.pending_ id) ∧
      (Map.find s.pending_ c.reqId = none → (s.apply_commit c).1.pending_ = s.pending_) ∧
      (∀ cb, s.callback_ = some cb →
        (s.apply_commit c).2 = [Effect.callback cb c.varId c.value c.seq]) ∧
      (s.callback_ = none → (s.apply_commit c).2 = []) ∧
      (∀ cb, (s.on_change cb).callback_ = cb) := by
  refine ⟨?_, ?_, ?_, ?_, ?_, ?_, ?_, fun _ => rfl⟩
  · rw [get_local_value_eq, apply_commit_varValue, Map.find_set_same]
    rfl
  · intro v hv
    rw [apply_commit_varValue, Map.find_set_other _ _ _ _ hv]
  · intro pr hpr
    rw [apply_commit_pending, hpr]
    exact Map.find_set_same _ _ _
  · intro id hid
    rw [apply_commit_pending]
    cases hp : Map.find s.pending_ c.reqId with
    | none => rfl
    | some pr => exact Map.find_set_other _ _ _ _ hid
  · intro hp
    rw [apply_commit_pending, hp]
  · intro cb hcb
    rw [apply_commit_trace, hcb]
  · intro hcb
    rw [apply_commit_trace, hcb]

theorem resume_of_done (s : DSM) (reqId : Int) (b : Bool)
    (h : Map.find s.pending_ reqId = some { done := true, success := b }) :
    (s.resume reqId).map Prod.fst = some b := by
  simp [DSM.resume, h]

end Lab8

namespace Lab8

/-! ## Compare-and-swap at the leader -/

theorem handle_request_cmpxchg_match (net : Net) (s : DSM) (req : DSMMessage)
    (members : List Int) (hop : req.op = "CMPXCHG".toList)
    (hmem : Map.find s.groupMembers_ req.groupKey = some members)
    (hcur : s.get_local_value req.varId = req.expected) :
    s.handle_request_as_leader net req =
      ({ s with varValue_ := Map.touch s.varValue_ req.varId 0,
                groupNextSeq_ :=
                  Map.set s.groupNextSeq_ req.groupKey (s.seqOf req.groupKey + 1) },
        members.map (fun nid => Effect.send nid (cmpxchgCommit req (s.seqOf req.groupKey)))) := by
  rw [get_local_value_eq] at hcur
  unfold DSM.handle_request_as_leader
  rw [hmem]
  simp only
  rw [if_neg (by rw [hop]; decide), if_pos hop, if_pos hcur]
  simp only [DSM.broadcast_to_group, hmem, broadcastLoop_trace, DSM.seqOf, cmpxchgCommit, hop]

theorem handle_request_cmpxchg_mismatch (net : Net) (s : DSM) (req : DSMMessage)
    (members : List Int) (hop : req.op = "CMPXCHG".toList)
    (hmem : Map.find s.groupMembers_ req.groupKey = some members)
    (hcur : s.get_local_value req.varId ≠ req.expected) :
    s.handle_request_as_leader net req =
      ({ s with varValue_ := Map.touch s.varValue_ req.varId 0 },
        [Effect.send req.originId (rejectResp req)]) := by
  rw [get_local_value_eq] at hcur
  unfold DSM.handle_request_as_leader
  rw [hmem]
  simp only
  rw [if_neg (by rw [hop]; decide), if_pos hop, if_neg hcur]
  rfl

/-- C2: when the leader handles a CMPXCHG REQUEST for a group it leads and its local value of
the variable equals the expected value of the request, the counter of that group grows by
exactly 1 and `send_message_to` is called once per entry of the member list with one COMMIT
that carries the desired value, the varId and reqId of the request and the sequence number
allocated; a node that handles this COMMIT reads the desired value for the variable afterwards,
and on the node where the request id is pending the request becomes done with success, so the
blocked call returns true. -/
theorem handle_cmpxchg_match (net : Net) (s : DSM) (req : DSMMessage) (members : List Int)
    (htype : req.type = "REQUEST".toList) (hop : req.op = "CMPXCHG".toList)
    (hlead : s.is_leader_for_group req.groupKey = true)
    (hmem : Map.find s.groupMembers_ req.groupKey = some members)
    (hcur : s.get_local_value req.varId = req.expected) :
    (s.handle_message net req).2 =
        members.map (fun nid => Effect.send nid (cmpxchgCommit req (s.seqOf req.groupKey))) ∧
      (s.handle_message net req).1.seqOf req.groupKey = s.seqOf req.groupKey + 1 ∧
      (∀ (net2 : Net) (t : DSM),
        (t.handle_message net2 (cmpxchgCommit req (s.seqOf req.groupKey))).1.get_local_value
          req.varId = req.value) ∧
      (∀ (net2 : Net) (t : DSM) (pr : PendingReq), Map.find t.pending_ req.reqId = some pr →
        Map.find (t.handle_message net2 (cmpxchgCommit req (s.seqOf req.groupKey))).1.pending_
            req.reqId = some { done := true, success := true } ∧
          ((t.handle_message net2 (cmpxchgCommit req (s.seqOf req.groupKey))).1.resume
            req.reqId).map Prod.fst = some true) := by
  rw [handle_message_request net s req htype hlead,
    handle_request_cmpxchg_match net s req members hop hmem hcur]
  refine ⟨rfl, ?_, ?_, ?_⟩
  · simp [DSM.seqOf, Map.find_set_same]
  · intro net2 t
    rw [handle_message_commit net2 t _ rfl]
    exact apply_commit_value t _
  · intro net2 t pr hpr
    rw [handle_message_commit net2 t _ rfl]
    have h := apply_commit_resolves t (cmpxchgCommit req (s.seqOf req.groupKey)) pr hpr
    exact ⟨h, resume_of_done _ _ _ h⟩

theorem handle_message_resp (net : Net) (s : DSM) (m : DSMMessage) (pr : PendingReq)
    (h : m.type = "RESP".toList) (hp : Map.find s.pending_ m.reqId = some pr) :
    s.handle_message net m =
      ({ s with pending_ := Map.set s.pending_ m.reqId ⟨true, decide (m.success = 1)⟩ }, []) := by
  unfold DSM.handle_message
  rw [if_neg (by rw [h]; decide), if_neg (by rw [h]; decide), if_pos h, hp]

/-- C3: when the leader handles a CMPXCHG REQUEST whose expected value differs from its local
value of the variable, it makes exactly one call of `send_message_to`: a RESP with success = 0
and the reqId of the request, addressed to the origin of the request.  No COMMIT is sent, the
sequence counters are unchanged, `get_local_value` is unchanged for every variable id and the
pending table is unchanged.  Handling that RESP on the node where the request id is pending
sends nothing and makes the request done with success = false, so the blocked
`compare_exchange` returns false. -/
theorem handle_cmpxchg_mismatch (net : Net) (s : DSM) (req : DSMMessage) (members : List Int)
    (htype : req.type = "REQUEST".toList) (hop : req.op = "CMPXCHG".toList)
    (hlead : s.is_leader_for_group req.groupKey = true)
    (hmem : Map.find s.groupMembers_ req.groupKey = some members)
    (hcur : s.get_local_value req.varId ≠ req.expected) :
    (s.handle_message net req).2 = [Effect.send req.originId (rejectResp req)] ∧
      (rejectResp req).type = "RESP".toList ∧ (rejectResp req).success = 0 ∧
      (rejectResp req).reqId = req.reqId ∧
      (∀ nid m, Effect.send nid m ∈ (s.handle_message net req).2 → m.type ≠ "COMMIT".toList) ∧
      (s.handle_message net req).1.groupNextSeq_ = s.groupNextSeq_ ∧
      (∀ v, (s.handle_message net req).1.get_local_value v = s.get_local_value v) ∧
      (s.handle_message net req).1.pending_ = s.pending_ ∧
      (∀ (net2 : Net) (t : DSM) (pr : PendingReq), Map.find t.pending_ req.reqId = some pr →
        (t.handle_message net2 (rejectResp req)).2 = [] ∧
          Map.find (t.handle_message net2 (rejectResp req)).1.pending_ req.reqId =
            some { done := true, success := false } ∧
          ((t.handle_message net2 (rejectResp req)).1.resume req.reqId).map Prod.fst =
            some false) := by
  rw [handle_message_request net s req htype hlead,
    handle_request_cmpxchg_mismatch net s req members hop hmem hcur]
  refine ⟨rfl, rfl, rfl, rfl, ?_, rfl, ?_, rfl, ?_⟩
  · intro nid m hm
    simp only [List.mem_singleton, Effect.send.injEq] at hm
    rw [hm.2]
    show "RESP".toList ≠ "COMMIT".toList
    decide
  · intro v
    simp only [get_local_value_eq]
    exact Map.find_touch_getD _ _ _ _
  · intro net2 t pr hpr
    rw [handle_message_resp net2 t (rejectResp req) pr rfl hpr]
    have h : Map.find (Map.set t.pending_ (rejectResp req).reqId
        (⟨true, decide ((rejectResp req).success = 1)⟩ : PendingReq))
        req.reqId = some { done := true, success := false } := Map.find_set_same _ _ _
    exact ⟨rfl, h, resume_of_done _ _ _ h⟩

end Lab8

namespace Lab8

/-! ## Calls by a node that does not subscribe -/

theorem find_touch_members (m : Map Str (List Int)) (gk : Str) :
    (Map.find (Map.touch m gk []) gk).getD [] = (Map.find m gk).getD [] :=
  Map.find_touch_getD m gk gk []

/-- C6: for a variable id that is unknown, or whose subscriber group does not contain the
local node, `write` and `compare_exchange` return false at once, call `send_message_to` not a
single time, and leave the request-id counter, the pending table and the variable store as
they were. -/
theorem not_subscriber_rejected (net : Net) (s : DSM) (varId : Int)
    (h : Map.find s.varGroupKey_ varId = none ∨
      ∃ gk, Map.find s.varGroupKey_ varId = some gk ∧
        s.selfId_ ∉ (Map.find s.groupMembers_ gk).getD []) :
    (∀ value : Int,
      (s.write net varId value).1 = Call.returned false ∧
        (s.write net varId value).2.2 = [] ∧
        (s.write net varId value).2.1.nextReqId_ = s.nextReqId_ ∧
        (s.write net varId value).2.1.pending_ = s.pending_ ∧
        (s.write net varId value).2.1.varValue_ = s.varValue_) ∧
      (∀ expected desired : Int,
        (s.compare_exchange net varId expected desired).1 = Call.returned false ∧
          (s.compare_exchange net varId expected desired).2.2 = [] ∧
          (s.compare_exchange net varId expected desired).2.1.nextReqId_ = s.nextReqId_ ∧
          (s.compare_exchange net varId expected desired).2.1.pending_ = s.pending_ ∧
          (s.compare_exchange net varId expected desired).2.1.varValue_ = s.varValue_) := by
  rcases h with h | ⟨gk, hgk, hnot⟩
  · constructor
    · intro value
      simp [DSM.write, h]
    · intro expected desired
      simp [DSM.compare_exchange, h]
  · have hnot2 : s.selfId_ ∉ (Map.find (Map.touch s.groupMembers_ gk []) gk).getD [] := by
      rw [find_touch_members]
      exact hnot
    constructor
    · intro value
      unfold DSM.write
      rw [hgk]
      simp only
      rw [if_pos hnot2]
      exact ⟨rfl, rfl, rfl, rfl, rfl⟩
    · intro expected desired
      unfold DSM.compare_exchange
      rw [hgk]
      simp only
      rw [if_pos hnot2]
      exact ⟨rfl, rfl, rfl, rfl, rfl⟩

end Lab8

namespace Lab8

/-! ## Loading the configuration -/

theorem foldl_min_spec (r : List Int) (x : Int) :
    r.foldl min x ∈ x :: r ∧ ∀ y ∈ x :: r, r.foldl min x ≤ y := by
  induction r generalizing x with
  | nil => simp
  | cons a r ih =>
    obtain ⟨h1, h2⟩ := ih (min x a)
    simp only [List.foldl_cons]
    constructor
    · rcases List.mem_cons.1 h1 with h | h
      · rw [h]
        rcases min_choice x a with hm | hm <;> simp [hm]
      · simp [h]
    · intro y hy
      have hmin := h2 (min x a) (by simp)
      rcases List.mem_cons.1 hy with h | h
      · rw [h]
        exact le_trans hmin (min_le_left x a)
      · rcases List.mem_cons.1 h with h | h
        · rw [h]
          exact le_trans hmin (min_le_right x a)
        · exact h2 y (by simp [h])

theorem minElement_spec (l : List Int) (m : Int) (h : minElement l = some m) :
    m ∈ l ∧ ∀ y ∈ l, m ≤ y := by
  cases l with
  | nil => simp [minElement] at h
  | cons x r =>
    simp only [minElement, Option.some.injEq] at h
    rw [← h]
    exact foldl_min_spec r x

theorem Map.find_none_of_not_mem {K V : Type} [DecidableEq K] (m : Map K V) (k : K)
    (h : k ∉ m.map Prod.fst) : Map.find m k = none := by
  induction m with
  | nil => rfl
  | cons e r ih =>
    obtain ⟨k1, v1⟩ := e
    simp only [List.map_cons, List.mem_cons, not_or] at h
    have h1 : ¬ k1 = k := fun e => h.1 e.symm
    simp [Map.find, h1, ih h.2]

theorem Map.keys_set {K V : Type} [DecidableEq K] (m : Map K V) (k : K) (v : V) :
    (Map.set m k v).map Prod.fst =
      if k ∈ m.map Prod.fst then m.map Prod.fst else m.map Prod.fst ++ [k] := by
  induction m with
  | nil => simp [Map.set]
  | cons e r ih =>
    obtain ⟨k1, v1⟩ := e
    by_cases h1 : k1 = k
    · subst h1
      simp [Map.set]
    · have h2 : ¬ k = k1 := fun e => h1 e.symm
      simp only [Map.set, h1, if_false, List.map_cons, ih, List.mem_cons, h2, false_or]
      by_cases h3 : k ∈ r.map Prod.fst <;> simp [h3]

theorem Map.nodup_keys_set {K V : Type} [DecidableEq K] (m : Map K V) (k : K) (v : V)
    (h : (m.map Prod.fst).Nodup) : ((Map.set m k v).map Prod.fst).Nodup := by
  rw [Map.keys_set]
  by_cases h3 : k ∈ m.map Prod.fst
  · simpa [h3] using h
  · simp only [h3, if_false]
    rw [List.nodup_append]
    refine ⟨h, by simp, ?_⟩
    intro a ha hb
    simp only [List.mem_singleton] at hb
    exact h3 (hb ▸ ha)

theorem loadVars_frame (s : DSM) (vars : List DSMVariableCfg) :
    (s.loadVars vars).selfId_ = s.selfId_ ∧ (s.loadVars vars).groupLeader_ = s.groupLeader_ ∧
      (s.loadVars vars).groupNextSeq_ = s.groupNextSeq_ ∧
      (s.loadVars vars).pending_ = s.pending_ ∧ (s.loadVars vars).nodes_ = s.nodes_ := by
  induction vars generalizing s with
  | nil => exact ⟨rfl, rfl, rfl, rfl, rfl⟩
  | cons v r ih =>
    simp only [DSM.loadVars]
    exact ih _

theorem loadVars_groupMembers_congr (s t : DSM) (vars : List DSMVariableCfg)
    (h : s.groupMembers_ = t.groupMembers_) :
    (s.loadVars vars).groupMembers_ = (t.loadVars vars).groupMembers_ := by
  induction vars generalizing s t with
  | nil => exact h
  | cons v r ih =>
    simp only [DSM.loadVars]
    apply ih
    simp [h]

theorem loadVars_nodup (s : DSM) (vars : List DSMVariableCfg)
    (h : (s.groupMembers_.map Prod.fst).Nodup) :
    ((s.loadVars vars).groupMembers_.map Prod.fst).Nodup := by
  induction vars generalizing s with
  | nil => exact h
  | cons v r ih =>
    simp only [DSM.loadVars]
    apply ih
    exact Map.nodup_keys_set _ _ _ h

theorem electLeaders_spec (es : List (Str × List Int)) (s s1 : DSM)
    (h : s.electLeaders es = some s1) (hnd : (es.map Prod.fst).Nodup) :
    (s1.selfId_ = s.selfId_ ∧ s1.groupMembers_ = s.groupMembers_ ∧
      s1.varValue_ = s.varValue_ ∧ s1.varGroupKey_ = s.varGroupKey_ ∧
      s1.pending_ = s.pending_ ∧ s1.nextReqId_ = s.nextReqId_) ∧
    (∀ key ms, Map.find es key = some ms →
      ∃ l, minElement ms = some l ∧ Map.find s1.groupLeader_ key = some l ∧
        (l = s.selfId_ → Map.find s1.groupNextSeq_ key = some 1) ∧
        (l ≠ s.selfId_ → Map.find s1.groupNextSeq_ key = Map.find s.groupNextSeq_ key)) ∧
    (∀ key, Map.find es key = none →
      Map.find s1.groupLeader_ key = Map.find s.groupLeader_ key ∧
        Map.find s1.groupNextSeq_ key = Map.find s.groupNextSeq_ key) := by
  induction es generalizing s with
  | nil =>
    simp only [DSM.electLeaders, Option.some.injEq] at h
    subst h
    refine ⟨⟨rfl, rfl, rfl, rfl, rfl, rfl⟩, ?_, fun _ _ => ⟨rfl, rfl⟩⟩
    intro key ms hf
    simp [Map.find] at hf
  | cons e r ih =>
    obtain ⟨k, members⟩ := e
    simp only [List.map_cons, List.nodup_cons] at hnd
    unfold DSM.electLeaders at h
    cases hmin : minElement members with
    | none => simp [hmin] at h
    | some l =>
      simp only [hmin] at h
      obtain ⟨hfr, hin, hout⟩ := ih _ h hnd.2
      have hk : Map.find r k = none := Map.find_none_of_not_mem r k hnd.1
      by_cases hl : l = s.selfId_
      · simp only [hl, if_true] at hfr hin hout
        refine ⟨hfr, ?_, ?_⟩
        · intro key ms hf
          by_cases hkey : k = key
          · subst hkey
            simp only [Map.find, if_true, Option.some.injEq] at hf
            subst hf
            obtain ⟨h1, h2⟩ := hout k hk
            refine ⟨l, hmin, ?_, ?_, ?_⟩
            · rw [h1, Map.find_set_same, hl]
            · intro _
              rw [h2, Map.find_set_same]
            · intro hne
              exact absurd hl hne
          · simp only [Map.find, hkey, if_false] at hf
            obtain ⟨l2, h1, h2, h3, h4⟩ := hin key ms hf
            refine ⟨l2, h1, h2, h3, ?_⟩
            intro hne
            rw [h4 hne, Map.find_set_other _ _ _ _ (fun e => hkey e.symm)]
        · intro key hf
          by_cases hkey : k = key
          · simp [Map.find, hkey] at hf
          · simp only [Map.find, hkey, if_false] at hf
            obtain ⟨h1, h2⟩ := hout key hf
            rw [h1, h2, Map.find_set_other _ _ _ _ (fun e => hkey e.symm),
              Map.find_set_other _ _ _ _ (fun e => hkey e.symm)]
            exact ⟨rfl, rfl⟩
      · simp only [hl, if_false] at hfr hin hout
        refine ⟨hfr, ?_, ?_⟩
        · intro key ms hf
          by_cases hkey : k = key
          · subst hkey
            simp only [Map.find, if_true, Option.some.injEq] at hf
            subst hf
            obtain ⟨h1, h2⟩ := hout k hk
            refine ⟨l, hmin, ?_, ?_, ?_⟩
            · rw [h1, Map.find_set_same]
            · intro he
              exact absurd he hl
            · intro _
              exact h2
          · simp only [Map.find, hkey, if_false] at hf
            obtain ⟨l2, h1, h2, h3, h4⟩ := hin key ms hf
            exact ⟨l2, h1, h2, h3, h4⟩
        · intro key hf
          by_cases hkey : k = key
          · simp [Map.find, hkey] at hf
          · simp only [Map.find, hkey, if_false] at hf
            obtain ⟨h1, h2⟩ := hout key hf
            rw [h1, h2, Map.find_set_other _ _ _ _ (fun e => hkey e.symm)]
            exact ⟨rfl, rfl⟩

end Lab8

namespace Lab8

theorem parse_config_ok (self : Int) (file : Option Str) (s : DSM)
    (h : (DSM.init self).parse_config file = .ok (true, s)) :
    ∃ content nodes vars me s2, file = some content ∧
      readLines (getLines content) .NONE [] [] = .ok (nodes, vars) ∧
      Map.find nodes self = some me ∧
      s2 = ({ DSM.init self with nodes_ := nodes, self_ := some me } : DSM).loadVars vars ∧
      s2.electLeaders s2.groupMembers_ = some s := by
  unfold DSM.parse_config at h
  cases file with
  | none => simp at h
  | some content =>
    simp only at h
    cases hr : readLines (getLines content) .NONE [] [] with
    | threw e => simp [hr] at h
    | undefined => simp [hr] at h
    | ok p =>
      obtain ⟨nodes, vars⟩ := p
      simp only [hr] at h
      cases hme : Map.find nodes (DSM.init self).selfId_ with
      | none => simp [hme] at h
      | some me =>
        simp only [hme] at h
        refine ⟨content, nodes, vars, me, _, rfl, hr, hme, rfl, ?_⟩
        split at h
        · simp at h
        · rename_i s3 hs3
          simp only [Res.ok.injEq, Prod.mk.injEq, true_and] at h
          rw [← h]
          exact hs3

theorem parse_config_groups (self : Int) (file : Option Str) (s : DSM)
    (h : (DSM.init self).parse_config file = .ok (true, s)) :
    s.selfId_ = self ∧
    (∀ key ms, Map.find s.groupMembers_ key = some ms →
      ∃ l, minElement ms = some l ∧ Map.find s.groupLeader_ key = some l ∧
        (l = self → Map.find s.groupNextSeq_ key = some 1) ∧
        (l ≠ self → Map.find s.groupNextSeq_ key = none)) ∧
    (∀ key, Map.find s.groupMembers_ key = none →
      Map.find s.groupLeader_ key = none ∧ Map.find s.groupNextSeq_ key = none) := by
  obtain ⟨content, nodes, vars, me, s2, -, -, -, hs2, hel⟩ := parse_config_ok self file s h
  have hfr := loadVars_frame ({ DSM.init self with nodes_ := nodes, self_ := some me } : DSM) vars
  rw [← hs2] at hfr
  have hnd : (s2.groupMembers_.map Prod.fst).Nodup := by
    rw [hs2]
    exact loadVars_nodup _ _ (by simp [DSM.init])
  obtain ⟨hframe, hin, hout⟩ := electLeaders_spec _ _ _ hel hnd
  have hself : s2.selfId_ = self := hfr.1
  have hgl : s2.groupLeader_ = [] := hfr.2.1
  have hgs : s2.groupNextSeq_ = [] := hfr.2.2.1
  rw [hframe.2.1]
  refine ⟨by rw [hframe.1, hself], ?_, ?_⟩
  · intro key ms hf
    obtain ⟨l, h1, h2, h3, h4⟩ := hin key ms hf
    refine ⟨l, h1, h2, ?_, ?_⟩
    · intro hl
      exact h3 (by rw [hself]; exact hl)
    · intro hl
      rw [h4 (by rw [hself]; exact hl), hgs]
      rfl
  · intro key hf
    obtain ⟨h1, h2⟩ := hout key hf
    rw [h1, h2, hgl, hgs]
    exact ⟨rfl, rfl⟩

/-- C7: after a successful `parse_config` on a freshly constructed node, every group key has
a recorded leader, which is a member of the group's member list and not larger than any
member (its minimum); keys without a member list have no leader.  The leader does not depend
on the local node id: two nodes that load the same file hold the same member lists and the
same leader for every group key. -/
theorem leader_is_minimum (selfA selfB : Int) (file : Option Str) (sA sB : DSM)
    (hA : (DSM.init selfA).parse_config file = .ok (true, sA))
    (hB : (DSM.init selfB).parse_config file = .ok (true, sB)) :
    (∀ key members, Map.find sA.groupMembers_ key = some members →
      ∃ l, Map.find sA.groupLeader_ key = some l ∧ minElement members = some l ∧
        l ∈ members ∧ ∀ x ∈ members, l ≤ x) ∧
    (∀ key, Map.find sA.groupMembers_ key = none → Map.find sA.groupLeader_ key = none) ∧
    sA.groupMembers_ = sB.groupMembers_ ∧
    (∀ key, Map.find sA.groupLeader_ key = Map.find sB.groupLeader_ key) := by
  obtain ⟨-, hinA, houtA⟩ := parse_config_groups selfA file sA hA
  obtain ⟨-, hinB, houtB⟩ := parse_config_groups selfB file sB hB
  have hgm : sA.groupMembers_ = sB.groupMembers_ := by
    obtain ⟨c1, n1, v1, m1, t1, hf1, hr1, -, ht1, he1⟩ := parse_config_ok selfA file sA hA
    obtain ⟨c2, n2, v2, m2, t2, hf2, hr2, -, ht2, he2⟩ := parse_config_ok selfB file sB hB
    rw [hf1] at hf2
    simp only [Option.some.injEq] at hf2
    subst hf2
    rw [hr1] at hr2
    simp only [Res.ok.injEq, Prod.mk.injEq] at hr2
    obtain ⟨hn, hv⟩ := hr2
    subst hn hv
    have e1 := (electLeaders_spec _ _ _ he1 (by rw [ht1]; exact loadVars_nodup _ _ (by simp [DSM.init]))).1.2.1
    have e2 := (electLeaders_spec _ _ _ he2 (by rw [ht2]; exact loadVars_nodup _ _ (by simp [DSM.init]))).1.2.1
    rw [e1, e2, ht1, ht2]
    exact loadVars_groupMembers_congr _ _ _ rfl
  refine ⟨?_, fun key hf => (houtA key hf).1, hgm, ?_⟩
  · intro key members hf
    obtain ⟨l, h1, h2, -, -⟩ := hinA key members hf
    exact ⟨l, h2, h1, (minElement_spec _ _ h1).1, (minElement_spec _ _ h1).2⟩
  · intro key
    cases hf : Map.find sA.groupMembers_ key with
    | none =>
      rw [(houtA key hf).1, (houtB key (hgm ▸ hf)).1]
    | some ms =>
      obtain ⟨l, h1, h2, -, -⟩ := hinA key ms hf
      obtain ⟨l2, h3, h4, -, -⟩ := hinB key ms (hgm ▸ hf)
      rw [h2, h4, ← h1, ← h3]

end Lab8

namespace Lab8

/-! ## Group keys -/

theorem sortInts_perm (g1 g2 : List Int) (h : g1.Perm g2) : sortInts g1 = sortInts g2 := by
  unfold sortInts
  apply List.eq_of_perm_of_sorted (r := fun a b : Int => a ≤ b)
  · exact ((List.perm_insertionSort _ g1).trans h).trans (List.perm_insertionSort _ g2).symm
  · exact List.sorted_insertionSort _ g1
  · exact List.sorted_insertionSort _ g2

theorem canonical_group_key_perm (g1 g2 : List Int) (h : g1.Perm g2) :
    canonical_group_key g1 = canonical_group_key g2 := by
  unfold canonical_group_key
  rw [sortInts_perm g1 g2 h]

theorem loadVars_append (s : DSM) (a b : List DSMVariableCfg) :
    s.loadVars (a ++ b) = (s.loadVars a).loadVars b := by
  induction a generalizing s with
  | nil => rfl
  | cons v r ih =>
    simp only [List.cons_append, DSM.loadVars]
    exact ih _

theorem loadVars_varGroupKey_keep (s : DSM) (post : List DSMVariableCfg) (id : Int)
    (h : ∀ w ∈ post, w.id ≠ id) :
    Map.find (s.loadVars post).varGroupKey_ id = Map.find s.varGroupKey_ id := by
  induction post generalizing s with
  | nil => rfl
  | cons v r ih =>
    simp only [DSM.loadVars]
    rw [ih _ (fun w hw => h w (by simp [hw]))]
    exact Map.find_set_other _ _ _ _ (fun e => h v (by simp) e.symm)

theorem Map.find_set_isSome {K V : Type} [DecidableEq K] (m : Map K V) (k k2 : K) (v : V)
    (h : (Map.find m k2).isSome = true) : (Map.find (Map.set m k v) k2).isSome = true := by
  by_cases hk : k2 = k
  · subst hk
    rw [Map.find_set_same]
    rfl
  · rw [Map.find_set_other _ _ _ _ hk]
    exact h

theorem loadVars_groupMembers_isSome (s : DSM) (post : List DSMVariableCfg) (key : Str)
    (h : (Map.find s.groupMembers_ key).isSome = true) :
    (Map.find (s.loadVars post).groupMembers_ key).isSome = true := by
  induction post generalizing s with
  | nil => exact h
  | cons v r ih =>
    simp only [DSM.loadVars]
    exact ih _ (Map.find_set_isSome _ _ _ _ h)

theorem loadVars_last (s : DSM) (pre post : List DSMVariableCfg) (v : DSMVariableCfg)
    (h : ∀ w ∈ post, w.id ≠ v.id) :
    Map.find (s.loadVars (pre ++ v :: post)).varGroupKey_ v.id =
        some (canonical_group_key v.group) ∧
      (Map.find (s.loadVars (pre ++ v :: post)).groupMembers_
        (canonical_group_key v.group)).isSome = true := by
  rw [loadVars_append]
  simp only [DSM.loadVars]
  constructor
  · rw [loadVars_varGroupKey_keep _ post v.id h]
    exact Map.find_set_same _ _ _
  · apply loadVars_groupMembers_isSome
    simp only
    rw [Map.find_set_same]
    rfl

/-- C8: `canonical_group_key` returns the same string for every permutation of a member
list.  Consequently, after a successful `parse_config` on a freshly constructed node, two
variables (each taken at its last line in the file) whose group lists are permutations of each
other are mapped to the same group key, for which one leader is recorded and whose sequence
counter is the single entry under that key (present with value 1 exactly on the leader). -/
theorem same_members_same_group :
    (∀ g1 g2 : List Int, g1.Perm g2 → canonical_group_key g1 = canonical_group_key g2) ∧
    (∀ (self : Int) (content : Str) (nodes : Map Int DSMNode) (vars : List DSMVariableCfg)
      (s : DSM) (pre1 post1 pre2 post2 : List DSMVariableCfg) (v1 v2 : DSMVariableCfg),
      (DSM.init self).parse_config (some content) = .ok (true, s) →
      readLines (getLines content) .NONE [] [] = .ok (nodes, vars) →
      vars = pre1 ++ v1 :: post1 → (∀ w ∈ post1, w.id ≠ v1.id) →
      vars = pre2 ++ v2 :: post2 → (∀ w ∈ post2, w.id ≠ v2.id) →
      v1.group.Perm v2.group →
      ∃ leader,
        Map.find s.varGroupKey_ v1.id = some (canonical_group_key v1.group) ∧
        Map.find s.varGroupKey_ v2.id = some (canonical_group_key v1.group) ∧
        Map.find s.groupLeader_ (canonical_group_key v1.group) = some leader ∧
        (leader = self →
          Map.find s.groupNextSeq_ (canonical_group_key v1.group) = some 1) ∧
        (leader ≠ self →
          Map.find s.groupNextSeq_ (canonical_group_key v1.group) = none)) := by
  refine ⟨canonical_group_key_perm, ?_⟩
  intro self content nodes vars s pre1 post1 pre2 post2 v1 v2 hparse hread h1 hp1 h2 hp2 hperm
  obtain ⟨c, n, vs, me, s2, hf, hr, -, hs2, hel⟩ := parse_config_ok self _ s hparse
  simp only [Option.some.injEq] at hf
  subst hf
  rw [hread] at hr
  simp only [Res.ok.injEq, Prod.mk.injEq] at hr
  obtain ⟨hn, hv⟩ := hr
  subst hn hv
  have hnd : (s2.groupMembers_.map Prod.fst).Nodup := by
    rw [hs2]
    exact loadVars_nodup _ _ (by simp [DSM.init])
  obtain ⟨hframe, -, -⟩ := electLeaders_spec _ _ _ hel hnd
  obtain ⟨-, hin, -⟩ := parse_config_groups self _ s hparse
  have hk : canonical_group_key v2.group = canonical_group_key v1.group :=
    (canonical_group_key_perm _ _ hperm).symm
  have e1 := loadVars_last ({ DSM.init self with nodes_ := nodes, self_ := some me } : DSM)
    pre1 post1 v1 hp1
  have e2 := loadVars_last ({ DSM.init self with nodes_ := nodes, self_ := some me } : DSM)
    pre2 post2 v2 hp2
  rw [← h1, ← hs2] at e1
  rw [← h2, ← hs2, hk] at e2
  rw [← hframe.2.1] at e1
  rw [← hframe.2.2.2.1] at e1 e2
  cases hms : Map.find s.groupMembers_ (canonical_group_key v1.group) with
  | none => rw [hms] at e1; simp at e1
  | some ms =>
    obtain ⟨l, -, hl1, hl2, hl3⟩ := hin _ ms hms
    exact ⟨l, e1.1, e2.1, hl1, hl2, hl3⟩

end Lab8

namespace Lab8

/-! ## Sequence numbers -/

theorem commitSeqs_append (key : Str) (a b : List Effect) :
    commitSeqs key (a ++ b) = commitSeqs key a ++ commitSeqs key b := by
  induction a with
  | nil => rfl
  | cons e r ih =>
    cases e with
    | send nid m =>
      show commitSeqs key (Effect.send nid m :: (r ++ b)) = _
      by_cases h : m.type = "COMMIT".toList ∧ m.groupKey = key
      · rw [commitSeqs, if_pos h, ih, commitSeqs, if_pos h]
        rfl
      · rw [commitSeqs, if_neg h, ih, commitSeqs, if_neg h]
    | callback cb v x q =>
      show commitSeqs key (Effect.callback cb v x q :: (r ++ b)) = _
      rw [commitSeqs, ih, commitSeqs]

theorem commitSeqs_broadcast (key : Str) (c : DSMMessage) (members : List Int) :
    commitSeqs key (members.map (fun nid => Effect.send nid c)) =
      if c.type = "COMMIT".toList ∧ c.groupKey = key then List.replicate members.length c.seq
      else [] := by
  induction members with
  | nil => simp [commitSeqs]
  | cons nid r ih =>
    by_cases h : c.type = "COMMIT".toList ∧ c.groupKey = key
    · simp only [List.map_cons, commitSeqs, h, if_true, List.length_cons, List.replicate_succ]
      simp only [h, if_true] at ih
      rw [ih]
      simp
    · simp only [List.map_cons, commitSeqs, h, if_false]
      simp only [h, if_false] at ih
      exact ih

theorem commitSeqs_apply_commit (key : Str) (s : DSM) (c : DSMMessage) :
    commitSeqs key (s.apply_commit c).2 = [] := by
  rw [apply_commit_trace]
  cases s.callback_ <;> rfl

theorem apply_commit_frame (s : DSM) (c : DSMMessage) :
    (s.apply_commit c).1.groupLeader_ = s.groupLeader_ ∧
      (s.apply_commit c).1.groupMembers_ = s.groupMembers_ ∧
      (s.apply_commit c).1.selfId_ = s.selfId_ ∧
      (s.apply_commit c).1.groupNextSeq_ = s.groupNextSeq_ := by
  unfold DSM.apply_commit
  cases hp : Map.find s.pending_ c.reqId <;> cases hc : s.callback_ <;> simp [hp, hc]

theorem is_leader_has_entry (s : DSM) (key : Str) (h : s.is_leader_for_group key = true) :
    Map.find s.groupLeader_ key = some s.selfId_ := by
  unfold DSM.is_leader_for_group at h
  cases hf : Map.find s.groupLeader_ key with
  | none => simp [hf] at h
  | some l =>
    simp only [hf, decide_eq_true_eq] at h
    rw [h]

end Lab8

namespace Lab8

theorem sequences_iff (s : DSM) (m : DSMMessage) (key : Str) :
    s.sequences m key = true ↔
      m.type = "REQUEST".toList ∧ m.groupKey = key ∧
        (m.op = "WRITE".toList ∨
          (m.op = "CMPXCHG".toList ∧ s.get_local_value m.varId = m.expected)) := by
  simp [DSM.sequences, and_assoc]

theorem handle_request_other (net : Net) (s : DSM) (req : DSMMessage)
    (hw : req.op ≠ "WRITE".toList) (hc : req.op ≠ "CMPXCHG".toList) :
    s.handle_request_as_leader net req = (s, []) := by
  unfold DSM.handle_request_as_leader
  cases Map.find s.groupMembers_ req.groupKey with
  | none => rfl
  | some ms =>
    simp only
    rw [if_neg hw, if_neg hc]

theorem handle_request_unknown (net : Net) (s : DSM) (req : DSMMessage)
    (h : Map.find s.groupMembers_ req.groupKey = none) :
    s.handle_request_as_leader net req = (s, []) := by
  unfold DSM.handle_request_as_leader
  rw [h]

theorem handle_message_not_request (net : Net) (s : DSM) (m : DSMMessage)
    (ht : m.type ≠ "REQUEST".toList) :
    (s.handle_message net m).1.groupLeader_ = s.groupLeader_ ∧
      (s.handle_message net m).1.groupMembers_ = s.groupMembers_ ∧
      (s.handle_message net m).1.selfId_ = s.selfId_ ∧
      (s.handle_message net m).1.groupNextSeq_ = s.groupNextSeq_ ∧
      ∀ key, commitSeqs key (s.handle_message net m).2 = [] := by
  by_cases hc : m.type = "COMMIT".toList
  · rw [handle_message_commit net s m hc]
    obtain ⟨h1, h2, h3, h4⟩ := apply_commit_frame s m
    exact ⟨h1, h2, h3, h4, fun key => commitSeqs_apply_commit key s m⟩
  · unfold DSM.handle_message
    rw [if_neg ht, if_neg hc]
    by_cases hr : m.type = "RESP".toList
    · rw [if_pos hr]
      cases Map.find s.pending_ m.reqId with
      | none => exact ⟨rfl, rfl, rfl, rfl, fun _ => rfl⟩
      | some pr => exact ⟨rfl, rfl, rfl, rfl, fun _ => rfl⟩
    · rw [if_neg hr]
      exact ⟨rfl, rfl, rfl, rfl, fun _ => rfl⟩

theorem handle_message_step (net : Net) (s : DSM) (m : DSMMessage) (key : Str)
    (members : List Int) (hlead : s.is_leader_for_group key = true)
    (hmem : Map.find s.groupMembers_ key = some members) :
    (s.handle_message net m).1.groupLeader_ = s.groupLeader_ ∧
      (s.handle_message net m).1.groupMembers_ = s.groupMembers_ ∧
      (s.handle_message net m).1.selfId_ = s.selfId_ ∧
      commitSeqs key (s.handle_message net m).2 =
        (if s.sequences m key then List.replicate members.length (s.seqOf key) else []) ∧
      (s.handle_message net m).1.seqOf key =
        s.seqOf key + (if s.sequences m key then 1 else 0) := by
  by_cases ht : m.type = "REQUEST".toList
  · by_cases hl : s.is_leader_for_group m.groupKey = true
    · rw [handle_message_request net s m ht hl]
      cases hm : Map.find s.groupMembers_ m.groupKey with
      | none =>
        have hs : s.sequences m key = false := by
          rw [Bool.eq_false_iff]
          intro h
          have hk := ((sequences_iff s m key).1 h).2.1
          rw [hk, hmem] at hm
          exact absurd hm (by simp)
        rw [handle_request_unknown net s m hm, hs]
        exact ⟨rfl, rfl, rfl, rfl, by simp⟩
      | some ms =>
        by_cases hk : m.groupKey = key
        · have hms : ms = members := by
            rw [hk, hmem] at hm
            exact (Option.some.inj hm).symm
          subst hms
          by_cases hw : m.op = "WRITE".toList
          · have hs : s.sequences m key = true := (sequences_iff s m key).2 ⟨ht, hk, Or.inl hw⟩
            rw [handle_request_write net s m ms hw hm, hs, commitSeqs_broadcast]
            refine ⟨rfl, rfl, rfl, ?_, ?_⟩
            · rw [if_pos ⟨rfl, hk⟩, hk]
              rfl
            · simp only [DSM.seqOf, hk, Map.find_set_same, Option.getD_some, if_true]
          · by_cases hc : m.op = "CMPXCHG".toList
            · by_cases hcur : s.get_local_value m.varId = m.expected
              · have hs : s.sequences m key = true :=
                  (sequences_iff s m key).2 ⟨ht, hk, Or.inr ⟨hc, hcur⟩⟩
                rw [handle_request_cmpxchg_match net s m ms hc hm hcur, hs,
                  commitSeqs_broadcast]
                refine ⟨rfl, rfl, rfl, ?_, ?_⟩
                · rw [if_pos ⟨rfl, hk⟩, hk]
                  rfl
                · simp only [DSM.seqOf, hk, Map.find_set_same, Option.getD_some, if_true]
              · have hs : s.sequences m key = false := by
                  rw [Bool.eq_false_iff]
                  intro h
                  rcases ((sequences_iff s m key).1 h).2.2 with h1 | h1
                  · exact hw h1
                  · exact hcur h1.2
                rw [handle_request_cmpxchg_mismatch net s m ms hc hm hcur, hs]
                refine ⟨rfl, rfl, rfl, ?_, by simp [DSM.seqOf]⟩
                show commitSeqs key [Effect.send m.originId (rejectResp m)] = []
                rw [commitSeqs, if_neg (by
                  intro h
                  have h1 : "RESP".toList = "COMMIT".toList := h.1
                  revert h1
                  decide)]
                rfl
            · have hs : s.sequences m key = false := by
                rw [Bool.eq_false_iff]
                intro h
                rcases ((sequences_iff s m key).1 h).2.2 with h1 | h1
                · exact hw h1
                · exact hc h1.1
              rw [handle_request_other net s m hw hc, hs]
              exact ⟨rfl, rfl, rfl, rfl, by simp⟩
        · have hs : s.sequences m key = false := by
            rw [Bool.eq_false_iff]
            intro h
            exact hk ((sequences_iff s m key).1 h).2.1
          rw [hs]
          have hk2 : key ≠ m.groupKey := fun e => hk e.symm
          by_cases hw : m.op = "WRITE".toList
          · rw [handle_request_write net s m ms hw hm, commitSeqs_broadcast]
            refine ⟨rfl, rfl, rfl, ?_, ?_⟩
            · rw [if_neg (fun h => hk h.2)]
              rfl
            · simp only [DSM.seqOf, Map.find_set_other _ _ _ _ hk2]
              simp
          · by_cases hc : m.op = "CMPXCHG".toList
            · by_cases hcur : s.get_local_value m.varId = m.expected
              · rw [handle_request_cmpxchg_match net s m ms hc hm hcur, commitSeqs_broadcast]
                refine ⟨rfl, rfl, rfl, ?_, ?_⟩
                · rw [if_neg (fun h => hk h.2)]
                  rfl
                · simp only [DSM.seqOf, Map.find_set_other _ _ _ _ hk2]
                  simp
              · rw [handle_request_cmpxchg_mismatch net s m ms hc hm hcur]
                refine ⟨rfl, rfl, rfl, ?_, by simp [DSM.seqOf]⟩
                show commitSeqs key [Effect.send m.originId (rejectResp m)] = _
                rw [commitSeqs, if_neg (fun h => hk h.2)]
                rfl
            · rw [handle_request_other net s m hw hc]
              exact ⟨rfl, rfl, rfl, rfl, by simp⟩
    · have hs : s.sequences m key = false := by
        rw [Bool.eq_false_iff]
        intro h
        have hk := ((sequences_iff s m key).1 h).2.1
        rw [hk] at hl
        exact hl hlead
      have hm : s.handle_message net m = (s, []) := by
        unfold DSM.handle_message
        rw [if_pos ht, if_neg hl]
      rw [hm, hs]
      exact ⟨rfl, rfl, rfl, rfl, by simp⟩
  · have hs : s.sequences m key = false := by
      rw [Bool.eq_false_iff]
      intro h
      exact ht ((sequences_iff s m key).1 h).1
    obtain ⟨h1, h2, h3, h4, h5⟩ := handle_message_not_request net s m ht
    rw [hs]
    refine ⟨h1, h2, h3, h5 key, ?_⟩
    simp [DSM.seqOf, h4]

end Lab8

namespace Lab8

theorem is_leader_congr (s t : DSM) (key : Str) (h1 : t.groupLeader_ = s.groupLeader_)
    (h2 : t.selfId_ = s.selfId_) : t.is_leader_for_group key = s.is_leader_for_group key := by
  unfold DSM.is_leader_for_group
  rw [h1, h2]

theorem run_commitSeqs (key : Str) (members : List Int) (steps : List (Net × DSMMessage))
    (s : DSM) (hlead : s.is_leader_for_group key = true)
    (hmem : Map.find s.groupMembers_ key = some members) :
    commitSeqs key (s.run steps).2 =
        consecutiveBlocks members.length (s.seqOf key) (s.countSequenced key steps) ∧
      (s.run steps).1.seqOf key = s.seqOf key + s.countSequenced key steps := by
  induction steps generalizing s with
  | nil => simp [DSM.run, DSM.countSequenced, consecutiveBlocks, commitSeqs]
  | cons st r ih =>
    obtain ⟨h1, h2, h3, h4, h5⟩ := handle_message_step st.1 s st.2 key members hlead hmem
    have hlead2 : (s.handle_message st.1 st.2).1.is_leader_for_group key = true := by
      rw [is_leader_congr s _ key h1 h3]
      exact hlead
    have hmem2 : Map.find (s.handle_message st.1 st.2).1.groupMembers_ key = some members := by
      rw [h2]
      exact hmem
    obtain ⟨i1, i2⟩ := ih _ hlead2 hmem2
    simp only [DSM.run, DSM.countSequenced, commitSeqs_append]
    rw [i1, i2, h4, h5]
    by_cases hs : s.sequences st.2 key = true
    · simp only [hs, if_true]
      rw [Nat.add_comm 1, consecutiveBlocks]
      refine ⟨rfl, ?_⟩
      push_cast
      ring
    · simp only [hs, if_false, Bool.false_eq_true]
      simp

theorem countSequenced_writes (key : Str) (steps : List (Net × DSMMessage)) (s : DSM)
    (h : ∀ p ∈ steps, p.2.type = "REQUEST".toList ∧ p.2.op = "WRITE".toList ∧
      p.2.groupKey = key) :
    s.countSequenced key steps = steps.length := by
  induction steps generalizing s with
  | nil => rfl
  | cons st r ih =>
    obtain ⟨h1, h2, h3⟩ := h st (by simp)
    have hs : s.sequences st.2 key = true := (sequences_iff s st.2 key).2 ⟨h1, h3, Or.inl h2⟩
    simp only [DSM.countSequenced, hs, if_true, List.length_cons]
    rw [ih _ (fun p hp => h p (by simp [hp]))]
    omega

/-- C9: let a freshly constructed node load a configuration successfully and be the leader of
group `key`.  Then the group has a non-empty member list and its counter reads 1, and for every
sequence of messages the node handles afterwards (each under any network): the sequence numbers
of the COMMITs for the group among its sends are, in emission order, 1, 2, ..., k, every number
once per entry of the member list, where k counts the WRITE requests and the matching CMPXCHG
requests for the group (a mismatching CMPXCHG gets none); the counter ends at 1 + k; and when
the messages are N WRITE requests for the group, k = N. -/
theorem commit_sequence_numbers (self : Int) (file : Option Str) (s : DSM) (key : Str)
    (hparse : (DSM.init self).parse_config file = .ok (true, s))
    (hlead : s.is_leader_for_group key = true) :
    ∃ members, Map.find s.groupMembers_ key = some members ∧ members ≠ [] ∧
      s.seqOf key = 1 ∧
      ∀ steps : List (Net × DSMMessage),
        commitSeqs key (s.run steps).2 =
            consecutiveBlocks members.length 1 (s.countSequenced key steps) ∧
          (s.run steps).1.seqOf key = 1 + s.countSequenced key steps ∧
          ((∀ p ∈ steps, p.2.type = "REQUEST".toList ∧ p.2.op = "WRITE".toList ∧
              p.2.groupKey = key) →
            s.countSequenced key steps = steps.length) := by
  obtain ⟨hself, hin, hout⟩ := parse_config_groups self file s hparse
  have hl := is_leader_has_entry s key hlead
  cases hm : Map.find s.groupMembers_ key with
  | none =>
    rw [(hout key hm).1] at hl
    exact absurd hl (by simp)
  | some members =>
    obtain ⟨l, h1, h2, h3, -⟩ := hin key members hm
    rw [hl] at h2
    have hle : l = self := by
      rw [← hself]
      exact (Option.some.inj h2).symm
    have hseq : s.seqOf key = 1 := by
      simp [DSM.seqOf, h3 hle]
    have hne : members ≠ [] := by
      intro e
      rw [e] at h1
      simp [minElement] at h1
    refine ⟨members, rfl, hne, hseq, ?_⟩
    intro steps
    obtain ⟨r1, r2⟩ := run_commitSeqs key members steps s hlead hm
    rw [hseq] at r1 r2
    exact ⟨r1, r2, countSequenced_writes key steps s⟩

end Lab8

namespace Lab8

/-! ## The order of COMMITs at a member -/

theorem apply_commits_append (s : DSM) (a b : List DSMMessage) :
    s.apply_commits (a ++ b) = (s.apply_commits a).apply_commits b := by
  induction a generalizing s with
  | nil => rfl
  | cons c r ih =>
    simp only [List.cons_append, DSM.apply_commits]
    exact ih _

/-- C10, counterexample: node 2 of the sample configuration receives two COMMITs for variable
100 with the distinct sequence numbers 2 (value 20) and 1 (value 10) and applies the one with
number 2 first.  Afterwards `get_local_value 100` is 10, the value of the commit applied last,
while the commit with the highest sequence number carries 20. -/
theorem apply_commits_highest_seq_counterexample :
    (sampleCommit 20 2).varId = 100 ∧ (sampleCommit 10 1).varId = 100 ∧
      (sampleCommit 20 2).seq = 2 ∧ (sampleCommit 10 1).seq = 1 ∧
      (sampleCommit 20 2).value = 20 ∧
      ((sampleNode 2).apply_commits [sampleCommit 20 2, sampleCommit 10 1]).get_local_value 100
        = 10 := by
  decide

/-- C10, amended: after a node has applied COMMITs one after the other, the last of them
being `c`, `get_local_value c.varId` is `c.value`, whatever the sequence numbers are; and when
the COMMITs are applied in strictly increasing order of their sequence numbers, `c` is the one
with the highest sequence number. -/
theorem apply_commits_last_wins (s : DSM) (cs : List DSMMessage) (c : DSMMessage) (v : Int)
    (hc : c.varId = v) :
    (s.apply_commits (cs ++ [c])).get_local_value v = c.value ∧
      ((cs ++ [c]).Pairwise (fun a b => a.seq < b.seq) → ∀ d ∈ cs ++ [c], d.seq ≤ c.seq) := by
  constructor
  · rw [apply_commits_append, ← hc]
    exact apply_commit_value _ c
  · intro hp d hd
    rw [List.pairwise_append] at hp
    rcases List.mem_append.1 hd with h | h
    · exact le_of_lt (hp.2.2 d h c (by simp))
    · simp only [List.mem_singleton] at h
      rw [h]

/-- Witness for the amended C10: the two COMMITs of the counterexample applied in increasing
order of their sequence numbers. -/
theorem apply_commits_last_wins_witness :
    (sampleCommit 20 2).varId = 100 ∧
      ((sampleNode 2).apply_commits ([sampleCommit 10 1] ++ [sampleCommit 20 2])).get_local_value
        100 = (sampleCommit 20 2).value :=
  ⟨by decide, (apply_commits_last_wins (sampleNode 2) [sampleCommit 10 1] (sampleCommit 20 2)
    100 (by decide)).1⟩

end Lab8

namespace Lab8

/-! ## Witnesses on the sample configuration -/

/-- Witness for C2: node 1, leader of group 1-2-3, handles a matching CMPXCHG of node 3. -/
theorem handle_cmpxchg_match_witness :
    (sampleCas.type = "REQUEST".toList ∧ sampleCas.op = "CMPXCHG".toList ∧
      (sampleNode 1).is_leader_for_group sampleCas.groupKey = true ∧
      Map.find (sampleNode 1).groupMembers_ sampleCas.groupKey = some [3, 1, 2] ∧
      (sampleNode 1).get_local_value sampleCas.varId = sampleCas.expected) ∧
    ((sampleNode 1).handle_message netUp sampleCas).2 =
      [3, 1, 2].map (fun nid => Effect.send nid
        (cmpxchgCommit sampleCas ((sampleNode 1).seqOf sampleCas.groupKey))) ∧
    ((sampleNode 1).handle_message netUp sampleCas).1.seqOf sampleCas.groupKey =
      (sampleNode 1).seqOf sampleCas.groupKey + 1 :=
  ⟨⟨by decide, by decide, by decide, by decide, by decide⟩,
    (handle_cmpxchg_match netUp (sampleNode 1) sampleCas [3, 1, 2] (by decide) (by decide)
      (by decide) (by decide) (by decide)).1,
    (handle_cmpxchg_match netUp (sampleNode 1) sampleCas [3, 1, 2] (by decide) (by decide)
      (by decide) (by decide) (by decide)).2.1⟩

/-- Witness for C3: node 1 handles a CMPXCHG of node 2 that expects 99 while the value is 10. -/
theorem handle_cmpxchg_mismatch_witness :
    (sampleCasStale.type = "REQUEST".toList ∧ sampleCasStale.op = "CMPXCHG".toList ∧
      (sampleNode 1).is_leader_for_group sampleCasStale.groupKey = true ∧
      Map.find (sampleNode 1).groupMembers_ sampleCasStale.groupKey = some [3, 1, 2] ∧
      (sampleNode 1).get_local_value sampleCasStale.varId ≠ sampleCasStale.expected) ∧
    ((sampleNode 1).handle_message netUp sampleCasStale).2 =
      [Effect.send sampleCasStale.originId (rejectResp sampleCasStale)] ∧
    ((sampleNode 1).handle_message netUp sampleCasStale).1.groupNextSeq_ =
      (sampleNode 1).groupNextSeq_ :=
  ⟨⟨by decide, by decide, by decide, by decide, by decide⟩,
    (handle_cmpxchg_mismatch netUp (sampleNode 1) sampleCasStale [3, 1, 2] (by decide)
      (by decide) (by decide) (by decide) (by decide)).1,
    (handle_cmpxchg_mismatch netUp (sampleNode 1) sampleCasStale [3, 1, 2] (by decide)
      (by decide) (by decide) (by decide) (by decide)).2.2.2.2.2.1⟩

/-- Witness for C4: node 1 handles a WRITE of node 3. -/
theorem handle_write_request_witness :
    (sampleWrite.type = "REQUEST".toList ∧ sampleWrite.op = "WRITE".toList ∧
      (sampleNode 1).is_leader_for_group sampleWrite.groupKey = true ∧
      Map.find (sampleNode 1).groupMembers_ sampleWrite.groupKey = some [3, 1, 2]) ∧
    ((sampleNode 1).handle_message netUp sampleWrite).2 =
      [3, 1, 2].map (fun nid => Effect.send nid
        (writeCommit sampleWrite ((sampleNode 1).seqOf sampleWrite.groupKey))) ∧
    ((sampleNode 1).handle_message netUp sampleWrite).1.seqOf sampleWrite.groupKey =
      (sampleNode 1).seqOf sampleWrite.groupKey + 1 :=
  ⟨⟨by decide, by decide, by decide, by decide⟩,
    (handle_write_request netUp (sampleNode 1) sampleWrite [3, 1, 2] (by decide) (by decide)
      (by decide) (by decide)).1,
    (handle_write_request netUp (sampleNode 1) sampleWrite [3, 1, 2] (by decide) (by decide)
      (by decide) (by decide)).2.1⟩

/-- Witness for C6: node 1 does not subscribe to variable 300 (group 2-3). -/
theorem not_subscriber_rejected_witness :
    (Map.find (sampleNode 1).varGroupKey_ 300 = some "2-3".toList ∧
      (sampleNode 1).selfId_ ∉ (Map.find (sampleNode 1).groupMembers_ "2-3".toList).getD []) ∧
    ((sampleNode 1).write netUp 300 5).1 = Call.returned false ∧
    ((sampleNode 1).write netUp 300 5).2.2 = [] ∧
    ((sampleNode 1).compare_exchange netUp 300 0 5).1 = Call.returned false ∧
    ((sampleNode 1).compare_exchange netUp 300 0 5).2.2 = [] :=
  ⟨⟨by decide, by decide⟩,
    ((not_subscriber_rejected netUp (sampleNode 1) 300
      (Or.inr ⟨"2-3".toList, by decide, by decide⟩)).1 5).1,
    ((not_subscriber_rejected netUp (sampleNode 1) 300
      (Or.inr ⟨"2-3".toList, by decide, by decide⟩)).1 5).2.1,
    ((not_subscriber_rejected netUp (sampleNode 1) 300
      (Or.inr ⟨"2-3".toList, by decide, by decide⟩)).2 0 5).1,
    ((not_subscriber_rejected netUp (sampleNode 1) 300
      (Or.inr ⟨"2-3".toList, by decide, by decide⟩)).2 0 5).2.1⟩

/-- Witness for C7: nodes 1 and 3 load the sample configuration. -/
theorem leader_is_minimum_witness :
    ((DSM.init 1).parse_config (some sampleConfig) = .ok (true, sampleNode 1) ∧
      (DSM.init 3).parse_config (some sampleConfig) = .ok (true, sampleNode 3)) ∧
    (sampleNode 1).groupMembers_ = (sampleNode 3).groupMembers_ ∧
    (∀ key, Map.find (sampleNode 1).groupLeader_ key =
      Map.find (sampleNode 3).groupLeader_ key) :=
  ⟨⟨by decide, by decide⟩,
    (leader_is_minimum 1 3 (some sampleConfig) (sampleNode 1) (sampleNode 3) (by decide)
      (by decide)).2.2.1,
    (leader_is_minimum 1 3 (some sampleConfig) (sampleNode 1) (sampleNode 3) (by decide)
      (by decide)).2.2.2⟩

/-- Witness for C8: variables 100 (group 1,2,3) and 200 (group 3,1,2) of the sample
configuration on node 1. -/
theorem same_members_same_group_witness :
    ((DSM.init 1).parse_config (some sampleConfig) = .ok (true, sampleNode 1) ∧
      readLines (getLines sampleConfig) .NONE [] [] = .ok (sampleNodes, sampleVars) ∧
      List.Perm [1, 2, 3] [3, 1, 2]) ∧
    canonical_group_key [1, 2, 3] = canonical_group_key [3, 1, 2] ∧
    ∃ leader,
      Map.find (sampleNode 1).varGroupKey_ 100 = some (canonical_group_key [1, 2, 3]) ∧
      Map.find (sampleNode 1).varGroupKey_ 200 = some (canonical_group_key [1, 2, 3]) ∧
      Map.find (sampleNode 1).groupLeader_ (canonical_group_key [1, 2, 3]) = some leader ∧
      (leader = 1 →
        Map.find (sampleNode 1).groupNextSeq_ (canonical_group_key [1, 2, 3]) = some 1) ∧
      (leader ≠ 1 →
        Map.find (sampleNode 1).groupNextSeq_ (canonical_group_key [1, 2, 3]) = none) :=
  ⟨⟨by decide, by decide, by decide⟩,
    same_members_same_group.1 [1, 2, 3] [3, 1, 2] (by decide),
    same_members_same_group.2 1 sampleConfig sampleNodes sampleVars (sampleNode 1)
      [] [⟨200, 7, [3, 1, 2]⟩, ⟨300, 0, [2, 3]⟩] [⟨100, 10, [1, 2, 3]⟩] [⟨300, 0, [2, 3]⟩]
      ⟨100, 10, [1, 2, 3]⟩ ⟨200, 7, [3, 1, 2]⟩ (by decide) (by decide) (by decide) (by decide)
      (by decide) (by decide) (by decide)⟩

/-- Witness for C9: node 1 leads group 1-2-3 of the sample configuration. -/
theorem commit_sequence_numbers_witness :
    ((DSM.init 1).parse_config (some sampleConfig) = .ok (true, sampleNode 1) ∧
      (sampleNode 1).is_leader_for_group sampleKey = true) ∧
    ∃ members, Map.find (sampleNode 1).groupMembers_ sampleKey = some members ∧
      members ≠ [] ∧ (sampleNode 1).seqOf sampleKey = 1 ∧
      ∀ steps : List (Net × DSMMessage),
        commitSeqs sampleKey ((sampleNode 1).run steps).2 =
            consecutiveBlocks members.length 1 ((sampleNode 1).countSequenced sampleKey steps) ∧
          ((sampleNode 1).run steps).1.seqOf sampleKey =
            1 + (sampleNode 1).countSequenced sampleKey steps ∧
          ((∀ p ∈ steps, p.2.type = "REQUEST".toList ∧ p.2.op = "WRITE".toList ∧
              p.2.groupKey = sampleKey) →
            (sampleNode 1).countSequenced sampleKey steps = steps.length) :=
  ⟨⟨by decide, by decide⟩,
    commit_sequence_numbers 1 (some sampleConfig) (sampleNode 1) sampleKey (by decide)
      (by decide)⟩

/-- On the sample configuration node 1 handles a WRITE, a mismatching CMPXCHG and a matching
CMPXCHG: the COMMITs carry 1 and 2, each sent to the three members. -/
theorem sample_run_commitSeqs :
    commitSeqs sampleKey ((sampleNode 1).run
      [(netUp, sampleWrite), (netUp, sampleCasStale), (netUp, sampleCas)]).2 =
      [1, 1, 1, 2, 2, 2] := by
  decide

/-- The helpers of the codec on small inputs. -/
theorem sample_codec :
    intToStr (-120) = "-120".toList ∧ stoi "12abc".toList = .ok 12 ∧
      stoi "  -7".toList = .ok (-7) ∧ stoi "abc".toList = .error .invalid_argument ∧
      canonical_group_key [3, 1, 2] = "1-2-3".toList ∧
      parseVarLine "200 7 3,1,2".toList = .ok ⟨200, 7, [3, 1, 2]⟩ := by
  decide

/-- What node 1 holds after loading the sample configuration. -/
theorem sample_node_tables :
    (sampleNode 1).groupLeader_ = [("1-2-3".toList, 1), ("2-3".toList, 2)] ∧
      (sampleNode 1).groupNextSeq_ = [("1-2-3".toList, 1)] ∧
      (sampleNode 1).groupMembers_ = [("1-2-3".toList, [3, 1, 2]), ("2-3".toList, [2, 3])] ∧
      (sampleNode 1).varValue_ = [(100, 10), (200, 7), (300, 0)] := by
  decide

end Lab8

namespace Lab8

/-! ## Transport -/

/-- C13, counterexample: node 1 of the sample configuration sends a request to node 2 over a
network on which the connection is made and `::send` fails with -1, and over one on which
`::send` writes 3 bytes of a longer payload; `send_message_to` returns true both times. -/
theorem send_message_to_counterexample :
    (sampleNode 1).send_message_to netSendFails 2 sampleWrite = true ∧
      (3 : Int) < (serialize sampleWrite).length ∧
      (sampleNode 1).send_message_to (fun _ _ => .connected 3) 2 sampleWrite = true := by
  decide

/-- C13, amended: `send_message_to` returns true exactly when the target node id is in the
node directory and the connection to it is made, whatever `::send` returns afterwards; it
returns false when the id is unknown or when `socket`, `inet_pton` or `connect` fails. -/
theorem send_message_to_true_iff (net : Net) (s : DSM) (nodeId : Int) (msg : DSMMessage) :
    (s.send_message_to net nodeId msg = true ↔
      ∃ node n, Map.find s.nodes_ nodeId = some node ∧
        net node (serialize msg) = .connected n) ∧
    (Map.find s.nodes_ nodeId = none → s.send_message_to net nodeId msg = false) ∧
    (∀ node, Map.find s.nodes_ nodeId = some node →
      (net node (serialize msg) = .socket_failed ∨ net node (serialize msg) = .bad_address ∨
        net node (serialize msg) = .connect_failed) →
      s.send_message_to net nodeId msg = false) := by
  unfold DSM.send_message_to
  refine ⟨?_, ?_, ?_⟩
  · cases hf : Map.find s.nodes_ nodeId with
    | none => simp
    | some node =>
      cases hn : net node (serialize msg) with
      | connected n => simp [hn]
      | socket_failed => simp [hn]
      | bad_address => simp [hn]
      | connect_failed => simp [hn]
  · intro hf
    rw [hf]
  · intro node hf hn
    rw [hf]
    rcases hn with hn | hn | hn <;> simp only [hn]

theorem broadcastLoop_result (net : Net) (s : DSM) (msg : DSMMessage) (l : List Int)
    (ok : Bool) :
    (DSM.broadcastLoop net s msg l ok).1 =
      (ok && l.all (fun nid => s.send_message_to net nid msg)) := by
  induction l generalizing ok with
  | nil => simp [DSM.broadcastLoop]
  | cons nid r ih =>
    simp only [DSM.broadcastLoop, ih, List.all_cons]
    cases ok <;> cases s.send_message_to net nid msg <;> simp

/-- C15: for a known group `broadcast_to_group` calls `send_message_to` once for every entry
of the member list, in order and whatever the earlier calls returned, and returns true exactly
when every one of these calls returned true; for an unknown group key it sends nothing and
returns false. -/
theorem broadcast_to_group_spec (net : Net) (s : DSM) (key : Str) (msg : DSMMessage) :
    (∀ members, Map.find s.groupMembers_ key = some members →
      (s.broadcast_to_group net key msg).2 = members.map (fun nid => Effect.send nid msg) ∧
        ((s.broadcast_to_group net key msg).1 = true ↔
          ∀ nid ∈ members, s.send_message_to net nid msg = true)) ∧
    (Map.find s.groupMembers_ key = none → s.broadcast_to_group net key msg = (false, [])) := by
  constructor
  · intro members hm
    unfold DSM.broadcast_to_group
    rw [hm]
    simp only
    rw [broadcastLoop_trace, broadcastLoop_result]
    simp
  · intro hm
    unfold DSM.broadcast_to_group
    rw [hm]

/-- A broadcast on the sample configuration over a network that reaches node 2 only: all three
members are tried, the result is false. -/
theorem sample_broadcast :
    (sampleNode 1).broadcast_to_group
        (fun node _ => if node.id = 2 then .connected 0 else .connect_failed)
        sampleKey (sampleCommit 5 1) =
      (false, [Effect.send 3 (sampleCommit 5 1), Effect.send 1 (sampleCommit 5 1),
        Effect.send 2 (sampleCommit 5 1)]) := by
  decide

/-! ## A node that is not in the node table -/

end Lab8

namespace Lab8

/-! ## What changes the value a node reads -/

theorem write_frame (net : Net) (s : DSM) (varId value : Int) :
    (s.write net varId value).2.1.varValue_ = s.varValue_ ∧
      (s.write net varId value).2.1.groupNextSeq_ = s.groupNextSeq_ ∧
      (s.write net varId value).2.1.selfId_ = s.selfId_ ∧
      (s.write net varId value).2.1.varGroupKey_ = s.varGroupKey_ := by
  unfold DSM.write
  cases hf : Map.find s.varGroupKey_ varId with
  | none => exact ⟨rfl, rfl, rfl, rfl⟩
  | some gk =>
    simp only
    split
    · exact ⟨rfl, rfl, rfl, rfl⟩
    · split <;> exact ⟨rfl, rfl, rfl, rfl⟩

theorem compare_exchange_frame (net : Net) (s : DSM) (varId expected desired : Int) :
    (s.compare_exchange net varId expected desired).2.1.varValue_ = s.varValue_ ∧
      (s.compare_exchange net varId expected desired).2.1.groupNextSeq_ = s.groupNextSeq_ ∧
      (s.compare_exchange net varId expected desired).2.1.selfId_ = s.selfId_ ∧
      (s.compare_exchange net varId expected desired).2.1.varGroupKey_ = s.varGroupKey_ := by
  unfold DSM.compare_exchange
  cases hf : Map.find s.varGroupKey_ varId with
  | none => exact ⟨rfl, rfl, rfl, rfl⟩
  | some gk =>
    simp only
    split
    · exact ⟨rfl, rfl, rfl, rfl⟩
    · split <;> exact ⟨rfl, rfl, rfl, rfl⟩

theorem get_local_value_congr (s t : DSM) (h : t.varValue_ = s.varValue_) (v : Int) :
    t.get_local_value v = s.get_local_value v := by
  unfold DSM.get_local_value
  rw [h]

theorem handle_request_get_local_value (net : Net) (s : DSM) (req : DSMMessage) (v : Int) :
    (s.handle_request_as_leader net req).1.get_local_value v = s.get_local_value v := by
  cases hm : Map.find s.groupMembers_ req.groupKey with
  | none => rw [handle_request_unknown net s req hm]
  | some ms =>
    by_cases hw : req.op = "WRITE".toList
    · rw [handle_request_write net s req ms hw hm]
      rfl
    · by_cases hc : req.op = "CMPXCHG".toList
      · by_cases hcur : s.get_local_value req.varId = req.expected
        · rw [handle_request_cmpxchg_match net s req ms hc hm hcur]
          simp only [get_local_value_eq]
          exact Map.find_touch_getD _ _ _ _
        · rw [handle_request_cmpxchg_mismatch net s req ms hc hm hcur]
          simp only [get_local_value_eq]
          exact Map.find_touch_getD _ _ _ _
      · rw [handle_request_other net s req hw hc]

theorem apply_commit_get_local_value (s : DSM) (c : DSMMessage) (v : Int) :
    (s.apply_commit c).1.get_local_value v =
      if c.varId = v then c.value else s.get_local_value v := by
  by_cases h : c.varId = v
  · rw [if_pos h, ← h]
    exact apply_commit_value s c
  · rw [if_neg h, get_local_value_eq, get_local_value_eq, apply_commit_varValue,
      Map.find_set_other _ _ _ _ (fun e => h e.symm)]

theorem handle_message_get_local_value (net : Net) (s : DSM) (m : DSMMessage) (v : Int) :
    (s.handle_message net m).1.get_local_value v =
      if m.type = "COMMIT".toList ∧ m.varId = v then m.value else s.get_local_value v := by
  by_cases hc : m.type = "COMMIT".toList
  · rw [handle_message_commit net s m hc, apply_commit_get_local_value]
    by_cases hv : m.varId = v
    · rw [if_pos hv, if_pos ⟨hc, hv⟩]
    · rw [if_neg hv, if_neg (fun h => hv h.2)]
  · rw [if_neg (fun h => hc h.1)]
    by_cases ht : m.type = "REQUEST".toList
    · by_cases hl : s.is_leader_for_group m.groupKey = true
      · rw [handle_message_request net s m ht hl]
        exact handle_request_get_local_value net s m v
      · unfold DSM.handle_message
        rw [if_pos ht, if_neg hl]
    · unfold DSM.handle_message
      rw [if_neg ht, if_neg hc]
      split
      · split <;> rfl
      · rfl

theorem resume_frame (s : DSM) (reqId : Int) (r : Bool × DSM) (h : s.resume reqId = some r) :
    r.2.varValue_ = s.varValue_ ∧ r.2.groupNextSeq_ = s.groupNextSeq_ ∧
      r.2.nextReqId_ = s.nextReqId_ ∧ r.2.pending_ = Map.erase s.pending_ reqId := by
  unfold DSM.resume at h
  cases hf : Map.find s.pending_ reqId with
  | none => simp [hf] at h
  | some pr =>
    simp only [hf] at h
    split at h
    · simp only [Option.some.injEq] at h
      rw [← h]
      exact ⟨rfl, rfl, rfl, rfl⟩
    · simp at h

theorem step_get_local_value (s : DSM) (e : Event) (v : Int) :
    (s.step e).get_local_value v =
      match commitValue v e with
      | some x => x
      | none => s.get_local_value v := by
  cases e with
  | write net varId value =>
    exact get_local_value_congr s _ (write_frame net s varId value).1 v
  | compare_exchange net varId expected desired =>
    exact get_local_value_congr s _ (compare_exchange_frame net s varId expected desired).1 v
  | resume reqId =>
    simp only [DSM.step, commitValue]
    cases hr : s.resume reqId with
    | none => rfl
    | some r => exact get_local_value_congr s _ (resume_frame s reqId r hr).1 v
  | on_change cb => rfl
  | get_local_value u => rfl
  | message net m =>
    simp only [DSM.step, commitValue]
    rw [handle_message_get_local_value]
    split <;> rfl

theorem exec_get_local_value (events : List Event) (s : DSM) (v : Int) :
    (s.exec events).get_local_value v =
      match lastCommit v events with
      | some x => x
      | none => s.get_local_value v := by
  induction events generalizing s with
  | nil => rfl
  | cons e r ih =>
    simp only [DSM.exec, lastCommit]
    rw [ih, step_get_local_value]
    cases lastCommit v r with
    | some x => rfl
    | none => rfl

end Lab8

namespace Lab8

theorem loadVars_varValue_keep (s : DSM) (post : List DSMVariableCfg) (id : Int)
    (h : ∀ w ∈ post, w.id ≠ id) :
    Map.find (s.loadVars post).varValue_ id = Map.find s.varValue_ id := by
  induction post generalizing s with
  | nil => rfl
  | cons v r ih =>
    simp only [DSM.loadVars]
    rw [ih _ (fun w hw => h w (by simp [hw]))]
    exact Map.find_set_other _ _ _ _ (fun e => h v (by simp) e.symm)

theorem loadVars_varValue_last (s : DSM) (pre post : List DSMVariableCfg) (w : DSMVariableCfg)
    (h : ∀ u ∈ post, u.id ≠ w.id) :
    Map.find (s.loadVars (pre ++ w :: post)).varValue_ w.id = some w.initial := by
  rw [loadVars_append]
  simp only [DSM.loadVars]
  rw [loadVars_varValue_keep _ post w.id h]
  exact Map.find_set_same _ _ _

theorem parse_config_varValue (self : Int) (content : Str) (nodes : Map Int DSMNode)
    (vars : List DSMVariableCfg) (s : DSM)
    (hparse : (DSM.init self).parse_config (some content) = .ok (true, s))
    (hread : readLines (getLines content) .NONE [] [] = .ok (nodes, vars)) :
    ∃ me, s.varValue_ =
      (({ DSM.init self with nodes_ := nodes, self_ := some me } : DSM).loadVars vars).varValue_ := by
  obtain ⟨c, n, vs, me, s2, hf, hr, -, hs2, hel⟩ := parse_config_ok self _ s hparse
  simp only [Option.some.injEq] at hf
  subst hf
  rw [hread] at hr
  simp only [Res.ok.injEq, Prod.mk.injEq] at hr
  obtain ⟨hn, hv⟩ := hr
  subst hn hv
  have hnd : (s2.groupMembers_.map Prod.fst).Nodup := by
    rw [hs2]
    exact loadVars_nodup _ _ (by simp [DSM.init])
  obtain ⟨hframe, -, -⟩ := electLeaders_spec _ _ _ hel hnd
  exact ⟨me, by rw [hframe.2.2.1, hs2]⟩

/-- C11: let a freshly constructed node load a configuration successfully and then go through
any list of events: calls of `write`, `compare_exchange` (and their continuation after the
wait), `on_change`, `get_local_value`, and handled messages of any type.  Afterwards
`get_local_value v` is the value of the last COMMIT for `v` handled, and what it was right after
loading if there was none; right after loading it is the initial value of the last line of the
file for `v`, and 0 when the file has no line for `v`.  An event that is not the handling of a
COMMIT for `v` does not change what `get_local_value v` returns, and calling `get_local_value`
changes no state. -/
theorem local_value_history (self : Int) (content : Str) (nodes : Map Int DSMNode)
    (vars : List DSMVariableCfg) (s0 : DSM)
    (hparse : (DSM.init self).parse_config (some content) = .ok (true, s0))
    (hread : readLines (getLines content) .NONE [] [] = .ok (nodes, vars))
    (events : List Event) (v : Int) :
    ((s0.exec events).get_local_value v =
      match lastCommit v events with
      | some x => x
      | none => s0.get_local_value v) ∧
    (∀ pre w post, vars = pre ++ w :: post → (∀ u ∈ post, u.id ≠ w.id) →
      s0.get_local_value w.id = w.initial) ∧
    ((∀ w ∈ vars, w.id ≠ v) → s0.get_local_value v = 0) ∧
    (∀ (s : DSM) (e : Event), commitValue v e = none →
      (s.step e).get_local_value v = s.get_local_value v) ∧
    (∀ (s : DSM) (u : Int), s.step (.get_local_value u) = s) := by
  obtain ⟨me, hvv⟩ := parse_config_varValue self content nodes vars s0 hparse hread
  refine ⟨exec_get_local_value events s0 v, ?_, ?_, ?_, fun _ _ => rfl⟩
  · intro pre w post hsplit hlast
    rw [get_local_value_eq, hvv, hsplit, loadVars_varValue_last _ pre post w hlast]
    rfl
  · intro hno
    rw [get_local_value_eq, hvv, loadVars_varValue_keep _ vars v hno]
    rfl
  · intro s e he
    rw [step_get_local_value, he]

/-- Witness for C11: node 2 of the sample configuration writes, handles a COMMIT for variable
100 with value 5, a request, a RESP and a COMMIT for another variable, and reads 5. -/
theorem local_value_history_witness :
    ((DSM.init 2).parse_config (some sampleConfig) = .ok (true, sampleNode 2) ∧
      readLines (getLines sampleConfig) .NONE [] [] = .ok (sampleNodes, sampleVars)) ∧
    ((sampleNode 2).exec
      [.write netUp 100 8, .message netUp (sampleCommit 5 1), .message netUp sampleWrite,
       .message netUp (rejectResp sampleCasStale), .get_local_value 100,
       .message netUp { sampleCommit 9 2 with varId := 200 }]).get_local_value 100 =
      match lastCommit 100
        [.write netUp 100 8, .message netUp (sampleCommit 5 1), .message netUp sampleWrite,
         .message netUp (rejectResp sampleCasStale), .get_local_value 100,
         .message netUp { sampleCommit 9 2 with varId := 200 }] with
      | some x => x
      | none => (sampleNode 2).get_local_value 100 :=
  ⟨⟨by decide, by decide⟩,
    (local_value_history 2 sampleConfig sampleNodes sampleVars (sampleNode 2) (by decide)
      (by decide) _ 100).1⟩

/-- The history of the witness of C11 evaluated: the value read is 5, and 10 before any
COMMIT. -/
theorem sample_history :
    ((sampleNode 2).exec
      [.write netUp 100 8, .message netUp (sampleCommit 5 1), .message netUp sampleWrite,
       .message netUp (rejectResp sampleCasStale), .get_local_value 100,
       .message netUp { sampleCommit 9 2 with varId := 200 }]).get_local_value 100 = 5 ∧
      ((sampleNode 2).exec [.write netUp 100 8]).get_local_value 100 = 10 ∧
      (sampleNode 2).get_local_value 999 = 0 := by
  decide

end Lab8

namespace Lab8

/-! ## Request ids and the pending table -/

theorem Map.mem_keys_of_find {K V : Type} [DecidableEq K] (m : Map K V) (k : K) (v : V)
    (h : Map.find m k = some v) : k ∈ m.map Prod.fst := by
  by_contra hn
  rw [Map.find_none_of_not_mem m k hn] at h
  exact absurd h (by simp)

theorem Map.keys_erase_subset {K V : Type} [DecidableEq K] (m : Map K V) (k id : K)
    (h : id ∈ (Map.erase m k).map Prod.fst) : id ∈ m.map Prod.fst := by
  induction m with
  | nil => simp [Map.erase] at h
  | cons e r ih =>
    obtain ⟨k1, v1⟩ := e
    by_cases h1 : k1 = k
    · simp only [Map.erase, h1, if_true] at h
      simp [h]
    · simp only [Map.erase, h1, if_false, List.map_cons, List.mem_cons] at h
      rcases h with h | h
      · simp [h]
      · simp [ih h]

theorem Map.set_absent {K V : Type} [DecidableEq K] (m : Map K V) (k : K) (v : V)
    (h : k ∉ m.map Prod.fst) : Map.set m k v = m ++ [(k, v)] := by
  induction m with
  | nil => rfl
  | cons e r ih =>
    obtain ⟨k1, v1⟩ := e
    simp only [List.map_cons, List.mem_cons, not_or] at h
    have h1 : ¬ k1 = k := fun e => h.1 e.symm
    simp [Map.set, h1, ih h.2]

theorem Map.erase_append_absent {K V : Type} [DecidableEq K] (m : Map K V) (k : K) (v : V)
    (h : k ∉ m.map Prod.fst) : Map.erase (m ++ [(k, v)]) k = m := by
  induction m with
  | nil => simp [Map.erase]
  | cons e r ih =>
    obtain ⟨k1, v1⟩ := e
    simp only [List.map_cons, List.mem_cons, not_or] at h
    have h1 : ¬ k1 = k := fun e => h.1 e.symm
    simp [Map.erase, h1, ih h.2]

theorem Map.erase_set_absent {K V : Type} [DecidableEq K] (m : Map K V) (k : K) (v : V)
    (h : k ∉ m.map Prod.fst) : Map.erase (Map.set m k v) k = m := by
  rw [Map.set_absent m k v h, Map.erase_append_absent m k v h]

theorem Map.keys_set_of_find {K V : Type} [DecidableEq K] (m : Map K V) (k : K) (v w : V)
    (h : Map.find m k = some w) : (Map.set m k v).map Prod.fst = m.map Prod.fst := by
  rw [Map.keys_set, if_pos (Map.mem_keys_of_find m k w h)]

theorem handle_request_pending (net : Net) (s : DSM) (req : DSMMessage) :
    (s.handle_request_as_leader net req).1.pending_ = s.pending_ ∧
      (s.handle_request_as_leader net req).1.nextReqId_ = s.nextReqId_ := by
  cases hm : Map.find s.groupMembers_ req.groupKey with
  | none =>
    rw [handle_request_unknown net s req hm]
    exact ⟨rfl, rfl⟩
  | some ms =>
    by_cases hw : req.op = "WRITE".toList
    · rw [handle_request_write net s req ms hw hm]
      exact ⟨rfl, rfl⟩
    · by_cases hc : req.op = "CMPXCHG".toList
      · by_cases hcur : s.get_local_value req.varId = req.expected
        · rw [handle_request_cmpxchg_match net s req ms hc hm hcur]
          exact ⟨rfl, rfl⟩
        · rw [handle_request_cmpxchg_mismatch net s req ms hc hm hcur]
          exact ⟨rfl, rfl⟩
      · rw [handle_request_other net s req hw hc]
        exact ⟨rfl, rfl⟩

theorem apply_commit_nextReqId (s : DSM) (c : DSMMessage) :
    (s.apply_commit c).1.nextReqId_ = s.nextReqId_ := by
  unfold DSM.apply_commit
  cases hp : Map.find s.pending_ c.reqId <;> cases hc : s.callback_ <;> simp [hp, hc]

theorem handle_message_pending_keys (net : Net) (s : DSM) (m : DSMMessage) :
    (s.handle_message net m).1.pending_.map Prod.fst = s.pending_.map Prod.fst ∧
      (s.handle_message net m).1.nextReqId_ = s.nextReqId_ := by
  by_cases hc : m.type = "COMMIT".toList
  · rw [handle_message_commit net s m hc, apply_commit_pending, apply_commit_nextReqId]
    refine ⟨?_, rfl⟩
    cases hp : Map.find s.pending_ m.reqId with
    | none => rfl
    | some pr => exact Map.keys_set_of_find _ _ _ pr hp
  · by_cases ht : m.type = "REQUEST".toList
    · by_cases hl : s.is_leader_for_group m.groupKey = true
      · rw [handle_message_request net s m ht hl]
        obtain ⟨h1, h2⟩ := handle_request_pending net s m
        rw [h1, h2]
        exact ⟨rfl, rfl⟩
      · unfold DSM.handle_message
        rw [if_pos ht, if_neg hl]
        exact ⟨rfl, rfl⟩
    · by_cases hr : m.type = "RESP".toList
      · cases hp : Map.find s.pending_ m.reqId with
        | none =>
          unfold DSM.handle_message
          rw [if_neg ht, if_neg hc, if_pos hr, hp]
          exact ⟨rfl, rfl⟩
        | some pr =>
          rw [handle_message_resp net s m pr hr hp]
          exact ⟨Map.keys_set_of_find _ _ _ pr hp, rfl⟩
      · unfold DSM.handle_message
        rw [if_neg ht, if_neg hc, if_neg hr]
        exact ⟨rfl, rfl⟩

theorem keysFresh_submit (s : DSM) (h1 : 1 ≤ s.nextReqId_) (h : s.keysFresh)
    (p : Map Int PendingReq) (hp : ∀ id ∈ p.map Prod.fst,
      id ∈ (Map.set s.pending_ s.nextReqId_ ({} : PendingReq)).map Prod.fst)
    (id : Int) (hid : id ∈ p.map Prod.fst) : 1 ≤ id ∧ id < s.nextReqId_ + 1 := by
  have hm := hp id hid
  rw [Map.keys_set] at hm
  split at hm
  · have := h id hm
    omega
  · rcases List.mem_append.1 hm with hm | hm
    · have := h id hm
      omega
    · simp only [List.mem_singleton] at hm
      omega

theorem write_keysFresh (net : Net) (s : DSM) (varId value : Int) (h1 : 1 ≤ s.nextReqId_)
    (h : s.keysFresh) :
    1 ≤ (s.write net varId value).2.1.nextReqId_ ∧ (s.write net varId value).2.1.keysFresh := by
  unfold DSM.write
  cases hf : Map.find s.varGroupKey_ varId with
  | none => exact ⟨h1, h⟩
  | some gk =>
    simp only
    split
    · exact ⟨h1, h⟩
    · split
      · refine ⟨by show 1 ≤ s.nextReqId_ + 1; omega, ?_⟩
        intro id hid
        exact keysFresh_submit s h1 h _ (fun _ hx => hx) id hid
      · refine ⟨by show 1 ≤ s.nextReqId_ + 1; omega, ?_⟩
        intro id hid
        exact keysFresh_submit s h1 h _ (fun x hx => Map.keys_erase_subset _ _ x hx) id hid

theorem compare_exchange_keysFresh (net : Net) (s : DSM) (varId expected desired : Int)
    (h1 : 1 ≤ s.nextReqId_) (h : s.keysFresh) :
    1 ≤ (s.compare_exchange net varId expected desired).2.1.nextReqId_ ∧
      (s.compare_exchange net varId expected desired).2.1.keysFresh := by
  unfold DSM.compare_exchange
  cases hf : Map.find s.varGroupKey_ varId with
  | none => exact ⟨h1, h⟩
  | some gk =>
    simp only
    split
    · exact ⟨h1, h⟩
    · split
      · refine ⟨by show 1 ≤ s.nextReqId_ + 1; omega, ?_⟩
        intro id hid
        exact keysFresh_submit s h1 h _ (fun _ hx => hx) id hid
      · refine ⟨by show 1 ≤ s.nextReqId_ + 1; omega, ?_⟩
        intro id hid
        exact keysFresh_submit s h1 h _ (fun x hx => Map.keys_erase_subset _ _ x hx) id hid

theorem step_keysFresh (s : DSM) (e : Event) (h1 : 1 ≤ s.nextReqId_) (h : s.keysFresh) :
    1 ≤ (s.step e).nextReqId_ ∧ (s.step e).keysFresh := by
  cases e with
  | write net varId value => exact write_keysFresh net s varId value h1 h
  | compare_exchange net varId expected desired =>
    exact compare_exchange_keysFresh net s varId expected desired h1 h
  | resume reqId =>
    simp only [DSM.step]
    cases hr : s.resume reqId with
    | none => exact ⟨h1, h⟩
    | some r =>
      obtain ⟨-, -, hn, hp⟩ := resume_frame s reqId r hr
      simp only
      refine ⟨by rw [hn]; exact h1, ?_⟩
      intro id hid
      rw [hp] at hid
      rw [hn]
      exact h id (Map.keys_erase_subset _ _ id hid)
  | on_change cb => exact ⟨h1, h⟩
  | get_local_value u => exact ⟨h1, h⟩
  | message net m =>
    obtain ⟨hk, hn⟩ := handle_message_pending_keys net s m
    simp only [DSM.step]
    refine ⟨by rw [hn]; exact h1, ?_⟩
    intro id hid
    rw [hk] at hid
    rw [hn]
    exact h id hid

theorem exec_keysFresh (events : List Event) (s : DSM) (h1 : 1 ≤ s.nextReqId_)
    (h : s.keysFresh) : 1 ≤ (s.exec events).nextReqId_ ∧ (s.exec events).keysFresh := by
  induction events generalizing s with
  | nil => exact ⟨h1, h⟩
  | cons e r ih =>
    obtain ⟨a, b⟩ := step_keysFresh s e h1 h
    exact ih _ a b

theorem loadVars_nextReqId (vars : List DSMVariableCfg) (t : DSM) :
    (t.loadVars vars).nextReqId_ = t.nextReqId_ := by
  induction vars generalizing t with
  | nil => rfl
  | cons v r ih =>
    simp only [DSM.loadVars]
    exact ih _

theorem parse_config_fresh (self : Int) (file : Option Str) (s : DSM)
    (hparse : (DSM.init self).parse_config file = .ok (true, s)) :
    s.nextReqId_ = 1 ∧ s.pending_ = [] := by
  obtain ⟨c, n, vs, me, s2, -, -, -, hs2, hel⟩ := parse_config_ok self _ s hparse
  have hnd : (s2.groupMembers_.map Prod.fst).Nodup := by
    rw [hs2]
    exact loadVars_nodup _ _ (by simp [DSM.init])
  obtain ⟨hframe, -, -⟩ := electLeaders_spec _ _ _ hel hnd
  have hfr := loadVars_frame ({ DSM.init self with nodes_ := n, self_ := some me } : DSM) vs
  rw [← hs2] at hfr
  have hnext : s2.nextReqId_ = 1 := by
    rw [hs2, loadVars_nextReqId]
    rfl
  exact ⟨by rw [hframe.2.2.2.2.2, hnext], by rw [hframe.2.2.2.2.1, hfr.2.2.2.1]; rfl⟩

theorem reachable_keysFresh (self : Int) (file : Option Str) (s0 : DSM)
    (hparse : (DSM.init self).parse_config file = .ok (true, s0)) (events : List Event) :
    1 ≤ (s0.exec events).nextReqId_ ∧ (s0.exec events).keysFresh := by
  obtain ⟨hn, hp⟩ := parse_config_fresh self file s0 hparse
  apply exec_keysFresh
  · rw [hn]
  · intro id hid
    rw [hp] at hid
    simp at hid

theorem next_id_not_pending (s : DSM) (h : s.keysFresh) :
    s.nextReqId_ ∉ s.pending_.map Prod.fst := by
  intro hm
  have := h _ hm
  omega

end Lab8

namespace Lab8

/-- C14: on a node that has loaded its configuration and gone through any list of events, when
`write` or `compare_exchange` sends its REQUEST and that `send_message_to` returns false, the
call returns false without waiting, and the pending table is the same as before the call: the
entry registered for the request has been removed. -/
theorem send_failure_reported (self : Int) (file : Option Str) (s0 : DSM)
    (hparse : (DSM.init self).parse_config file = .ok (true, s0)) (events : List Event)
    (net : Net) (varId : Int) (leader : Int) (req : DSMMessage) :
    (∀ value : Int,
      ((s0.exec events).write net varId value).2.2 = [Effect.send leader req] →
      ((s0.exec events).write net varId value).2.1.send_message_to net leader req = false →
      ((s0.exec events).write net varId value).1 = Call.returned false ∧
        ((s0.exec events).write net varId value).2.1.pending_ = (s0.exec events).pending_) ∧
    (∀ expected desired : Int,
      ((s0.exec events).compare_exchange net varId expected desired).2.2 =
        [Effect.send leader req] →
      ((s0.exec events).compare_exchange net varId expected desired).2.1.send_message_to net
        leader req = false →
      ((s0.exec events).compare_exchange net varId expected desired).1 = Call.returned false ∧
        ((s0.exec events).compare_exchange net varId expected desired).2.1.pending_ =
          (s0.exec events).pending_) := by
  have hfresh := next_id_not_pending _ (reachable_keysFresh self file s0 hparse events).2
  generalize s0.exec events = s at hfresh
  constructor
  · intro value
    unfold DSM.write
    cases hf : Map.find s.varGroupKey_ varId with
    | none =>
      intro ht
      simp at ht
    | some gk =>
      simp only
      split
      · intro ht
        simp at ht
      · split
        · rename_i hsend
          intro ht hs
          simp only [List.cons.injEq, Effect.send.injEq, and_true] at ht
          rw [← ht.1, ← ht.2] at hs
          rw [hsend] at hs
          exact absurd hs (by simp)
        · intro _ _
          exact ⟨rfl, Map.erase_set_absent _ _ _ hfresh⟩
  · intro expected desired
    unfold DSM.compare_exchange
    cases hf : Map.find s.varGroupKey_ varId with
    | none =>
      intro ht
      simp at ht
    | some gk =>
      simp only
      split
      · intro ht
        simp at ht
      · split
        · rename_i hsend
          intro ht hs
          simp only [List.cons.injEq, Effect.send.injEq, and_true] at ht
          rw [← ht.1, ← ht.2] at hs
          rw [hsend] at hs
          exact absurd hs (by simp)
        · intro _ _
          exact ⟨rfl, Map.erase_set_absent _ _ _ hfresh⟩

end Lab8

namespace Lab8

/-- Witness for C14: node 3 of the sample configuration has one call blocked (request id 1) and
makes a second `write` while no connection can be made. -/
theorem send_failure_reported_witness :
    ((DSM.init 3).parse_config (some sampleConfig) = .ok (true, sampleNode 3) ∧
      (((sampleNode 3).exec [.write netUp 100 8]).write netDown 100 42).2.2 =
        [Effect.send 1 { sampleWrite with reqId := 2 }] ∧
      (((sampleNode 3).exec [.write netUp 100 8]).write netDown 100 42).2.1.send_message_to
        netDown 1 { sampleWrite with reqId := 2 } = false) ∧
    (((sampleNode 3).exec [.write netUp 100 8]).write netDown 100 42).1 =
      Call.returned false ∧
    (((sampleNode 3).exec [.write netUp 100 8]).write netDown 100 42).2.1.pending_ =
      ((sampleNode 3).exec [.write netUp 100 8]).pending_ :=
  ⟨⟨by decide, by decide, by decide⟩,
    (send_failure_reported 3 (some sampleConfig) (sampleNode 3) (by decide)
      [.write netUp 100 8] netDown 100 1 { sampleWrite with reqId := 2 }).1 42
      (by decide) (by decide)⟩

/-! ## Sequence counters exist on the leader only -/

theorem handle_request_frame (net : Net) (s : DSM) (req : DSMMessage) :
    (s.handle_request_as_leader net req).1.groupLeader_ = s.groupLeader_ ∧
      (s.handle_request_as_leader net req).1.selfId_ = s.selfId_ ∧
      (s.handle_request_as_leader net req).1.groupMembers_ = s.groupMembers_ ∧
      ∀ key, key ≠ req.groupKey →
        Map.find (s.handle_request_as_leader net req).1.groupNextSeq_ key =
          Map.find s.groupNextSeq_ key := by
  cases hm : Map.find s.groupMembers_ req.groupKey with
  | none =>
    rw [handle_request_unknown net s req hm]
    exact ⟨rfl, rfl, rfl, fun _ _ => rfl⟩
  | some ms =>
    by_cases hw : req.op = "WRITE".toList
    · rw [handle_request_write net s req ms hw hm]
      exact ⟨rfl, rfl, rfl, fun key hk => Map.find_set_other _ _ _ _ hk⟩
    · by_cases hc : req.op = "CMPXCHG".toList
      · by_cases hcur : s.get_local_value req.varId = req.expected
        · rw [handle_request_cmpxchg_match net s req ms hc hm hcur]
          exact ⟨rfl, rfl, rfl, fun key hk => Map.find_set_other _ _ _ _ hk⟩
        · rw [handle_request_cmpxchg_mismatch net s req ms hc hm hcur]
          exact ⟨rfl, rfl, rfl, fun _ _ => rfl⟩
      · rw [handle_request_other net s req hw hc]
        exact ⟨rfl, rfl, rfl, fun _ _ => rfl⟩

theorem handle_message_frame (net : Net) (s : DSM) (m : DSMMessage) :
    (s.handle_message net m).1.groupLeader_ = s.groupLeader_ ∧
      (s.handle_message net m).1.selfId_ = s.selfId_ ∧
      (s.handle_message net m).1.groupMembers_ = s.groupMembers_ ∧
      ∀ key, s.is_leader_for_group key = false →
        Map.find (s.handle_message net m).1.groupNextSeq_ key =
          Map.find s.groupNextSeq_ key := by
  by_cases ht : m.type = "REQUEST".toList
  · by_cases hl : s.is_leader_for_group m.groupKey = true
    · rw [handle_message_request net s m ht hl]
      obtain ⟨h1, h2, h3, h4⟩ := handle_request_frame net s m
      refine ⟨h1, h2, h3, ?_⟩
      intro key hk
      apply h4
      intro e
      rw [e, hl] at hk
      exact absurd hk (by simp)
    · unfold DSM.handle_message
      rw [if_pos ht, if_neg hl]
      exact ⟨rfl, rfl, rfl, fun _ _ => rfl⟩
  · obtain ⟨h1, h2, h3, h4, -⟩ := handle_message_not_request net s m ht
    exact ⟨h1, h3, h2, fun key _ => by rw [h4]⟩

theorem run_counter_frame (steps : List (Net × DSMMessage)) (s : DSM) (key : Str)
    (h : s.is_leader_for_group key = false) :
    Map.find (s.run steps).1.groupNextSeq_ key = Map.find s.groupNextSeq_ key := by
  induction steps generalizing s with
  | nil => rfl
  | cons st r ih =>
    obtain ⟨h1, h2, -, h4⟩ := handle_message_frame st.1 s st.2
    simp only [DSM.run]
    rw [ih _ (by rw [is_leader_congr s _ key h1 h2]; exact h)]
    exact h4 key h

/-- C17: after a successful `parse_config` on a freshly constructed node, the sequence-counter
map has an entry for a group key exactly when the local node is the leader recorded for that
key, and every entry is 1; whatever messages the node handles afterwards, a key whose group the
node does not lead still has no counter entry. -/
theorem counters_only_on_leader (self : Int) (file : Option Str) (s : DSM)
    (hparse : (DSM.init self).parse_config file = .ok (true, s)) :
    (∀ key, (Map.find s.groupNextSeq_ key).isSome = s.is_leader_for_group key) ∧
    (∀ key x, Map.find s.groupNextSeq_ key = some x → x = 1) ∧
    (∀ (steps : List (Net × DSMMessage)) (key : Str), s.is_leader_for_group key = false →
      Map.find (s.run steps).1.groupNextSeq_ key = none) := by
  obtain ⟨hself, hin, hout⟩ := parse_config_groups self file s hparse
  have hentry : ∀ key, (Map.find s.groupNextSeq_ key).isSome = s.is_leader_for_group key := by
    intro key
    unfold DSM.is_leader_for_group
    cases hm : Map.find s.groupMembers_ key with
    | none =>
      obtain ⟨h1, h2⟩ := hout key hm
      rw [h1, h2]
      rfl
    | some ms =>
      obtain ⟨l, -, h2, h3, h4⟩ := hin key ms hm
      rw [h2, hself]
      by_cases hl : l = self
      · rw [h3 hl]
        simp [hl]
      · rw [h4 hl]
        simp [hl]
  refine ⟨hentry, ?_, ?_⟩
  · intro key x hx
    cases hm : Map.find s.groupMembers_ key with
    | none =>
      rw [(hout key hm).2] at hx
      exact absurd hx (by simp)
    | some ms =>
      obtain ⟨l, -, -, h3, h4⟩ := hin key ms hm
      by_cases hl : l = self
      · rw [h3 hl] at hx
        exact (Option.some.inj hx).symm
      · rw [h4 hl] at hx
        exact absurd hx (by simp)
  · intro steps key hk
    rw [run_counter_frame steps s key hk]
    have := hentry key
    rw [hk] at this
    cases hf : Map.find s.groupNextSeq_ key with
    | none => rfl
    | some x =>
      rw [hf] at this
      exact absurd this (by simp)

/-- Witness for C17: node 1 of the sample configuration leads group 1-2-3 and not group 2-3;
it handles a WRITE request for the group it does not lead. -/
theorem counters_only_on_leader_witness :
    (DSM.init 1).parse_config (some sampleConfig) = .ok (true, sampleNode 1) ∧
    (sampleNode 1).groupNextSeq_ = [("1-2-3".toList, 1)] ∧
    (sampleNode 1).is_leader_for_group "2-3".toList = false ∧
    Map.find ((sampleNode 1).run
      [(netUp, { sampleWrite with varId := 300, groupKey := "2-3".toList })]).1.groupNextSeq_
      "2-3".toList = none :=
  ⟨by decide, by decide, by decide,
    (counters_only_on_leader 1 (some sampleConfig) (sampleNode 1) (by decide)).2.2
      [(netUp, { sampleWrite with varId := 300, groupKey := "2-3".toList })] "2-3".toList
      (by decide)⟩

end Lab8

namespace Lab8

/-! ## Keys of the wire format -/

theorem setField_type (m : DSMMessage) (v : Str) :
    setField m "type".toList v = .ok { m with type := v } := by
  unfold setField
  rw [if_pos rfl]

theorem setField_op (m : DSMMessage) (v : Str) :
    setField m "op".toList v = .ok { m with op := v } := by
  unfold setField
  rw [if_neg (by decide), if_pos rfl]

theorem setField_group (m : DSMMessage) (v : Str) :
    setField m "group".toList v = .ok { m with groupKey := v } := by
  unfold setField
  rw [if_neg (by decide), if_neg (by decide), if_neg (by decide), if_neg (by decide), if_neg (by decide), if_neg (by decide), if_pos rfl]

theorem convert_type (v : Str) : convert "type".toList v = .ok 0 := by
  unfold convert
  rw [if_neg (by decide), if_neg (by decide)]

theorem convert_op (v : Str) : convert "op".toList v = .ok 0 := by
  unfold convert
  rw [if_neg (by decide), if_neg (by decide)]

theorem convert_var (v : Str) : convert "var".toList v = stoi v := by
  unfold convert
  rw [if_neg (by decide), if_pos (by decide)]

theorem convert_value (v : Str) : convert "value".toList v = stoi v := by
  unfold convert
  rw [if_neg (by decide), if_pos (by decide)]

theorem convert_expected (v : Str) : convert "expected".toList v = stoi v := by
  unfold convert
  rw [if_neg (by decide), if_pos (by decide)]

theorem convert_origin (v : Str) : convert "origin".toList v = stoi v := by
  unfold convert
  rw [if_neg (by decide), if_pos (by decide)]

theorem convert_group (v : Str) : convert "group".toList v = .ok 0 := by
  unfold convert
  rw [if_neg (by decide), if_neg (by decide)]

theorem convert_seq (v : Str) : convert "seq".toList v = stoll v := by
  unfold convert
  rw [if_pos (by decide)]

theorem convert_req (v : Str) : convert "req".toList v = stoll v := by
  unfold convert
  rw [if_pos (by decide)]

theorem convert_success (v : Str) : convert "success".toList v = stoi v := by
  unfold convert
  rw [if_neg (by decide), if_pos (by decide)]

theorem knownKeys_cases (k : Str) :
    k = "type".toList ∨ k = "op".toList ∨ k = "var".toList ∨ k = "value".toList ∨
      k = "expected".toList ∨ k = "origin".toList ∨ k = "group".toList ∨ k = "seq".toList ∨
      k = "req".toList ∨ k = "success".toList ∨ k ∉ knownKeys := by
  by_cases h : k ∈ knownKeys
  · simp only [knownKeys, List.mem_cons, List.mem_singleton, List.not_mem_nil, or_false] at h
    tauto
  · tauto

theorem not_knownKeys (k : Str) (h : k ∉ knownKeys) :
    k ≠ "type".toList ∧ k ≠ "op".toList ∧ k ≠ "var".toList ∧ k ≠ "value".toList ∧
      k ≠ "expected".toList ∧ k ≠ "origin".toList ∧ k ≠ "group".toList ∧ k ≠ "seq".toList ∧
      k ≠ "req".toList ∧ k ≠ "success".toList := by
  simp only [knownKeys, List.mem_cons, List.mem_singleton, not_or, List.not_mem_nil,
    not_false_eq_true, and_true] at h
  exact h

theorem setField_unknown (m : DSMMessage) (k v : Str) (h : k ∉ knownKeys) :
    setField m k v = .ok m := by
  obtain ⟨h1, h2, h3, h4, h5, h6, h7, h8, h9, h10⟩ := not_knownKeys k h
  unfold setField
  rw [if_neg h1, if_neg h2, if_neg h3, if_neg h4, if_neg h5, if_neg h6, if_neg h7, if_neg h8,
    if_neg h9, if_neg h10]

theorem convert_unknown (k v : Str) (h : k ∉ knownKeys) : convert k v = .ok 0 := by
  obtain ⟨h1, h2, h3, h4, h5, h6, h7, h8, h9, h10⟩ := not_knownKeys k h
  unfold convert
  rw [if_neg (fun hh => hh.elim h8 h9),
    if_neg (fun hh => hh.elim h3 (fun hh => hh.elim h4 (fun hh => hh.elim h5
      (fun hh => hh.elim h6 h10))))]

theorem setField_of_convert_error (m : DSMMessage) (k v : Str) (e : Exn)
    (hc : convert k v = .error e) : setField m k v = .error e := by
  rcases knownKeys_cases k with h | h | h | h | h | h | h | h | h | h | h
  · subst h
    rw [convert_type] at hc
    exact absurd hc (by simp)
  · subst h
    rw [convert_op] at hc
    exact absurd hc (by simp)
  · subst h
    rw [convert_var] at hc
    rw [setField_var, hc]
    rfl
  · subst h
    rw [convert_value] at hc
    rw [setField_value, hc]
    rfl
  · subst h
    rw [convert_expected] at hc
    rw [setField_expected, hc]
    rfl
  · subst h
    rw [convert_origin] at hc
    rw [setField_origin, hc]
    rfl
  · subst h
    rw [convert_group] at hc
    exact absurd hc (by simp)
  · subst h
    rw [convert_seq] at hc
    rw [setField_seq, hc]
    rfl
  · subst h
    rw [convert_req] at hc
    rw [setField_req, hc]
    rfl
  · subst h
    rw [convert_success] at hc
    rw [setField_success, hc]
    rfl
  · rw [convert_unknown k v h] at hc
    exact absurd hc (by simp)

theorem setField_of_convert_ok (m : DSMMessage) (k v : Str) (x : Int)
    (hc : convert k v = .ok x) : ∃ m1, setField m k v = .ok m1 := by
  rcases knownKeys_cases k with h | h | h | h | h | h | h | h | h | h | h
  · subst h
    exact ⟨_, setField_type m v⟩
  · subst h
    exact ⟨_, setField_op m v⟩
  · subst h
    rw [convert_var] at hc
    rw [setField_var, hc]
    exact ⟨_, rfl⟩
  · subst h
    rw [convert_value] at hc
    rw [setField_value, hc]
    exact ⟨_, rfl⟩
  · subst h
    rw [convert_expected] at hc
    rw [setField_expected, hc]
    exact ⟨_, rfl⟩
  · subst h
    rw [convert_origin] at hc
    rw [setField_origin, hc]
    exact ⟨_, rfl⟩
  · subst h
    exact ⟨_, setField_group m v⟩
  · subst h
    rw [convert_seq] at hc
    rw [setField_seq, hc]
    exact ⟨_, rfl⟩
  · subst h
    rw [convert_req] at hc
    rw [setField_req, hc]
    exact ⟨_, rfl⟩
  · subst h
    rw [convert_success] at hc
    rw [setField_success, hc]
    exact ⟨_, rfl⟩
  · exact ⟨m, setField_unknown m k v h⟩

theorem setField_frame (m m1 : DSMMessage) (k v : Str) (hs : setField m k v = .ok m1) :
    (k ≠ "type".toList → m1.type = m.type) ∧ (k ≠ "op".toList → m1.op = m.op) ∧
    (k ≠ "var".toList → m1.varId = m.varId) ∧ (k ≠ "value".toList → m1.value = m.value) ∧
    (k ≠ "expected".toList → m1.expected = m.expected) ∧
    (k ≠ "origin".toList → m1.originId = m.originId) ∧
    (k ≠ "group".toList → m1.groupKey = m.groupKey) ∧ (k ≠ "seq".toList → m1.seq = m.seq) ∧
    (k ≠ "req".toList → m1.reqId = m.reqId) ∧
    (k ≠ "success".toList → m1.success = m.success) := by
  rcases knownKeys_cases k with h | h | h | h | h | h | h | h | h | h | h
  · subst h
    rw [setField_type] at hs
    simp only [Except.ok.injEq] at hs
    subst hs
    refine ⟨?_, ?_, ?_, ?_, ?_, ?_, ?_, ?_, ?_, ?_⟩ <;> intro hne <;>
      first | rfl | exact absurd rfl hne
  · subst h
    rw [setField_op] at hs
    simp only [Except.ok.injEq] at hs
    subst hs
    refine ⟨?_, ?_, ?_, ?_, ?_, ?_, ?_, ?_, ?_, ?_⟩ <;> intro hne <;>
      first | rfl | exact absurd rfl hne
  · subst h
    rw [setField_var] at hs
    cases hv : stoi v with
    | error e =>
      rw [hv] at hs
      exact absurd hs (by simp [Except.map])
    | ok x =>
      rw [hv] at hs
      simp only [Except.map, Except.ok.injEq] at hs
      subst hs
      refine ⟨?_, ?_, ?_, ?_, ?_, ?_, ?_, ?_, ?_, ?_⟩ <;> intro hne <;>
        first | rfl | exact absurd rfl hne
  · subst h
    rw [setField_value] at hs
    cases hv : stoi v with
    | error e =>
      rw [hv] at hs
      exact absurd hs (by simp [Except.map])
    | ok x =>
      rw [hv] at hs
      simp only [Except.map, Except.ok.injEq] at hs
      subst hs
      refine ⟨?_, ?_, ?_, ?_, ?_, ?_, ?_, ?_, ?_, ?_⟩ <;> intro hne <;>
        first | rfl | exact absurd rfl hne
  · subst h
    rw [setField_expected] at hs
    cases hv : stoi v with
    | error e =>
      rw [hv] at hs
      exact absurd hs (by simp [Except.map])
    | ok x =>
      rw [hv] at hs
      simp only [Except.map, Except.ok.injEq] at hs
      subst hs
      refine ⟨?_, ?_, ?_, ?_, ?_, ?_, ?_, ?_, ?_, ?_⟩ <;> intro hne <;>
        first | rfl | exact absurd rfl hne
  · subst h
    rw [setField_origin] at hs
    cases hv : stoi v with
    | error e =>
      rw [hv] at hs
      exact absurd hs (by simp [Except.map])
    | ok x =>
      rw [hv] at hs
      simp only [Except.map, Except.ok.injEq] at hs
      subst hs
      refine ⟨?_, ?_, ?_, ?_, ?_, ?_, ?_, ?_, ?_, ?_⟩ <;> intro hne <;>
        first | rfl | exact absurd rfl hne
  · subst h
    rw [setField_group] at hs
    simp only [Except.ok.injEq] at hs
    subst hs
    refine ⟨?_, ?_, ?_, ?_, ?_, ?_, ?_, ?_, ?_, ?_⟩ <;> intro hne <;>
      first | rfl | exact absurd rfl hne
  · subst h
    rw [setField_seq] at hs
    cases hv : stoll v with
    | error e =>
      rw [hv] at hs
      exact absurd hs (by simp [Except.map])
    | ok x =>
      rw [hv] at hs
      simp only [Except.map, Except.ok.injEq] at hs
      subst hs
      refine ⟨?_, ?_, ?_, ?_, ?_, ?_, ?_, ?_, ?_, ?_⟩ <;> intro hne <;>
        first | rfl | exact absurd rfl hne
  · subst h
    rw [setField_req] at hs
    cases hv : stoll v with
    | error e =>
      rw [hv] at hs
      exact absurd hs (by simp [Except.map])
    | ok x =>
      rw [hv] at hs
      simp only [Except.map, Except.ok.injEq] at hs
      subst hs
      refine ⟨?_, ?_, ?_, ?_, ?_, ?_, ?_, ?_, ?_, ?_⟩ <;> intro hne <;>
        first | rfl | exact absurd rfl hne
  · subst h
    rw [setField_success] at hs
    cases hv : stoi v with
    | error e =>
      rw [hv] at hs
      exact absurd hs (by simp [Except.map])
    | ok x =>
      rw [hv] at hs
      simp only [Except.map, Except.ok.injEq] at hs
      subst hs
      refine ⟨?_, ?_, ?_, ?_, ?_, ?_, ?_, ?_, ?_, ?_⟩ <;> intro hne <;>
        first | rfl | exact absurd rfl hne
  · rw [setField_unknown m k v h] at hs
    simp only [Except.ok.injEq] at hs
    subst hs
    exact ⟨fun _ => rfl, fun _ => rfl, fun _ => rfl, fun _ => rfl, fun _ => rfl,
      fun _ => rfl, fun _ => rfl, fun _ => rfl, fun _ => rfl, fun _ => rfl⟩

end Lab8

namespace Lab8

/-! ## Decoding, pair by pair -/

theorem deserializeLoop_of_pair (kv k v : Str) (rest : List Str) (m : DSMMessage)
    (h : pairOf kv = some (k, v)) :
    deserializeLoop (kv :: rest) m =
      match setField m k v with
      | .ok m1 => deserializeLoop rest m1
      | .error e => .error e := by
  unfold pairOf at h
  rw [deserializeLoop]
  rcases hs : split kv '=' with _ | ⟨a, _ | ⟨b, _ | ⟨c, t⟩⟩⟩
  · rw [hs] at h
    simp at h
  · rw [hs] at h
    simp at h
  · rw [hs] at h
    simp only [Option.some.injEq, Prod.mk.injEq] at h
    rw [h.1, h.2]
  · rw [hs] at h
    simp at h

theorem deserializeLoop_of_skip (kv : Str) (rest : List Str) (m : DSMMessage)
    (h : pairOf kv = none) : deserializeLoop (kv :: rest) m = deserializeLoop rest m := by
  unfold pairOf at h
  rw [deserializeLoop]
  rcases hs : split kv '=' with _ | ⟨a, _ | ⟨b, _ | ⟨c, t⟩⟩⟩
  · rfl
  · rfl
  · rw [hs] at h
    simp at h
  · rfl

theorem deserializeLoop_ok (parts : List Str) (m0 : DSMMessage)
    (h : ∀ p ∈ parts.filterMap pairOf, ∃ x, convert p.1 p.2 = .ok x) :
    ∃ m, deserializeLoop parts m0 = .ok m := by
  induction parts generalizing m0 with
  | nil => exact ⟨m0, rfl⟩
  | cons kv rest ih =>
    cases hp : pairOf kv with
    | none =>
      rw [deserializeLoop_of_skip kv rest m0 hp]
      apply ih
      intro p hmem
      exact h p (by rw [List.filterMap_cons, hp]; exact hmem)
    | some kvp =>
      obtain ⟨k, v⟩ := kvp
      rw [deserializeLoop_of_pair kv k v rest m0 hp]
      obtain ⟨x, hx⟩ := h (k, v) (by rw [List.filterMap_cons, hp]; simp)
      obtain ⟨m1, hm1⟩ := setField_of_convert_ok m0 k v x hx
      rw [hm1]
      apply ih
      intro p hmem
      exact h p (by rw [List.filterMap_cons, hp]; simp [hmem])

theorem deserializeLoop_error (parts : List Str) (m0 : DSMMessage) (p : Str × Str) (e : Exn)
    (hmem : p ∈ parts.filterMap pairOf) (hc : convert p.1 p.2 = .error e) :
    ∃ e1, deserializeLoop parts m0 = .error e1 := by
  induction parts generalizing m0 with
  | nil => simp at hmem
  | cons kv rest ih =>
    cases hp : pairOf kv with
    | none =>
      rw [deserializeLoop_of_skip kv rest m0 hp]
      apply ih
      rw [List.filterMap_cons, hp] at hmem
      exact hmem
    | some kvp =>
      obtain ⟨k, v⟩ := kvp
      rw [deserializeLoop_of_pair kv k v rest m0 hp]
      rw [List.filterMap_cons, hp] at hmem
      cases hs : setField m0 k v with
      | error e1 => exact ⟨e1, rfl⟩
      | ok m1 =>
        simp only
        apply ih
        rcases List.mem_cons.1 hmem with hh | hh
        · subst hh
          rw [setField_of_convert_error m0 k v e hc] at hs
          exact absurd hs (by simp)
        · exact hh

theorem deserializeLoop_keeps {α : Type} (g : DSMMessage → α) (key : Str)
    (hg : ∀ (m m1 : DSMMessage) (k v : Str), setField m k v = .ok m1 → k ≠ key → g m1 = g m)
    (parts : List Str) (m0 m : DSMMessage) (h : deserializeLoop parts m0 = .ok m)
    (hk : key ∉ (parts.filterMap pairOf).map Prod.fst) : g m = g m0 := by
  induction parts generalizing m0 with
  | nil =>
    simp only [deserializeLoop, Except.ok.injEq] at h
    rw [h]
  | cons kv rest ih =>
    cases hp : pairOf kv with
    | none =>
      rw [deserializeLoop_of_skip kv rest m0 hp] at h
      rw [List.filterMap_cons, hp] at hk
      exact ih m0 h hk
    | some kvp =>
      obtain ⟨k, v⟩ := kvp
      rw [deserializeLoop_of_pair kv k v rest m0 hp] at h
      rw [List.filterMap_cons, hp] at hk
      simp only [List.map_cons, List.mem_cons, not_or] at hk
      cases hs : setField m0 k v with
      | error e1 =>
        rw [hs] at h
        exact absurd h (by simp)
      | ok m1 =>
        rw [hs] at h
        rw [ih m1 h hk.2]
        exact hg m0 m1 k v hs (fun e => hk.1 e.symm)

end Lab8

namespace Lab8

/-! ## Tolerated extras -/

theorem splitLoop_serialize_append (m : DSMMessage) (h : validMessage m) (rest : Str) :
    splitLoop ';' (serialize m ++ rest) [] =
      [ "type".toList ++ '=' :: m.type, "op".toList ++ '=' :: m.op,
        "var".toList ++ '=' :: intToStr m.varId, "value".toList ++ '=' :: intToStr m.value,
        "expected".toList ++ '=' :: intToStr m.expected,
        "origin".toList ++ '=' :: intToStr m.originId,
        "group".toList ++ '=' :: m.groupKey, "seq".toList ++ '=' :: intToStr m.seq,
        "req".toList ++ '=' :: intToStr m.reqId,
        "success".toList ++ '=' :: intToStr m.success ] ++ splitLoop ';' rest [] := by
  obtain ⟨ht, ho, hg, -⟩ := h
  have hs : serialize m ++ rest =
      "type".toList ++ '=' :: (m.type ++ ';' ::
      ("op".toList ++ '=' :: (m.op ++ ';' ::
      ("var".toList ++ '=' :: (intToStr m.varId ++ ';' ::
      ("value".toList ++ '=' :: (intToStr m.value ++ ';' ::
      ("expected".toList ++ '=' :: (intToStr m.expected ++ ';' ::
      ("origin".toList ++ '=' :: (intToStr m.originId ++ ';' ::
      ("group".toList ++ '=' :: (m.groupKey ++ ';' ::
      ("seq".toList ++ '=' :: (intToStr m.seq ++ ';' ::
      ("req".toList ++ '=' :: (intToStr m.reqId ++ ';' ::
      ("success".toList ++ '=' :: (intToStr m.success ++ ';' :: rest))))))))))))))))))) := by
    rw [serialize_eq]
    simp only [List.append_assoc, List.cons_append, List.nil_append]
  rw [hs,
    splitLoop_field _ _ _ (by decide) (by decide) ht.1,
    splitLoop_field _ _ _ (by decide) (by decide) ho.1,
    splitLoop_field _ _ _ (by decide) (by decide) (intToStr_chars _).1,
    splitLoop_field _ _ _ (by decide) (by decide) (intToStr_chars _).1,
    splitLoop_field _ _ _ (by decide) (by decide) (intToStr_chars _).1,
    splitLoop_field _ _ _ (by decide) (by decide) (intToStr_chars _).1,
    splitLoop_field _ _ _ (by decide) (by decide) hg.1,
    splitLoop_field _ _ _ (by decide) (by decide) (intToStr_chars _).1,
    splitLoop_field _ _ _ (by decide) (by decide) (intToStr_chars _).1,
    splitLoop_field _ _ _ (by decide) (by decide) (intToStr_chars _).1]
  rfl

theorem deserializeLoop_fields (m : DSMMessage) (h : validMessage m) (rest : List Str) :
    deserializeLoop
      ([ "type".toList ++ '=' :: m.type, "op".toList ++ '=' :: m.op,
        "var".toList ++ '=' :: intToStr m.varId, "value".toList ++ '=' :: intToStr m.value,
        "expected".toList ++ '=' :: intToStr m.expected,
        "origin".toList ++ '=' :: intToStr m.originId,
        "group".toList ++ '=' :: m.groupKey, "seq".toList ++ '=' :: intToStr m.seq,
        "req".toList ++ '=' :: intToStr m.reqId,
        "success".toList ++ '=' :: intToStr m.success ] ++ rest) {} =
      deserializeLoop rest m := by
  obtain ⟨ht, ho, hg, hvar, hval, hexp, horg, hseq, hreq, hsuc⟩ := h
  simp only [List.cons_append, List.nil_append]
  rw [deserializeLoop_type _ _ _ ht.2 (fun _ => rfl),
    deserializeLoop_op _ _ _ ho.2 (fun _ => rfl),
    deserializeLoop_var _ _ _ hvar, deserializeLoop_value _ _ _ hval,
    deserializeLoop_expected _ _ _ hexp, deserializeLoop_origin _ _ _ horg,
    deserializeLoop_group _ _ _ hg.2 (fun _ => rfl),
    deserializeLoop_seq _ _ _ hseq, deserializeLoop_req _ _ _ hreq,
    deserializeLoop_success _ _ _ hsuc]

theorem splitLoop_extra (k v : Str) (hk : ';' ∉ k) (hv : ';' ∉ v) :
    splitLoop ';' (k ++ '=' :: (v ++ [';'])) [] = [k ++ '=' :: v] := by
  have h : k ++ '=' :: (v ++ [';']) = (k ++ '=' :: v) ++ ';' :: [] := by simp
  have hw : ';' ∉ k ++ '=' :: v := by
    intro hm
    rcases List.mem_append.1 hm with hm | hm
    · exact hk hm
    · rcases List.mem_cons.1 hm with hm | hm
      · revert hm; decide
      · exact hv hm
  rw [h, splitLoop_append_sep ';' _ [] hw []]
  simp [splitLoop]

theorem pairOf_extra (k v : Str) (hk : '=' ∉ k) (hv : '=' ∉ v) :
    pairOf (k ++ '=' :: v) = none ∨ pairOf (k ++ '=' :: v) = some (k, v) := by
  unfold pairOf
  by_cases hne : k = []
  · subst hne
    left
    have : split ([] ++ '=' :: v) '=' = if [] ++ v = [] then [] else [[] ++ v] := by
      unfold split
      simp only [List.nil_append, splitLoop, if_true]
      exact splitLoop_nosep '=' v hv []
    rw [this]
    by_cases hvn : v = []
    · simp [hvn]
    · simp [hvn]
  · rw [split_pair k v hne hk hv]
    by_cases hvn : v = []
    · left
      simp [hvn]
    · right
      simp [hvn]

end Lab8

namespace Lab8

theorem deserializeLoop_unknown (parts : List Str) (m0 : DSMMessage)
    (h : ∀ p ∈ parts.filterMap pairOf, p.1 ∉ knownKeys) :
    deserializeLoop parts m0 = .ok m0 := by
  induction parts with
  | nil => rfl
  | cons kv rest ih =>
    cases hp : pairOf kv with
    | none =>
      rw [deserializeLoop_of_skip kv rest m0 hp]
      apply ih
      intro p hmem
      exact h p (by rw [List.filterMap_cons, hp]; exact hmem)
    | some kvp =>
      obtain ⟨k, v⟩ := kvp
      rw [deserializeLoop_of_pair kv k v rest m0 hp,
        setField_unknown m0 k v (h (k, v) (by rw [List.filterMap_cons, hp]; simp))]
      apply ih
      intro p hmem
      exact h p (by rw [List.filterMap_cons, hp]; simp [hmem])

/-- C18: `deserialize` does not fail because a key is missing or unknown.  When it returns a
message, every field whose key is not among the pairs of the input has its default: type, op
and groupKey empty, varId and originId -1, value, expected, seq and reqId 0, success -1.  It
returns a message whenever the conversion of every pair succeeds (pairs with a non-numeric or
unknown key need none), and the default message when every key is unknown.  For every valid
message `m`, `serialize m` followed by a pair with an unrecognised key decodes to `m`. -/
theorem deserialize_defaults :
    (∀ (line : Str) (m : DSMMessage), deserialize line = .ok m →
      ("type".toList ∉ (pairsOf line).map Prod.fst → m.type = []) ∧
      ("op".toList ∉ (pairsOf line).map Prod.fst → m.op = []) ∧
      ("var".toList ∉ (pairsOf line).map Prod.fst → m.varId = -1) ∧
      ("value".toList ∉ (pairsOf line).map Prod.fst → m.value = 0) ∧
      ("expected".toList ∉ (pairsOf line).map Prod.fst → m.expected = 0) ∧
      ("origin".toList ∉ (pairsOf line).map Prod.fst → m.originId = -1) ∧
      ("group".toList ∉ (pairsOf line).map Prod.fst → m.groupKey = []) ∧
      ("seq".toList ∉ (pairsOf line).map Prod.fst → m.seq = 0) ∧
      ("req".toList ∉ (pairsOf line).map Prod.fst → m.reqId = 0) ∧
      ("success".toList ∉ (pairsOf line).map Prod.fst → m.success = -1)) ∧
    (∀ line : Str, (∀ p ∈ pairsOf line, ∃ x, convert p.1 p.2 = .ok x) →
      ∃ m, deserialize line = .ok m) ∧
    (∀ line : Str, (∀ p ∈ pairsOf line, p.1 ∉ knownKeys) → deserialize line = .ok {}) ∧
    (∀ (m : DSMMessage) (k v : Str), validMessage m → k ∉ knownKeys →
      ';' ∉ k → '=' ∉ k → ';' ∉ v → '=' ∉ v →
      deserialize (serialize m ++ (k ++ '=' :: (v ++ [';']))) = .ok m) := by
  refine ⟨?_, ?_, ?_, ?_⟩
  · intro line m h
    unfold deserialize at h
    unfold pairsOf
    refine ⟨?_, ?_, ?_, ?_, ?_, ?_, ?_, ?_, ?_, ?_⟩
    · exact deserializeLoop_keeps (fun m => m.type) _
        (fun m m1 k v hs hk => (setField_frame m m1 k v hs).1 hk) _ _ m h
    · exact deserializeLoop_keeps (fun m => m.op) _
        (fun m m1 k v hs hk => (setField_frame m m1 k v hs).2.1 hk) _ _ m h
    · exact deserializeLoop_keeps (fun m => m.varId) _
        (fun m m1 k v hs hk => (setField_frame m m1 k v hs).2.2.1 hk) _ _ m h
    · exact deserializeLoop_keeps (fun m => m.value) _
        (fun m m1 k v hs hk => (setField_frame m m1 k v hs).2.2.2.1 hk) _ _ m h
    · exact deserializeLoop_keeps (fun m => m.expected) _
        (fun m m1 k v hs hk => (setField_frame m m1 k v hs).2.2.2.2.1 hk) _ _ m h
    · exact deserializeLoop_keeps (fun m => m.originId) _
        (fun m m1 k v hs hk => (setField_frame m m1 k v hs).2.2.2.2.2.1 hk) _ _ m h
    · exact deserializeLoop_keeps (fun m => m.groupKey) _
        (fun m m1 k v hs hk => (setField_frame m m1 k v hs).2.2.2.2.2.2.1 hk) _ _ m h
    · exact deserializeLoop_keeps (fun m => m.seq) _
        (fun m m1 k v hs hk => (setField_frame m m1 k v hs).2.2.2.2.2.2.2.1 hk) _ _ m h
    · exact deserializeLoop_keeps (fun m => m.reqId) _
        (fun m m1 k v hs hk => (setField_frame m m1 k v hs).2.2.2.2.2.2.2.2.1 hk) _ _ m h
    · exact deserializeLoop_keeps (fun m => m.success) _
        (fun m m1 k v hs hk => (setField_frame m m1 k v hs).2.2.2.2.2.2.2.2.2 hk) _ _ m h
  · intro line h
    exact deserializeLoop_ok _ _ h
  · intro line h
    exact deserializeLoop_unknown _ _ h
  · intro m k v hm hk hk1 hk2 hv1 hv2
    unfold deserialize split
    rw [splitLoop_serialize_append m hm, splitLoop_extra k v hk1 hv1,
      deserializeLoop_fields m hm]
    rcases pairOf_extra k v hk2 hv2 with hp | hp
    · rw [deserializeLoop_of_skip _ _ _ hp]
      rfl
    · rw [deserializeLoop_of_pair _ k v _ _ hp, setField_unknown m k v hk]
      rfl

/-- The codec on inputs with missing, unknown and extra keys. -/
theorem sample_defaults :
    deserialize [] = .ok {} ∧
      deserialize "hello;x=1;var=7;novalue=;".toList = .ok { varId := 7 } ∧
      deserialize (serialize sampleRequest ++ "ttl=30;".toList) = .ok sampleRequest := by
  decide

end Lab8

namespace Lab8

/-! ## Values of numeric keys -/

theorem takeWhile_append_stop {α : Type} (p : α → Bool) (l rest : List α)
    (h : ∀ a ∈ l, p a = true) (hr : ∀ c, rest.head? = some c → p c = false) :
    (l ++ rest).takeWhile p = l := by
  induction l with
  | nil =>
    cases rest with
    | nil => rfl
    | cons c r => simp [List.takeWhile, hr c rfl]
  | cons a l ih =>
    have ha : p a = true := h a (by simp)
    simp [List.takeWhile, ha, ih (fun b hb => h b (by simp [hb]))]

theorem strtoInt_of_digit (c : Char) (t : Str) (hd : isDigit c = true) :
    strtoInt (c :: t) = some ((digitsValue ((c :: t).takeWhile isDigit) : Nat) : Int) := by
  have hc := isDigit_not_special c hd
  have hdw : (c :: t).dropWhile isSpace = c :: t := by simp [List.dropWhile, hc.1]
  unfold strtoInt
  simp only [hdw]
  have hneg : (match c :: t with | '-' :: _ => true | _ => false) = false := by
    split
    · rename_i heq
      simp at heq
      exact absurd heq.1 hc.2.1
    · rfl
  have hs2 : (match c :: t with | '-' :: r => r | '+' :: r => r | _ => c :: t) = c :: t := by
    split
    · rename_i heq
      simp at heq
      exact absurd heq.1 hc.2.1
    · rename_i heq
      simp at heq
      exact absurd heq.1 hc.2.2.1
    · rfl
  rw [hneg, hs2]
  simp [List.takeWhile, hd]

theorem strtoInt_natToStr_append (n : Nat) (rest : Str)
    (hr : ∀ c, rest.head? = some c → isDigit c = false) :
    strtoInt (natToStr n ++ rest) = some (n : Int) := by
  obtain ⟨h1, h2, h3⟩ := natToStr_spec n
  have htw : (natToStr n ++ rest).takeWhile isDigit = natToStr n :=
    takeWhile_append_stop _ _ _ h2 hr
  cases hs : natToStr n with
  | nil => exact absurd hs h1
  | cons c cs =>
    rw [hs] at h2 h3 htw
    rw [List.cons_append] at htw ⊢
    rw [strtoInt_of_digit c (cs ++ rest) (h2 c (by simp)), htw, h3]

theorem strtoInt_intToStr_append (x : Int) (rest : Str)
    (hr : ∀ c, rest.head? = some c → isDigit c = false) :
    strtoInt (intToStr x ++ rest) = some x := by
  unfold intToStr
  by_cases hx : x < 0
  · simp only [hx, if_true]
    obtain ⟨h1, h2, h3⟩ := natToStr_spec x.natAbs
    have htw : (natToStr x.natAbs ++ rest).takeWhile isDigit = natToStr x.natAbs :=
      takeWhile_append_stop _ _ _ h2 hr
    have hsp : isSpace '-' = false := by decide
    have hval : -((x.natAbs : Nat) : Int) = x := by omega
    have htw2 : List.takeWhile isDigit (List.append (natToStr x.natAbs) rest) =
        natToStr x.natAbs := htw
    unfold strtoInt
    simp only [List.cons_append, List.dropWhile, hsp]
    simp only [htw2, h1, h3, if_false, if_true, hval]
  · simp only [hx, if_false]
    rw [strtoInt_natToStr_append _ _ hr]
    congr 1
    omega

theorem convert_intKeys (k v : Str) (h : k ∈ intKeys) : convert k v = stoi v := by
  simp only [intKeys, List.mem_cons, List.mem_singleton, List.not_mem_nil, or_false] at h
  rcases h with h | h | h | h | h <;> subst h
  · exact convert_var v
  · exact convert_value v
  · exact convert_expected v
  · exact convert_origin v
  · exact convert_success v

theorem convert_longKeys (k v : Str) (h : k ∈ longKeys) : convert k v = stoll v := by
  simp only [longKeys, List.mem_cons, List.mem_singleton, List.not_mem_nil, or_false] at h
  rcases h with h | h <;> subst h
  · exact convert_seq v
  · exact convert_req v

/-- C19, counterexample: the value `12abc` of the numeric key `var` is not a well-formed
decimal integer, and `deserialize` returns a message, with varId 12; so it does for `req` with
the value ` +7 ` and for `success` with `1.5`. -/
theorem deserialize_malformed_counterexample :
    deserialize "var=12abc;".toList = .ok { varId := 12 } ∧
      deserialize "req= +7 ;".toList = .ok { reqId := 7 } ∧
      deserialize "success=1.5;".toList = .ok { success := 1 } := by
  decide

/-- C19, amended: `deserialize` throws instead of returning a message whenever one of its
pairs has a numeric key and a value whose conversion fails; the conversion fails with
`invalid_argument` when no integer can be read from the value (no digit after optional white
space and one optional sign, as in `abc`) and with `out_of_range` when the integer read does
not fit the field.  A value that begins with an integer of the field's range is converted to
that integer whatever follows it: `var=` followed by such a value decodes to that varId. -/
theorem deserialize_numeric_errors :
    (∀ (line : Str) (p : Str × Str) (e : Exn), p ∈ pairsOf line →
      convert p.1 p.2 = .error e → ∃ e1, deserialize line = .error e1) ∧
    (∀ k v : Str, k ∈ intKeys ∨ k ∈ longKeys → strtoInt v = none →
      convert k v = .error .invalid_argument) ∧
    (∀ (k v : Str) (x : Int), k ∈ intKeys → strtoInt v = some x →
      ¬ (INT_MIN ≤ x ∧ x ≤ INT_MAX) → convert k v = .error .out_of_range) ∧
    (∀ (k v : Str) (x : Int), k ∈ longKeys → strtoInt v = some x →
      ¬ (LLONG_MIN ≤ x ∧ x ≤ LLONG_MAX) → convert k v = .error .out_of_range) ∧
    (∀ (k : Str) (x : Int) (rest : Str), (∀ c, rest.head? = some c → isDigit c = false) →
      (k ∈ intKeys → INT_MIN ≤ x ∧ x ≤ INT_MAX → convert k (intToStr x ++ rest) = .ok x) ∧
      (k ∈ longKeys → LLONG_MIN ≤ x ∧ x ≤ LLONG_MAX →
        convert k (intToStr x ++ rest) = .ok x)) ∧
    (∀ (x : Int) (rest : Str), (∀ c, rest.head? = some c → isDigit c = false) →
      INT_MIN ≤ x ∧ x ≤ INT_MAX → ';' ∉ rest → '=' ∉ rest →
      deserialize ("var".toList ++ '=' :: ((intToStr x ++ rest) ++ [';'])) =
        .ok { varId := x }) := by
  refine ⟨?_, ?_, ?_, ?_, ?_, ?_⟩
  · intro line p e hmem hc
    exact deserializeLoop_error _ _ p e hmem hc
  · intro k v hk hv
    rcases hk with hk | hk
    · rw [convert_intKeys k v hk]
      simp [stoi, hv]
    · rw [convert_longKeys k v hk]
      simp [stoll, hv]
  · intro k v x hk hv hx
    rw [convert_intKeys k v hk]
    simp [stoi, hv, hx]
  · intro k v x hk hv hx
    rw [convert_longKeys k v hk]
    simp [stoll, hv, hx]
  · intro k x rest hr
    constructor
    · intro hk hx
      rw [convert_intKeys k _ hk]
      simp [stoi, strtoInt_intToStr_append x rest hr, hx]
    · intro hk hx
      rw [convert_longKeys k _ hk]
      simp [stoll, strtoInt_intToStr_append x rest hr, hx]
  · intro x rest hr hx hs he
    have hv1 : ';' ∉ intToStr x ++ rest := by
      intro hm
      rcases List.mem_append.1 hm with hm | hm
      · exact (intToStr_chars x).1 hm
      · exact hs hm
    have hv2 : '=' ∉ intToStr x ++ rest := by
      intro hm
      rcases List.mem_append.1 hm with hm | hm
      · exact (intToStr_chars x).2 hm
      · exact he hm
    have hne : intToStr x ++ rest ≠ [] := by
      intro hh
      exact intToStr_ne_nil x (List.append_eq_nil.1 hh).1
    have hst : stoi (intToStr x ++ rest) = .ok x := by
      simp [stoi, strtoInt_intToStr_append x rest hr, hx]
    unfold deserialize split
    rw [splitLoop_extra _ _ (by decide) hv1,
      deserializeLoop_pair _ _ _ _ (by decide) (by decide) hv2 hne, setField_var, hst]
    rfl

end Lab8

namespace Lab8

/-! ## The accept loop and malformed payloads -/

theorem serve_malformed (net : Net) (s : DSM) (buf : Str) (e : Exn) (hne : buf ≠ [])
    (hbad : deserialize buf = .error e) : s.serve net buf = .threw e := by
  unfold DSM.serve
  rw [if_neg hne, hbad]

theorem server_loop_malformed (net : Net) (s : DSM) (buf : Str) (rest : List Str) (e : Exn)
    (hrun : s.running_ = true) (hne : buf ≠ []) (hbad : deserialize buf = .error e) :
    s.server_loop net (buf :: rest) = .threw e := by
  unfold DSM.server_loop
  rw [if_pos hrun, serve_malformed net s buf e hne hbad]

/-- C20 on the code: node 1 of the three-node scenario is running and accepts two connections,
the first with the payload `var=abc;`, the second with a well-formed COMMIT for variable 7.
`deserialize` throws `invalid_argument` on the first payload, nothing in `server_loop` catches
it, and the loop ends with that exception: the second payload, which alone would set variable 7
to 5, is never served. -/
theorem server_loop_malformed_payload :
    (scenarioNode 1 1).running_ = true ∧
      deserialize "var=abc;".toList = .error .invalid_argument ∧
      (scenarioNode 1 1).server_loop netUp
        ["var=abc;".toList, serialize { type := "COMMIT".toList, varId := 7, value := 5 }] =
        .threw .invalid_argument ∧
      (match (scenarioNode 1 1).server_loop netUp
          [serialize { type := "COMMIT".toList, varId := 7, value := 5 }] with
        | .ok r => r.1.get_local_value 7
        | _ => 0) = 5 := by
  decide

/-! ## The three-node scenario -/

/-- C12, counterexample: in the three-node scenario the change callback of every node is
called with sequence number 1, not 2: the COMMIT carries the value the leader's counter had
before the increment. -/
theorem write_scenario_counterexample :
    writeScenario.map ScenarioResult.effects =
        some [[Effect.callback 1 7 42 1], [Effect.callback 2 7 42 1],
          [Effect.callback 3 7 42 1]] ∧
      writeScenario.map ScenarioResult.effects ≠
        some [[Effect.callback 1 7 42 2], [Effect.callback 2 7 42 2],
          [Effect.callback 3 7 42 2]] := by
  decide

/-- C12, amended: in the three-node scenario (variable 7 with group 1,2,3 and initial value 10
on every node, leader node 1 with its counter at 1), after node 3 calls `write(7, 42)` and the
REQUEST and the COMMITs are served, the leader's counter is 2, `get_local_value 7` is 42 on
all three nodes, every node has called its change callback exactly once, with (7, 42, 1), and
the `write` of node 3 returns true. -/
theorem three_node_write_outcome :
    (scenarioNode 1 1).seqOf "1-2-3".toList = 1 ∧
      (scenarioNode 1 1).is_leader_for_group "1-2-3".toList = true ∧
      [(scenarioNode 1 1).get_local_value 7, (scenarioNode 2 2).get_local_value 7,
        (scenarioNode 3 3).get_local_value 7] = [10, 10, 10] ∧
      writeScenario = some ⟨2, [42, 42, 42],
        [[Effect.callback 1 7 42 1], [Effect.callback 2 7 42 1], [Effect.callback 3 7 42 1]],
        some true⟩ := by
  decide

end Lab8

namespace Lab8

/-! ## Injectivity of the group key -/

theorem keyLoop_false_head (r : List Int) (c : Char)
    (h : (keyLoop false r).head? = some c) : isDigit c = false := by
  cases r with
  | nil => simp [keyLoop] at h
  | cons y t =>
    simp only [keyLoop, Bool.false_eq_true, if_false, List.singleton_append, List.cons_append,
      List.head?_cons, Option.some.injEq] at h
    subst h
    decide

theorem keyLoop_step_inj (x y : Int) (a b : List Int)
    (h : intToStr x ++ keyLoop false a = intToStr y ++ keyLoop false b) :
    x = y ∧ keyLoop false a = keyLoop false b := by
  have hx := strtoInt_intToStr_append x (keyLoop false a) (keyLoop_false_head a)
  have hy := strtoInt_intToStr_append y (keyLoop false b) (keyLoop_false_head b)
  rw [h, hy] at hx
  have hxy : x = y := (Option.some.inj hx).symm
  subst hxy
  exact ⟨rfl, List.append_cancel_left h⟩

theorem keyLoop_false_inj (l1 l2 : List Int) (h : keyLoop false l1 = keyLoop false l2) :
    l1 = l2 := by
  induction l1 generalizing l2 with
  | nil =>
    cases l2 with
    | nil => rfl
    | cons y b => simp [keyLoop] at h
  | cons x a ih =>
    cases l2 with
    | nil => simp [keyLoop] at h
    | cons y b =>
      simp only [keyLoop, Bool.false_eq_true, if_false, List.singleton_append, List.cons_append,
        List.cons.injEq, true_and] at h
      obtain ⟨hxy, hr⟩ := keyLoop_step_inj x y a b h
      rw [hxy, ih b hr]

theorem keyLoop_true_inj (l1 l2 : List Int) (h : keyLoop true l1 = keyLoop true l2) :
    l1 = l2 := by
  cases l1 with
  | nil =>
    cases l2 with
    | nil => rfl
    | cons y b =>
      simp only [keyLoop, if_true, List.nil_append] at h
      exact absurd (List.append_eq_nil.1 h.symm).1 (intToStr_ne_nil y)
  | cons x a =>
    cases l2 with
    | nil =>
      simp only [keyLoop, if_true, List.nil_append] at h
      exact absurd (List.append_eq_nil.1 h).1 (intToStr_ne_nil x)
    | cons y b =>
      simp only [keyLoop, if_true, List.nil_append] at h
      obtain ⟨hxy, hr⟩ := keyLoop_step_inj x y a b h
      rw [hxy, keyLoop_false_inj a b hr]

theorem canonical_group_key_inj (g1 g2 : List Int)
    (h : canonical_group_key g1 = canonical_group_key g2) : g1.Perm g2 := by
  unfold canonical_group_key at h
  have hs : sortInts g1 = sortInts g2 := keyLoop_true_inj _ _ h
  unfold sortInts at hs
  have p1 := List.perm_insertionSort (fun a b : Int => a ≤ b) g1
  have p2 := List.perm_insertionSort (fun a b : Int => a ≤ b) g2
  rw [hs] at p1
  exact p1.symm.trans p2

/-- C21 on the code: four configurations of the one node 1 whose Variables line is malformed.
Without a group list, or with the group list `,`, the member list is empty and electing the
leader dereferences the end iterator that `std::min_element` returns (undefined behaviour);
with the group list `1,x` the call `std::stoi` throws `invalid_argument` and nothing in
`parse_config` or `start` catches it; with the group list `1x` the member is read as 1 and the
configuration is accepted.  In no case does `parse_config` or `start` return false. -/
theorem parse_config_malformed_group :
    (DSM.init 1).parse_config (some configNoGroup) = .undefined ∧
      (DSM.init 1).start (some configNoGroup) = .undefined ∧
      (DSM.init 1).parse_config (some configEmptyGroup) = .undefined ∧
      (DSM.init 1).start (some configEmptyGroup) = .undefined ∧
      (DSM.init 1).parse_config (some configBadMember) = .threw .invalid_argument ∧
      (DSM.init 1).start (some configBadMember) = .threw .invalid_argument ∧
      (match (DSM.init 1).start (some configTrailingMember) with
        | .ok r => (r.1, Map.find r.2.groupMembers_ "1".toList)
        | _ => (false, none)) = (true, some [1]) := by
  decide

/-- C23, counterexample: the member lists [1, 1, 2] and [1, 2] have the same set of node ids
and different group keys, `1-1-2` and `1-2`: nothing removes a repeated id. -/
theorem group_key_duplicates_counterexample :
    canonical_group_key [1, 1, 2] = "1-1-2".toList ∧
      canonical_group_key [1, 2] = "1-2".toList ∧
      canonical_group_key [1, 1, 2] ≠ canonical_group_key [1, 2] := by
  decide

/-- C23, amended: the group key is a function of the multiset of node ids.  Two member lists
that are rearrangements of each other yield the same key, and a list in which an id is repeated
never yields the key of the list without the repetitions. -/
theorem group_key_of_multiset :
    (∀ g1 g2 : List Int, g1.Perm g2 → canonical_group_key g1 = canonical_group_key g2) ∧
    (∀ g : List Int, ¬ g.Nodup → canonical_group_key g ≠ canonical_group_key g.dedup) := by
  refine ⟨canonical_group_key_perm, ?_⟩
  intro g hg h
  exact hg ((canonical_group_key_inj _ _ h).nodup_iff.2 (List.nodup_dedup g))

end Lab8

namespace Lab8

/-! ## Groups with different members -/

theorem handle_message_counter_other (net : Net) (s : DSM) (m : DSMMessage) (key : Str)
    (h : key ≠ m.groupKey) :
    Map.find (s.handle_message net m).1.groupNextSeq_ key = Map.find s.groupNextSeq_ key ∧
      (s.handle_message net m).1.groupLeader_ = s.groupLeader_ := by
  by_cases ht : m.type = "REQUEST".toList
  · by_cases hl : s.is_leader_for_group m.groupKey = true
    · rw [handle_message_request net s m ht hl]
      obtain ⟨h1, -, -, h4⟩ := handle_request_frame net s m
      exact ⟨h4 key h, h1⟩
    · unfold DSM.handle_message
      rw [if_pos ht, if_neg hl]
      exact ⟨rfl, rfl⟩
  · obtain ⟨h1, -, -, h4, -⟩ := handle_message_not_request net s m ht
    rw [h4]
    exact ⟨rfl, h1⟩

theorem loadVars_keys_canonical (vars : List DSMVariableCfg) (s : DSM)
    (h : ∀ k ms, Map.find s.groupMembers_ k = some ms → k = canonical_group_key ms) :
    ∀ k ms, Map.find (s.loadVars vars).groupMembers_ k = some ms →
      k = canonical_group_key ms := by
  induction vars generalizing s with
  | nil => exact h
  | cons v r ih =>
    simp only [DSM.loadVars]
    apply ih
    intro k ms hf
    simp only at hf
    by_cases hk : k = canonical_group_key v.group
    · rw [hk, Map.find_set_same] at hf
      rw [hk, ← Option.some.inj hf]
    · rw [Map.find_set_other _ _ _ _ hk] at hf
      exact h k ms hf

theorem parse_config_leader_of (self : Int) (content : Str) (nodes : Map Int DSMNode)
    (vars : List DSMVariableCfg) (s : DSM) (pre post : List DSMVariableCfg)
    (v : DSMVariableCfg)
    (hparse : (DSM.init self).parse_config (some content) = .ok (true, s))
    (hread : readLines (getLines content) .NONE [] [] = .ok (nodes, vars))
    (hv : vars = pre ++ v :: post) (hp : ∀ w ∈ post, w.id ≠ v.id) :
    Map.find s.varGroupKey_ v.id = some (canonical_group_key v.group) ∧
      ∃ l, Map.find s.groupLeader_ (canonical_group_key v.group) = some l ∧
        l ∈ v.group ∧ ∀ x ∈ v.group, l ≤ x := by
  obtain ⟨c, n, vs, me, s2, hf, hr, -, hs2, hel⟩ := parse_config_ok self _ s hparse
  simp only [Option.some.injEq] at hf
  subst hf
  rw [hread] at hr
  simp only [Res.ok.injEq, Prod.mk.injEq] at hr
  obtain ⟨hn, hvs⟩ := hr
  subst hn hvs
  have hnd : (s2.groupMembers_.map Prod.fst).Nodup := by
    rw [hs2]
    exact loadVars_nodup _ _ (by simp [DSM.init])
  obtain ⟨hframe, -, -⟩ := electLeaders_spec _ _ _ hel hnd
  obtain ⟨-, hin, -⟩ := parse_config_groups self _ s hparse
  have e := loadVars_last ({ DSM.init self with nodes_ := nodes, self_ := some me } : DSM)
    pre post v hp
  rw [← hv, ← hs2] at e
  have hcan := loadVars_keys_canonical vars
    ({ DSM.init self with nodes_ := nodes, self_ := some me } : DSM)
    (by intro k ms hf; simp [DSM.init, Map.find] at hf)
  rw [← hs2] at hcan
  refine ⟨by rw [hframe.2.2.2.1]; exact e.1, ?_⟩
  cases hms : Map.find s2.groupMembers_ (canonical_group_key v.group) with
  | none =>
    have := e.2
    rw [hms] at this
    simp at this
  | some ms =>
    have hperm : v.group.Perm ms := canonical_group_key_inj _ _ (hcan _ ms hms)
    obtain ⟨l, hmin, hl, -, -⟩ := hin _ ms (by rw [hframe.2.1]; exact hms)
    obtain ⟨m1, m2⟩ := minElement_spec ms l hmin
    exact ⟨l, hl, hperm.mem_iff.2 m1, fun x hx => m2 x (hperm.mem_iff.1 hx)⟩

/-- C27, counterexample: in a configuration with the variables 10 (group 1,2) and 20 (group
1,3) the two member lists are not rearrangements of each other and get the different keys
`1-2` and `1-3`, yet both groups have the same leader, node 1. -/
theorem shared_leader_counterexample :
    ¬ List.Perm [(1 : Int), 2] [1, 3] ∧
      (DSM.init 2).parse_config (some leaderConfig) = .ok (true, leaderNode 2) ∧
      Map.find (leaderNode 2).varGroupKey_ 10 = some "1-2".toList ∧
      Map.find (leaderNode 2).varGroupKey_ 20 = some "1-3".toList ∧
      Map.find (leaderNode 2).groupMembers_ "1-2".toList = some [1, 2] ∧
      Map.find (leaderNode 2).groupMembers_ "1-3".toList = some [1, 3] ∧
      Map.find (leaderNode 2).groupLeader_ "1-2".toList = some 1 ∧
      Map.find (leaderNode 2).groupLeader_ "1-3".toList = some 1 := by
  decide

/-- C27, amended: `canonical_group_key` maps two lists of ints (negative ones included) to the
same string exactly when the lists are rearrangements of each other, that is, have the same
multiset of members.  Consequently, after a successful `parse_config` on a freshly constructed
node, two variables (each taken at its last line in the file) whose member lists are not
rearrangements of each other are mapped to two different group keys and so to two different
counter entries: handling any message for the first key leaves the counter entry of the second
key, and every leader entry, as it was.  The leader recorded for each of the two keys is the
minimum of the variable's member list, so the two groups are led by the same node exactly when
these minima are equal. -/
theorem group_key_injective :
    (∀ g1 g2 : List Int, canonical_group_key g1 = canonical_group_key g2 ↔ g1.Perm g2) ∧
    (∀ (self : Int) (content : Str) (nodes : Map Int DSMNode) (vars : List DSMVariableCfg)
      (s : DSM) (pre1 post1 pre2 post2 : List DSMVariableCfg) (v1 v2 : DSMVariableCfg),
      (DSM.init self).parse_config (some content) = .ok (true, s) →
      readLines (getLines content) .NONE [] [] = .ok (nodes, vars) →
      vars = pre1 ++ v1 :: post1 → (∀ w ∈ post1, w.id ≠ v1.id) →
      vars = pre2 ++ v2 :: post2 → (∀ w ∈ post2, w.id ≠ v2.id) →
      ¬ v1.group.Perm v2.group →
      Map.find s.varGroupKey_ v1.id = some (canonical_group_key v1.group) ∧
        Map.find s.varGroupKey_ v2.id = some (canonical_group_key v2.group) ∧
        canonical_group_key v1.group ≠ canonical_group_key v2.group ∧
        (∀ (net : Net) (m : DSMMessage), m.groupKey = canonical_group_key v1.group →
          Map.find (s.handle_message net m).1.groupNextSeq_ (canonical_group_key v2.group) =
              Map.find s.groupNextSeq_ (canonical_group_key v2.group) ∧
            (s.handle_message net m).1.groupLeader_ = s.groupLeader_) ∧
        ∃ l1 l2, Map.find s.groupLeader_ (canonical_group_key v1.group) = some l1 ∧
          Map.find s.groupLeader_ (canonical_group_key v2.group) = some l2 ∧
          (l1 ∈ v1.group ∧ ∀ x ∈ v1.group, l1 ≤ x) ∧
          (l2 ∈ v2.group ∧ ∀ x ∈ v2.group, l2 ≤ x) ∧
          (l1 = l2 ↔ ∃ m, (m ∈ v1.group ∧ ∀ x ∈ v1.group, m ≤ x) ∧
            (m ∈ v2.group ∧ ∀ x ∈ v2.group, m ≤ x))) := by
  refine ⟨fun g1 g2 => ⟨canonical_group_key_inj g1 g2, canonical_group_key_perm g1 g2⟩, ?_⟩
  intro self content nodes vars s pre1 post1 pre2 post2 v1 v2 hparse hread h1 hp1 h2 hp2 hperm
  obtain ⟨e1, l1, hl1, m1, b1⟩ :=
    parse_config_leader_of self content nodes vars s pre1 post1 v1 hparse hread h1 hp1
  obtain ⟨e2, l2, hl2, m2, b2⟩ :=
    parse_config_leader_of self content nodes vars s pre2 post2 v2 hparse hread h2 hp2
  have hne : canonical_group_key v1.group ≠ canonical_group_key v2.group :=
    fun e => hperm (canonical_group_key_inj _ _ e)
  refine ⟨e1, e2, hne, ?_, l1, l2, hl1, hl2, ⟨m1, b1⟩, ⟨m2, b2⟩, ?_⟩
  · intro net m hm
    exact handle_message_counter_other net s m _ (by rw [hm]; exact fun e => hne e.symm)
  · constructor
    · intro h
      exact ⟨l1, ⟨m1, b1⟩, by rw [h]; exact ⟨m2, b2⟩⟩
    · rintro ⟨m, ⟨a1, a2⟩, ⟨c1, c2⟩⟩
      have := b1 m a1
      have := a2 l1 m1
      have := b2 m c1
      have := c2 l2 m2
      omega

/-- Witness for C27: the lists [-1, 1] and [1, -1]; variables 100 (group 1,2,3) and 300
(group 2,3) of the sample configuration on node 1, led by the nodes 1 and 2. -/
theorem group_key_injective_witness :
    ((DSM.init 1).parse_config (some sampleConfig) = .ok (true, sampleNode 1) ∧
      readLines (getLines sampleConfig) .NONE [] [] = .ok (sampleNodes, sampleVars) ∧
      canonical_group_key [-1, 1] = canonical_group_key [1, -1] ∧
      ¬ List.Perm [1, 2, 3] [2, 3] ∧
      Map.find (sampleNode 1).groupLeader_ (canonical_group_key [1, 2, 3]) = some 1 ∧
      Map.find (sampleNode 1).groupLeader_ (canonical_group_key [2, 3]) = some 2) ∧
    List.Perm [-1, 1] [1, -1] ∧
    Map.find (sampleNode 1).varGroupKey_ 100 = some (canonical_group_key [1, 2, 3]) ∧
    Map.find (sampleNode 1).varGroupKey_ 300 = some (canonical_group_key [2, 3]) ∧
    canonical_group_key [1, 2, 3] ≠ canonical_group_key [2, 3] ∧
    (∀ (net : Net) (m : DSMMessage), m.groupKey = canonical_group_key [1, 2, 3] →
      Map.find ((sampleNode 1).handle_message net m).1.groupNextSeq_
          (canonical_group_key [2, 3]) =
          Map.find (sampleNode 1).groupNextSeq_ (canonical_group_key [2, 3]) ∧
        ((sampleNode 1).handle_message net m).1.groupLeader_ = (sampleNode 1).groupLeader_) ∧
    ∃ l1 l2, Map.find (sampleNode 1).groupLeader_ (canonical_group_key [1, 2, 3]) = some l1 ∧
      Map.find (sampleNode 1).groupLeader_ (canonical_group_key [2, 3]) = some l2 ∧
      (l1 ∈ [(1 : Int), 2, 3] ∧ ∀ x ∈ [(1 : Int), 2, 3], l1 ≤ x) ∧
      (l2 ∈ [(2 : Int), 3] ∧ ∀ x ∈ [(2 : Int), 3], l2 ≤ x) ∧
      (l1 = l2 ↔ ∃ m, (m ∈ [(1 : Int), 2, 3] ∧ ∀ x ∈ [(1 : Int), 2, 3], m ≤ x) ∧
        (m ∈ [(2 : Int), 3] ∧ ∀ x ∈ [(2 : Int), 3], m ≤ x)) :=
  ⟨⟨by decide, by decide, by decide, by decide, by decide, by decide⟩,
    (group_key_injective.1 [-1, 1] [1, -1]).1 (by decide),
    group_key_injective.2 1 sampleConfig sampleNodes sampleVars (sampleNode 1)
      [] [⟨200, 7, [3, 1, 2]⟩, ⟨300, 0, [2, 3]⟩]
      [⟨100, 10, [1, 2, 3]⟩, ⟨200, 7, [3, 1, 2]⟩] []
      ⟨100, 10, [1, 2, 3]⟩ ⟨300, 0, [2, 3]⟩ (by decide) (by decide) (by decide) (by decide)
      (by decide) (by decide) (by decide)⟩

/-! ## Requests the node does not serve -/

/-- C24: when a node handles a REQUEST whose group key it has no leader entry for, or whose
recorded leader is another node, or whose group has no member entry, the state of the node
after the call is the state before it and no call of `send_message_to` (nor of the callback) is
made: the variable store, every sequence counter and the pending table are unchanged. -/
theorem request_not_served (net : Net) (s : DSM) (msg : DSMMessage)
    (htype : msg.type = "REQUEST".toList)
    (h : Map.find s.groupLeader_ msg.groupKey = none ∨
      (∃ leader, Map.find s.groupLeader_ msg.groupKey = some leader ∧ leader ≠ s.selfId_) ∨
      Map.find s.groupMembers_ msg.groupKey = none) :
    s.handle_message net msg = (s, []) ∧
      (s.handle_message net msg).2 = [] ∧
      (s.handle_message net msg).1.varValue_ = s.varValue_ ∧
      (s.handle_message net msg).1.groupNextSeq_ = s.groupNextSeq_ ∧
      (s.handle_message net msg).1.pending_ = s.pending_ := by
  have key : s.handle_message net msg = (s, []) := by
    unfold DSM.handle_message
    rw [if_pos htype]
    rcases h with h | ⟨leader, h, hne⟩ | h
    · have hl : s.is_leader_for_group msg.groupKey = false := by
        unfold DSM.is_leader_for_group
        rw [h]
      rw [hl]
      rfl
    · have hl : s.is_leader_for_group msg.groupKey = false := by
        unfold DSM.is_leader_for_group
        rw [h]
        exact decide_eq_false hne
      rw [hl]
      rfl
    · split
      · exact handle_request_unknown net s msg h
      · rfl
  rw [key]
  exact ⟨rfl, rfl, rfl, rfl, rfl⟩

/-- Witness for C24: node 2 of the sample configuration is handed a WRITE request for group
1-2-3, which node 1 leads. -/
theorem request_not_served_witness :
    (sampleWrite.type = "REQUEST".toList ∧
      ∃ leader, Map.find (sampleNode 2).groupLeader_ sampleWrite.groupKey = some leader ∧
        leader ≠ (sampleNode 2).selfId_) ∧
    (sampleNode 2).handle_message netUp sampleWrite = (sampleNode 2, []) ∧
      ((sampleNode 2).handle_message netUp sampleWrite).2 = [] ∧
      ((sampleNode 2).handle_message netUp sampleWrite).1.varValue_ = (sampleNode 2).varValue_ ∧
      ((sampleNode 2).handle_message netUp sampleWrite).1.groupNextSeq_ =
        (sampleNode 2).groupNextSeq_ ∧
      ((sampleNode 2).handle_message netUp sampleWrite).1.pending_ = (sampleNode 2).pending_ :=
  ⟨⟨by decide, 1, by decide, by decide⟩,
    request_not_served netUp (sampleNode 2) sampleWrite (by decide)
      (Or.inr (Or.inl ⟨1, by decide, by decide⟩))⟩

end Lab8

namespace Lab8

/-! ## The order of request ids -/

theorem write_id (net : Net) (s : DSM) (varId value : Int) :
    s.idGiven (.write net varId value) =
        (if s.subscribes varId then some s.nextReqId_ else none) ∧
      (s.write net varId value).2.1.nextReqId_ =
        s.nextReqId_ + (if s.subscribes varId then 1 else 0) := by
  unfold DSM.idGiven DSM.write DSM.subscribes
  cases hf : Map.find s.varGroupKey_ varId with
  | none => simp [hf]
  | some gk =>
    simp only [hf, Map.find_touch_getD]
    by_cases hm : s.selfId_ ∈ (Map.find s.groupMembers_ gk).getD []
    · simp only [hm, not_true_eq_false, if_false, decide_True, if_true]
      split_ifs <;> exact ⟨rfl, rfl⟩
    · simp [hm]

theorem compare_exchange_id (net : Net) (s : DSM) (varId expected desired : Int) :
    s.idGiven (.compare_exchange net varId expected desired) =
        (if s.subscribes varId then some s.nextReqId_ else none) ∧
      (s.compare_exchange net varId expected desired).2.1.nextReqId_ =
        s.nextReqId_ + (if s.subscribes varId then 1 else 0) := by
  unfold DSM.idGiven DSM.compare_exchange DSM.subscribes
  cases hf : Map.find s.varGroupKey_ varId with
  | none => simp [hf]
  | some gk =>
    simp only [hf, Map.find_touch_getD]
    by_cases hm : s.selfId_ ∈ (Map.find s.groupMembers_ gk).getD []
    · simp only [hm, not_true_eq_false, if_false, decide_True, if_true]
      split_ifs <;> exact ⟨rfl, rfl⟩
    · simp [hm]

theorem step_id (s : DSM) (e : Event) :
    s.idGiven e = (if s.passes e then some s.nextReqId_ else none) ∧
      (s.step e).nextReqId_ = s.nextReqId_ + (if s.passes e then 1 else 0) := by
  cases e with
  | write net varId value => exact write_id net s varId value
  | compare_exchange net varId expected desired =>
    exact compare_exchange_id net s varId expected desired
  | resume reqId =>
    refine ⟨rfl, ?_⟩
    simp only [DSM.step, DSM.passes, Bool.false_eq_true, if_false, add_zero]
    cases hr : s.resume reqId with
    | none => rfl
    | some r => exact (resume_frame s reqId r hr).2.2.1
  | on_change cb => exact ⟨rfl, by simp [DSM.step, DSM.passes, DSM.on_change]⟩
  | get_local_value u => exact ⟨rfl, by simp [DSM.step, DSM.passes]⟩
  | message net m =>
    refine ⟨rfl, ?_⟩
    simp only [DSM.step, DSM.passes, Bool.false_eq_true, if_false, add_zero]
    exact (handle_message_pending_keys net s m).2

theorem idsGiven_spec (events : List Event) (s : DSM) :
    s.idsGiven events = idsFrom s.nextReqId_ (s.passing events) ∧
      (s.exec events).nextReqId_ = s.nextReqId_ + (s.passing events : Int) := by
  induction events generalizing s with
  | nil => exact ⟨rfl, by simp [DSM.exec, DSM.passing]⟩
  | cons e r ih =>
    obtain ⟨h1, h2⟩ := step_id s e
    obtain ⟨i1, i2⟩ := ih (s.step e)
    simp only [DSM.idsGiven, DSM.passing, DSM.exec]
    rw [h1, i1, i2, h2]
    by_cases hp : s.passes e = true
    · simp only [hp, if_true, Option.toList, List.singleton_append]
      refine ⟨?_, by push_cast; ring⟩
      rw [Nat.add_comm 1]
      rfl
    · simp only [hp, if_false, Option.toList, List.nil_append, Bool.false_eq_true, add_zero]
      refine ⟨by rw [Nat.zero_add], by push_cast; ring⟩

theorem idsFrom_spec (k : Nat) (first : Int) :
    (idsFrom first k).length = k ∧
      (∀ i : Nat, i < k → (idsFrom first k)[i]? = some (first + (i : Int))) ∧
      (idsFrom first k).Sorted (fun a b => a < b) ∧
      ∀ x ∈ idsFrom first k, first ≤ x := by
  induction k generalizing first with
  | zero => simp [idsFrom]
  | succ k ih =>
    obtain ⟨h1, h2, h3, h4⟩ := ih (first + 1)
    refine ⟨by simp [idsFrom, h1], ?_, ?_, ?_⟩
    · intro i hi
      cases i with
      | zero => simp [idsFrom]
      | succ j =>
        simp only [idsFrom, List.getElem?_cons_succ]
        rw [h2 j (by omega)]
        congr 1
        push_cast
        ring
    · simp only [idsFrom, List.sorted_cons]
      refine ⟨?_, h3⟩
      intro b hb
      have := h4 b hb
      omega
    · intro x hx
      simp only [idsFrom, List.mem_cons] at hx
      rcases hx with hx | hx
      · omega
      · have := h4 x hx
        omega

/-- C22: from the state after a successful `parse_config` on a freshly constructed node, along
every history of local calls and handled messages the calls of `write` / `compare_exchange`
that pass the subscriber check are given the request ids 1, 2, 3, ... in the order of the
calls (the k-th such call gets id k, the first gets 1), so the ids are strictly increasing and
no two calls get the same id; the next id is then one more than the number of such calls; and
in the state reached every key of the pending table is at least 1 and smaller than the next
id. -/
theorem request_ids_increasing (self : Int) (file : Option Str) (s0 : DSM)
    (hparse : (DSM.init self).parse_config file = .ok (true, s0)) (events : List Event) :
    (s0.idsGiven events).length = s0.passing events ∧
      (∀ k : Nat, k < s0.passing events → (s0.idsGiven events)[k]? = some ((k : Int) + 1)) ∧
      (s0.idsGiven events).Sorted (fun a b => a < b) ∧
      (s0.idsGiven events).Nodup ∧
      (s0.exec events).nextReqId_ = (s0.passing events : Int) + 1 ∧
      (∀ id ∈ (s0.exec events).pending_.map Prod.fst,
        1 ≤ id ∧ id < (s0.exec events).nextReqId_) := by
  obtain ⟨hn, hp⟩ := parse_config_fresh self file s0 hparse
  obtain ⟨h1, h2⟩ := idsGiven_spec events s0
  obtain ⟨a, b, c, -⟩ := idsFrom_spec (s0.passing events) s0.nextReqId_
  rw [← h1] at a b c
  rw [hn] at b
  refine ⟨a, ?_, c, ?_, ?_, ?_⟩
  · intro k hk
    rw [b k hk]
    congr 1
    ring
  · exact c.imp (fun h => ne_of_lt h)
  · rw [h2, hn]
    ring
  · have hfresh : s0.keysFresh := by
      intro id hid
      rw [hp] at hid
      simp at hid
    exact (exec_keysFresh events s0 (by rw [hn]) hfresh).2

/-- Witness for C22: node 3 of the sample configuration calls `write` on variable 100,
`compare_exchange` on variable 999 (not configured), `write` on variable 300. -/
theorem request_ids_increasing_witness :
    (DSM.init 3).parse_config (some sampleConfig) = .ok (true, sampleNode 3) ∧
    (sampleNode 3).idsGiven [.write netUp 100 1, .compare_exchange netUp 999 0 1,
        .write netUp 300 2] = [1, 2] ∧
    ((sampleNode 3).idsGiven [.write netUp 100 1, .compare_exchange netUp 999 0 1,
        .write netUp 300 2]).length =
      (sampleNode 3).passing [.write netUp 100 1, .compare_exchange netUp 999 0 1,
        .write netUp 300 2] :=
  ⟨by decide, by decide,
    (request_ids_increasing 3 (some sampleConfig) (sampleNode 3) (by decide)
      [.write netUp 100 1, .compare_exchange netUp 999 0 1, .write netUp 300 2]).1⟩

/-! ## Request ids of different nodes -/

/-- C25 on the code: on the sample configuration node 2 calls `compare_exchange(100, 99, 1)`
and node 3 calls `write(100, 42)`; both calls are the first of their node, get request id 1 and
block.  Node 1 handles the request of node 3 and sends a COMMIT with `req` 1 to every member.
When node 2 handles that COMMIT, `apply_commit` finds the pending request 1 of node 2 and
marks it done with success: the `compare_exchange` of node 2 returns true while node 2 reads
42 for the variable.  When node 1 then handles the request of node 2 it rejects it with a RESP
with success 0. -/
theorem commit_resolves_foreign_request :
    crossScenario.calls = [.blocked 1, .blocked 1] ∧
      crossScenario.commitReqs = [1] ∧
      crossScenario.result2 = some true ∧
      crossScenario.value2 = 42 ∧
      crossScenario.answer2 = [Effect.send 2 (rejectResp sampleCasStale)] := by
  decide

/-! ## Requests handled before the leader's own COMMIT -/

/-- C26 on the code: node 1 of the sample configuration, leader of group 1-2-3, handles two
CMPXCHG requests for variable 100 with the same expected value 10 and the desired values 5 and
6 before it handles the COMMIT it has sent to itself for the first one.  After the first
request the COMMIT with value 5 and sequence number 1 is sequenced and the local copy of the
leader still reads 10; the second request is compared with 10 and committed with sequence
number 2.  The sends are the two COMMITs, each to the three members, and once the leader has
handled its own two COMMITs it reads 6. -/
theorem stale_compare_at_leader :
    (sampleNode 1).is_leader_for_group sampleKey = true ∧
      (sampleNode 1).get_local_value 100 = 10 ∧
      (inbox netUp 1 ((sampleNode 1).handle_message netUp sampleCas).2).map Prod.snd =
        [cmpxchgCommit sampleCas 1] ∧
      ((sampleNode 1).handle_message netUp sampleCas).1.get_local_value 100 = 10 ∧
      ((sampleNode 1).run [(netUp, sampleCas), (netUp, sampleCas2)]).2 =
        [Effect.send 3 (cmpxchgCommit sampleCas 1), Effect.send 1 (cmpxchgCommit sampleCas 1),
         Effect.send 2 (cmpxchgCommit sampleCas 1), Effect.send 3 (cmpxchgCommit sampleCas2 2),
         Effect.send 1 (cmpxchgCommit sampleCas2 2),
         Effect.send 2 (cmpxchgCommit sampleCas2 2)] ∧
      (((sampleNode 1).run [(netUp, sampleCas), (netUp, sampleCas2)]).1.run
        [(netUp, cmpxchgCommit sampleCas 1), (netUp, cmpxchgCommit sampleCas2 2)]).1.get_local_value
          100 = 6 := by
  decide

end Lab8

namespace Lab5

/-! ## Coefficient vectors and their values -/

theorem evalAt_append {R S : Type} [CommRing R] [CommRing S] (f : R →+* S) (t : S)
    (a b : List R) : evalAt f t (a ++ b) = evalAt f t a + t ^ a.length * evalAt f t b := by
  induction a with
  | nil => simp [evalAt]
  | cons c a ih =>
    show evalAt f t (c :: (a ++ b)) = _
    simp only [evalAt, List.length_cons]
    rw [ih]
    ring

theorem evalAt_zeros {R S : Type} [CommRing R] [CommRing S] (f : R →+* S) (t : S) (n : Nat) :
    evalAt f t (List.replicate n (0 : R)) = 0 := by
  induction n with
  | zero => rfl
  | succ n ih => simp [List.replicate_succ, evalAt, ih]

theorem evalAt_cons_inj {R : Type} [CommRing R] (a b : R) (p q : Polynomial R)
    (h : Polynomial.C a + Polynomial.X * p = Polynomial.C b + Polynomial.X * q) :
    a = b ∧ p = q := by
  have h0 := congrArg (fun r => Polynomial.coeff r 0) h
  simp only [Polynomial.coeff_add, Polynomial.coeff_C_zero, Polynomial.mul_coeff_zero,
    Polynomial.coeff_X_zero, zero_mul, add_zero] at h0
  refine ⟨h0, ?_⟩
  ext n
  have hn := congrArg (fun r => Polynomial.coeff r (n + 1)) h
  simpa [Polynomial.coeff_X_mul, Polynomial.coeff_C_succ] using hn

theorem evalAt_inj {R : Type} [CommRing R] (a b : List R) (hl : a.length = b.length)
    (h : evalAt Polynomial.C Polynomial.X a = evalAt Polynomial.C Polynomial.X b) : a = b := by
  induction a generalizing b with
  | nil =>
    cases b with
    | nil => rfl
    | cons y b => simp at hl
  | cons c a ih =>
    cases b with
    | nil => simp at hl
    | cons y b =>
      obtain ⟨h1, h2⟩ := evalAt_cons_inj c y _ _ h
      rw [h1, ih b (by simpa using hl) h2]

theorem addAt_spec {R S : Type} [CommRing R] [CommRing S] (f : R →+* S) (t : S)
    (v : List R) (k : Nat) (c : R) (h : k < v.length) :
    ∃ w, addAt v k c = some w ∧ w.length = v.length ∧
      evalAt f t w = evalAt f t v + f c * t ^ k := by
  induction v generalizing k with
  | nil => simp at h
  | cons a v ih =>
    cases k with
    | zero =>
      refine ⟨(a + c) :: v, rfl, rfl, ?_⟩
      simp only [evalAt, map_add, pow_zero]
      ring
    | succ k =>
      obtain ⟨w, hw, hl, he⟩ := ih k (by simpa using h)
      refine ⟨a :: w, by simp [addAt, hw], by simp [hl], ?_⟩
      simp only [evalAt, he]
      ring

theorem addLoop_spec {R S : Type} [CommRing R] [CommRing S] (f : R →+* S) (t : S)
    (z : List R) (k : Nat) (res : List R) (h : k + z.length ≤ res.length) :
    ∃ r, addLoop z k res = some r ∧ r.length = res.length ∧
      evalAt f t r = evalAt f t res + t ^ k * evalAt f t z := by
  induction z generalizing k res with
  | nil => exact ⟨res, rfl, rfl, by simp [evalAt]⟩
  | cons c z ih =>
    simp only [List.length_cons] at h
    obtain ⟨w, hw, hl, he⟩ := addAt_spec f t res k c (by omega)
    obtain ⟨r, hr, hrl, hre⟩ := ih (k + 1) w (by omega)
    refine ⟨r, by simp [addLoop, hw, hr], by omega, ?_⟩
    rw [hre, he]
    simp only [evalAt]
    ring

theorem mulInner_spec {R S : Type} [CommRing R] [CommRing S] (f : R →+* S) (t : S)
    (ai : R) (p2 : List R) (k : Nat) (res : List R) (h : k + p2.length ≤ res.length) :
    ∃ r, mulInner ai p2 k res = some r ∧ r.length = res.length ∧
      evalAt f t r = evalAt f t res + t ^ k * (f ai * evalAt f t p2) := by
  induction p2 generalizing k res with
  | nil => exact ⟨res, rfl, rfl, by simp [evalAt]⟩
  | cons b q ih =>
    simp only [List.length_cons] at h
    obtain ⟨w, hw, hl, he⟩ := addAt_spec f t res k (ai * b) (by omega)
    obtain ⟨r, hr, hrl, hre⟩ := ih (k + 1) w (by omega)
    refine ⟨r, by simp [mulInner, hw, hr], by omega, ?_⟩
    rw [hre, he]
    simp only [evalAt, map_mul]
    ring

theorem mulOuter_spec {R S : Type} [CommRing R] [CommRing S] (f : R →+* S) (t : S)
    (p1 : List R) (i : Nat) (p2 res : List R)
    (h : i + p1.length + p2.length ≤ res.length + 1) :
    ∃ r, mulOuter p1 i p2 res = some r ∧ r.length = res.length ∧
      evalAt f t r = evalAt f t res + t ^ i * (evalAt f t p1 * evalAt f t p2) := by
  induction p1 generalizing i res with
  | nil => exact ⟨res, rfl, rfl, by simp [evalAt]⟩
  | cons a p ih =>
    simp only [List.length_cons] at h
    obtain ⟨w, hw, hl, he⟩ := mulInner_spec f t a p2 i res (by omega)
    obtain ⟨r, hr, hrl, hre⟩ := ih (i + 1) w (by omega)
    refine ⟨r, by simp [mulOuter, hw, hr], by omega, ?_⟩
    rw [hre, he]
    simp only [evalAt]
    ring

theorem zeroPoly_length {R : Type} [CommRing R] (deg : Int) :
    (zeroPoly deg : List R).length = (deg + 1).toNat := by
  simp [zeroPoly]

theorem multiplyRegularSequential_spec {R S : Type} [CommRing R] [CommRing S] (f : R →+* S)
    (t : S) (p1 p2 : List R) (h1 : p1 ≠ []) (h2 : p2 ≠ []) :
    ∃ r, multiplyRegularSequential p1 p2 = some r ∧
      r.length = p1.length + p2.length - 1 ∧
      evalAt f t r = evalAt f t p1 * evalAt f t p2 := by
  have l1 : 0 < p1.length := List.length_pos.2 h1
  have l2 : 0 < p2.length := List.length_pos.2 h2
  have hz : (zeroPoly (degree p1 + degree p2) : List R).length = p1.length + p2.length - 1 := by
    rw [zeroPoly_length]
    unfold degree
    omega
  obtain ⟨r, hr, hl, he⟩ :=
    mulOuter_spec f t p1 0 p2 (zeroPoly (degree p1 + degree p2)) (by omega)
  refine ⟨r, hr, by omega, ?_⟩
  rw [he]
  simp [zeroPoly, evalAt_zeros]

theorem addPolynomials_spec {R S : Type} [CommRing R] [CommRing S] (f : R →+* S) (t : S)
    (p q : List R) :
    (addPolynomials p q).length = max p.length q.length ∧
      evalAt f t (addPolynomials p q) = evalAt f t p + evalAt f t q := by
  induction p generalizing q with
  | nil => simp [addPolynomials, evalAt]
  | cons a p ih =>
    cases q with
    | nil => simp [addPolynomials, evalAt]
    | cons b q =>
      obtain ⟨h1, h2⟩ := ih q
      refine ⟨by simp only [addPolynomials, List.length_cons, h1]; omega, ?_⟩
      simp only [addPolynomials, evalAt, h2, map_add]
      ring

theorem evalAt_neg {R S : Type} [CommRing R] [CommRing S] (f : R →+* S) (t : S)
    (q : List R) : evalAt f t (q.map (fun b => 0 - b)) = - evalAt f t q := by
  induction q with
  | nil => simp [evalAt]
  | cons b q ih =>
    simp only [List.map_cons, evalAt]
    rw [ih]
    simp only [zero_sub, map_neg]
    ring

theorem subtractPolynomials_spec {R S : Type} [CommRing R] [CommRing S] (f : R →+* S)
    (t : S) (p q : List R) :
    (subtractPolynomials p q).length = max p.length q.length ∧
      evalAt f t (subtractPolynomials p q) = evalAt f t p - evalAt f t q := by
  induction p generalizing q with
  | nil =>
    simp only [subtractPolynomials, evalAt, evalAt_neg, List.length_map, List.length_nil]
    exact ⟨by omega, by ring⟩
  | cons a p ih =>
    cases q with
    | nil => simp [subtractPolynomials, evalAt]
    | cons b q =>
      obtain ⟨h1, h2⟩ := ih q
      refine ⟨by simp only [subtractPolynomials, List.length_cons, h1]; omega, ?_⟩
      simp only [subtractPolynomials, evalAt, h2, map_sub]
      ring

theorem split_spec {R S : Type} [CommRing R] [CommRing S] (f : R →+* S) (t : S)
    (mid : Nat) (p : List R) :
    (lowPart mid p).length = mid ∧
      (highPart mid p).length = (if p.length ≤ mid then 1 else p.length - mid) ∧
      evalAt f t (lowPart mid p) + t ^ mid * evalAt f t (highPart mid p) = evalAt f t p := by
  refine ⟨by simp [lowPart]; omega, ?_, ?_⟩
  · unfold highPart degree
    by_cases h : p.length ≤ mid
    · rw [if_pos (by omega), if_pos h]
      rfl
    · rw [if_neg (by omega), if_neg h]
      simp
  · unfold highPart degree lowPart
    rw [evalAt_append, evalAt_zeros, mul_zero, add_zero]
    by_cases h : p.length ≤ mid
    · rw [if_pos (by omega), List.take_of_length_le h]
      simp [evalAt]
    · rw [if_neg (by omega)]
      have := evalAt_append f t (p.take mid) (p.drop mid)
      rw [List.take_append_drop, List.length_take, Nat.min_eq_left (by omega)] at this
      exact this.symm

theorem combine_spec {R S : Type} [CommRing R] [CommRing S] (f : R →+* S) (t : S)
    (deg : Int) (mid : Nat) (z0 z1 z2 : List R)
    (h0 : (z0.length : Int) ≤ deg + 1) (h1 : ((mid + z1.length : Nat) : Int) ≤ deg + 1)
    (h2 : ((2 * mid + z2.length : Nat) : Int) ≤ deg + 1) :
    ∃ r, combine deg mid z0 z1 z2 = some r ∧ r.length = (deg + 1).toNat ∧
      evalAt f t r = evalAt f t z0 + t ^ mid * evalAt f t z1 + t ^ (2 * mid) * evalAt f t z2 := by
  have hz := zeroPoly_length (R := R) deg
  obtain ⟨r0, e0, l0, v0⟩ := addLoop_spec f t z0 0 (zeroPoly deg) (by omega)
  obtain ⟨r1, e1, l1, v1⟩ := addLoop_spec f t z1 mid r0 (by omega)
  obtain ⟨r2, e2, l2, v2⟩ := addLoop_spec f t z2 (2 * mid) r1 (by omega)
  refine ⟨r2, by simp [combine, e0, e1, e2], by omega, ?_⟩
  rw [v2, v1, v0]
  simp [zeroPoly, evalAt_zeros]

/-! ## Karatsuba on polynomials of the same degree -/

theorem karatsubaFuel_spec {R S : Type} [CommRing R] [CommRing S] (f : R →+* S) (t : S)
    (fuel : Nat) (p1 p2 : List R)
    (hl : p1.length = p2.length) (hne : 0 < p1.length) (hf : p1.length ≤ fuel) :
    ∃ r, karatsubaFuel fuel p1 p2 = .done r ∧ r.length = p1.length + p2.length - 1 ∧
      evalAt f t r = evalAt f t p1 * evalAt f t p2 := by
  induction fuel generalizing p1 p2 with
  | zero => omega
  | succ fuel ih =>
    unfold karatsubaFuel karatsubaBody
    by_cases hb : degree p1 < 10 ∨ degree p2 < 10
    · rw [if_pos hb]
      obtain ⟨r, hr, hlen, he⟩ := multiplyRegularSequential_spec f t p1 p2
        (List.ne_nil_of_length_pos hne) (List.ne_nil_of_length_pos (by omega))
      rw [hr]
      exact ⟨r, rfl, hlen, he⟩
    · rw [if_neg hb]
      have hlong : 11 ≤ p1.length := by
        unfold degree at hb
        omega
      have hmid : ((max (degree p1) (degree p2) + 1) / 2).toNat = p1.length / 2 := by
        unfold degree
        omega
      dsimp only
      rw [hmid]
      generalize hm : p1.length / 2 = mid
      obtain ⟨a1, a2, a3⟩ := split_spec f t mid p1
      obtain ⟨b1, b2, b3⟩ := split_spec f t mid p2
      rw [if_neg (by omega)] at a2 b2
      have hmidpos : 0 < mid := by omega
      have hmidle : mid ≤ fuel := by omega
      have hhigh : p1.length - mid ≤ fuel := by omega
      have hhighpos : 0 < p1.length - mid := by omega
      have hlh : mid ≤ p1.length - mid := by omega
      obtain ⟨z0, e0, l0, v0⟩ := ih (lowPart mid p1) (lowPart mid p2)
        (a1.trans b1.symm) (by rw [a1]; exact hmidpos) (by rw [a1]; exact hmidle)
      rw [a1, b1] at l0
      obtain ⟨z2, e2, l2, v2⟩ := ih (highPart mid p1) (highPart mid p2)
        (a2.trans (by rw [b2, hl])) (by rw [a2]; exact hhighpos) (by rw [a2]; exact hhigh)
      rw [a2, b2, ← hl] at l2
      obtain ⟨s1l, s1v⟩ := addPolynomials_spec f t (lowPart mid p1) (highPart mid p1)
      obtain ⟨s2l, s2v⟩ := addPolynomials_spec f t (lowPart mid p2) (highPart mid p2)
      rw [a1, a2, Nat.max_eq_right hlh] at s1l
      rw [b1, b2, ← hl, Nat.max_eq_right hlh] at s2l
      obtain ⟨z1, e1, l1, v1⟩ := ih _ _ (s1l.trans s2l.symm) (by rw [s1l]; exact hhighpos)
        (by rw [s1l]; exact hhigh)
      rw [s1l, s2l] at l1
      obtain ⟨d1l, d1v⟩ := subtractPolynomials_spec f t z1 z2
      obtain ⟨d2l, d2v⟩ := subtractPolynomials_spec f t (subtractPolynomials z1 z2) z0
      rw [l1, l2, Nat.max_self] at d1l
      rw [d1l, l0] at d2l
      have hdeg : degree p1 + degree p2 + 1 = ((2 * p1.length - 1 : Nat) : Int) := by
        unfold degree
        omega
      have c0 : (z0.length : Int) ≤ degree p1 + degree p2 + 1 := by
        rw [hdeg, l0]
        omega
      have c1 : ((mid + (subtractPolynomials (subtractPolynomials z1 z2) z0).length : Nat) :
          Int) ≤ degree p1 + degree p2 + 1 := by
        rw [hdeg, d2l]
        omega
      have c2 : ((2 * mid + z2.length : Nat) : Int) ≤ degree p1 + degree p2 + 1 := by
        rw [hdeg, l2]
        omega
      obtain ⟨r, er, lr, vr⟩ := combine_spec f t (degree p1 + degree p2) mid z0
        (subtractPolynomials (subtractPolynomials z1 z2) z0) z2 c0 c1 c2
      rw [hdeg] at lr
      simp only [e0, e2, e1, er]
      refine ⟨r, rfl, by omega, ?_⟩
      rw [vr, d2v, d1v, v0, v1, v2, s1v, s2v, ← a3, ← b3]
      ring

theorem karatsubaBody_mono {R : Type} [CommRing R] (f g : List R → List R → Run (List R))
    (hfg : ∀ a b, f a b ≠ .outOfFuel → g a b = f a b) (p1 p2 : List R)
    (h : karatsubaBody f p1 p2 ≠ .outOfFuel) : karatsubaBody g p1 p2 = karatsubaBody f p1 p2 := by
  unfold karatsubaBody at h ⊢
  by_cases hb : degree p1 < 10 ∨ degree p2 < 10
  · rw [if_pos hb]
    rw [if_pos hb]
  · rw [if_neg hb] at h ⊢
    rw [if_neg hb]
    dsimp only at h ⊢
    generalize ((max (degree p1) (degree p2) + 1) / 2).toNat = mid at h ⊢
    cases hA : f (lowPart mid p1) (lowPart mid p2) with
    | outOfFuel => simp [hA] at h
    | undefined => rw [hfg _ _ (by rw [hA]; simp), hA]
    | done z0 =>
      rw [hfg _ _ (by rw [hA]; simp), hA]
      rw [hA] at h
      dsimp only at h ⊢
      cases hB : f (highPart mid p1) (highPart mid p2) with
      | outOfFuel => simp [hB] at h
      | undefined => rw [hfg _ _ (by rw [hB]; simp), hB]
      | done z2 =>
        rw [hfg _ _ (by rw [hB]; simp), hB]
        rw [hB] at h
        dsimp only at h ⊢
        cases hC : f (addPolynomials (lowPart mid p1) (highPart mid p1))
            (addPolynomials (lowPart mid p2) (highPart mid p2)) with
        | outOfFuel => simp [hC] at h
        | undefined => rw [hfg _ _ (by rw [hC]; simp), hC]
        | done z1 => rw [hfg _ _ (by rw [hC]; simp), hC]

theorem karatsubaFuel_succ {R : Type} [CommRing R] (fuel : Nat) (p1 p2 : List R)
    (h : karatsubaFuel fuel p1 p2 ≠ .outOfFuel) :
    karatsubaFuel (fuel + 1) p1 p2 = karatsubaFuel fuel p1 p2 := by
  induction fuel generalizing p1 p2 with
  | zero => exact absurd rfl h
  | succ fuel ih =>
    rw [karatsubaFuel, karatsubaFuel]
    exact karatsubaBody_mono _ _ (fun a b hab => ih a b hab) p1 p2 h

theorem karatsubaFuel_le {R : Type} [CommRing R] (f g : Nat) (hfg : f ≤ g) (p1 p2 : List R)
    (h : karatsubaFuel f p1 p2 ≠ .outOfFuel) :
    karatsubaFuel g p1 p2 = karatsubaFuel f p1 p2 := by
  induction g with
  | zero =>
    have : f = 0 := by omega
    rw [this]
  | succ g ih =>
    by_cases hg : f ≤ g
    · rw [karatsubaFuel_succ g p1 p2 (by rw [ih hg]; exact h), ih hg]
    · have : f = g + 1 := by omega
      rw [this]

/-- C28: for two polynomials of the same degree, any degree from 0 on, with coefficients in a
commutative ring (the integers, or the integers modulo 2^32), `karatsubaSequential` returns:
the recursion is less deep than the vectors are long and no write leaves a vector; what it
returns is the coefficient vector that `multiplyRegularSequential` returns, of length
`deg p1 + deg p2 + 1`; and every larger budget for the recursion gives the same vector. -/
theorem karatsuba_equal_degrees {R : Type} [CommRing R] (p1 p2 : List R)
    (hdeg : degree p1 = degree p2) (h0 : 0 ≤ degree p1) :
    ∃ r, karatsubaSequential p1 p2 = .done r ∧
      multiplyRegularSequential p1 p2 = some r ∧
      (r.length : Int) = degree p1 + degree p2 + 1 ∧
      ∀ fuel, p1.length ≤ fuel → karatsubaFuel fuel p1 p2 = .done r := by
  have hl : p1.length = p2.length := by
    unfold degree at hdeg
    omega
  have hne : 0 < p1.length := by
    unfold degree at h0
    omega
  obtain ⟨r, hr, hlen, he⟩ := karatsubaFuel_spec Polynomial.C Polynomial.X
    (max p1.length p2.length + 1) p1 p2 hl hne (by omega)
  obtain ⟨m, hm, hmlen, hme⟩ := multiplyRegularSequential_spec Polynomial.C Polynomial.X p1 p2
    (List.ne_nil_of_length_pos hne) (List.ne_nil_of_length_pos (by omega))
  have hrm : r = m := evalAt_inj r m (by omega) (by rw [he, hme])
  refine ⟨r, hr, by rw [hm, hrm], by unfold degree; omega, ?_⟩
  intro fuel hfuel
  obtain ⟨r2, hr2, hlen2, he2⟩ := karatsubaFuel_spec Polynomial.C Polynomial.X fuel p1 p2 hl hne
    hfuel
  rw [hr2, evalAt_inj r2 r (by omega) (by rw [he, he2])]

/-- Witness for C28: the polynomial `1 + x + ... + x^10` times itself. -/
theorem karatsuba_equal_degrees_witness :
    (degree (ones 10) = degree (ones 10) ∧ 0 ≤ degree (ones 10)) ∧
    karatsubaSequential (ones 10) (ones 10) =
      .done [1, 2, 3, 4, 5, 6, 7, 8, 9, 10, 11, 10, 9, 8, 7, 6, 5, 4, 3, 2, 1] ∧
    ∃ r, karatsubaSequential (ones 10) (ones 10) = .done r ∧
      multiplyRegularSequential (ones 10) (ones 10) = some r ∧
      (r.length : Int) = degree (ones 10) + degree (ones 10) + 1 ∧
      ∀ fuel, (ones 10).length ≤ fuel → karatsubaFuel fuel (ones 10) (ones 10) = .done r :=
  ⟨⟨by decide, by decide⟩, by decide,
    karatsuba_equal_degrees (ones 10) (ones 10) (by decide) (by decide)⟩

/-! ## Karatsuba on polynomials of different degrees -/

/-- C29 on the code: `karatsubaSequential` on `1 + x + ... + x^10` and `1 + x + ... + x^30`.
The result vector has 41 entries; `mid` is 15, the low halves are padded to 15 coefficients,
so the product of the two sums has 30 coefficients and the loop that adds it at offset 15
writes the indices 15 to 44.  The call ends in a write outside the result vector, whatever
the budget for the recursion is, while `multiplyRegularSequential` returns 41 coefficients. -/
theorem karatsuba_unequal_degrees :
    degree (ones 10) = 10 ∧ degree (ones 30) = 30 ∧
      (zeroPoly (degree (ones 10) + degree (ones 30)) : List Int).length = 41 ∧
      (multiplyRegularSequential (ones 10) (ones 30)).map List.length = some 41 ∧
      (match karatsubaSequential
          (addPolynomials (lowPart 15 (ones 10)) (highPart 15 (ones 10)))
          (addPolynomials (lowPart 15 (ones 30)) (highPart 15 (ones 30))) with
        | .done z1 => z1.length
        | _ => 0) = 30 ∧
      karatsubaSequential (ones 10) (ones 30) = .undefined ∧
      ∀ fuel r, karatsubaFuel fuel (ones 10) (ones 30) ≠ .done r := by
  have key : karatsubaFuel 32 (ones 10) (ones 30) = .undefined := by decide
  refine ⟨by decide, by decide, by decide, by decide, by decide, key, ?_⟩
  intro fuel r h
  by_cases hf : fuel ≤ 32
  · have := karatsubaFuel_le fuel 32 hf (ones 10) (ones 30) (by rw [h]; simp)
    rw [key, h] at this
    exact absurd this (by simp)
  · have := karatsubaFuel_le 32 fuel (by omega) (ones 10) (ones 30) (by rw [key]; simp)
    rw [key, h] at this
    exact absurd this (by simp)

end Lab5

namespace Lab6

/-! ## Paths and cycles -/

theorem getNeighbors_valid (g : Graph) (v : Int) (h0 : 0 ≤ v)
    (h1 : v < (g.getVertexCount : Int)) :
    ∃ neighbors, g.getNeighbors v = some neighbors ∧ neighbors ∈ g.adj := by
  unfold Graph.getVertexCount at h1
  have hlt : v.toNat < g.adj.length := by omega
  refine ⟨g.adj[v.toNat], ?_, List.getElem_mem _⟩
  unfold Graph.getNeighbors
  rw [if_neg (by omega), List.getElem?_eq_getElem hlt]

theorem all_vertices_of_nodup (n : Nat) (path : List Int) (hnd : path.Nodup)
    (hv : ∀ v ∈ path, 0 ≤ v ∧ v < (n : Int)) (hlen : path.length = n) (v : Int)
    (h0 : 0 ≤ v) (h1 : v < (n : Int)) : v ∈ path := by
  have hinj : (path.map Int.toNat).Nodup := by
    refine (List.nodup_map_iff_inj_on hnd).2 ?_
    intro a ha b hb hab
    have := hv a ha
    have := hv b hb
    omega
  have hsub : (path.map Int.toNat).toFinset ⊆ Finset.range n := by
    intro x hx
    simp only [List.mem_toFinset, List.mem_map] at hx
    obtain ⟨a, ha, rfl⟩ := hx
    have := hv a ha
    simp only [Finset.mem_range]
    omega
  have hcard : (path.map Int.toNat).toFinset.card = n := by
    rw [List.toFinset_card_of_nodup hinj, List.length_map, hlen]
  have heq := Finset.eq_of_subset_of_card_le hsub (by rw [hcard, Finset.card_range])
  have hm : v.toNat ∈ (path.map Int.toNat).toFinset := by
    rw [heq, Finset.mem_range]
    omega
  simp only [List.mem_toFinset, List.mem_map] at hm
  obtain ⟨a, ha, hav⟩ := hm
  have := hv a ha
  have hva : a = v := by omega
  rw [← hva]
  exact ha

theorem isPath_last (g : Graph) (startVertex : Int) (path : List Int)
    (hp : g.isPath startVertex path) :
    ∃ last neighbors, path.getLast? = some last ∧ last ∈ path ∧
      g.getNeighbors last = some neighbors ∧ neighbors ∈ g.adj := by
  have hne : path ≠ [] := by
    intro h
    rw [h] at hp
    simp [Graph.isPath] at hp
  have hl : path.getLast? = some (path.getLast hne) := List.getLast?_eq_getLast _ hne
  have hm : path.getLast hne ∈ path := List.getLast_mem hne
  obtain ⟨h0, h1⟩ := hp.2.2.1 _ hm
  obtain ⟨nb, hnb, hadj⟩ := getNeighbors_valid g _ h0 h1
  exact ⟨_, nb, hl, hm, hnb, hadj⟩

theorem isCycle_of_path (g : Graph) (startVertex : Int) (path : List Int) (last : Int)
    (hp : g.isPath startVertex path) (hlen : path.length = g.getVertexCount)
    (hlast : path.getLast? = some last) (hedge : g.hasEdge last startVertex = true) :
    g.isCycle startVertex (path ++ [startVertex]) := by
  obtain ⟨hhead, hnd, hv, hchain⟩ := hp
  refine ⟨by simp [hlen], ?_, by simp, ?_, ?_⟩
  · cases path with
    | nil => simp at hhead
    | cons a t => simpa using hhead
  · intro v h0 h1
    rw [← hlen, List.take_left]
    exact List.count_eq_one_of_mem hnd
      (all_vertices_of_nodup g.getVertexCount path hnd hv hlen v h0 h1)
  · rw [List.chain'_append]
    refine ⟨hchain, List.chain'_singleton _, ?_⟩
    intro x hx y hy
    rw [hlast] at hx
    simp only [Option.mem_def, Option.some.injEq, List.head?_cons] at hx hy
    rw [← hx, ← hy]
    exact hedge

theorem isPath_extend (g : Graph) (startVertex : Int) (path : List Int)
    (cur neighbor : Int) (neighbors : List Int) (hvalid : g.validEntries)
    (hp : g.isPath startVertex path) (hlast : path.getLast? = some cur)
    (hnb : g.getNeighbors cur = some neighbors) (hadj : neighbors ∈ g.adj)
    (hmem : neighbor ∈ neighbors) (hnew : neighbor ∉ path) :
    g.isPath startVertex (path ++ [neighbor]) := by
  obtain ⟨hhead, hnd, hv, hchain⟩ := hp
  refine ⟨?_, ?_, ?_, ?_⟩
  · cases path with
    | nil => simp at hhead
    | cons a t => simpa using hhead
  · rw [List.nodup_append]
    refine ⟨hnd, List.nodup_singleton _, ?_⟩
    intro a ha hb
    simp only [List.mem_singleton] at hb
    rw [hb] at ha
    exact hnew ha
  · intro v hvm
    rcases List.mem_append.1 hvm with h | h
    · exact hv v h
    · simp only [List.mem_singleton] at h
      rw [h]
      exact hvalid neighbors hadj neighbor hmem
  · rw [List.chain'_append]
    refine ⟨hchain, List.chain'_singleton _, ?_⟩
    intro x hx y hy
    rw [hlast] at hx
    simp only [Option.mem_def, Option.some.injEq, List.head?_cons] at hx hy
    rw [← hx, ← hy]
    simp [Graph.hasEdge, hnb, hmem]

theorem leaf_spec (g : Graph) (startVertex : Int) (path : List Int) (st : Finder)
    (hp : g.isPath startVertex path) (hlen : path.length = g.getVertexCount)
    (hst : g.goodResult startVertex st) :
    ∃ st1, leaf g startVertex path st = .done st1 ∧ g.goodResult startVertex st1 := by
  obtain ⟨last, neighbors, hlast, -, hnb, -⟩ := isPath_last g startVertex path hp
  unfold leaf isHamiltonianCycle
  rw [if_neg (by simp [hlen]), hlast]
  simp only [hnb]
  by_cases hs : startVertex ∈ neighbors
  · simp only [hs, decide_True]
    by_cases hf : st.found = true
    · rw [if_pos hf]
      exact ⟨st, rfl, hst⟩
    · rw [if_neg hf]
      refine ⟨_, rfl, Or.inr ?_⟩
      exact isCycle_of_path g startVertex path last hp hlen hlast
        (by simp [Graph.hasEdge, hnb, hs])
  · simp only [hs, decide_False]
    exact ⟨st, rfl, hst⟩

/-! ## The search -/

theorem neighborLoop_spec (P : Finder → Prop) (self : List Int → Finder → Outcome Finder)
    (path rest : List Int)
    (hself : ∀ nb ∈ rest, nb ∉ path → ∀ st, P st →
      ∃ st1, self (path ++ [nb]) st = .done st1 ∧ P st1)
    (st : Finder) (hst : P st) :
    ∃ st1, neighborLoop self path rest st = .done st1 ∧ P st1 := by
  induction rest generalizing st with
  | nil => exact ⟨st, rfl, hst⟩
  | cons nb r ih =>
    unfold neighborLoop
    by_cases hf : st.found = true
    · rw [if_pos hf]
      exact ⟨st, rfl, hst⟩
    · rw [if_neg hf]
      by_cases hin : isInPath path nb = true
      · rw [if_pos hin]
        exact ih (fun x hx => hself x (List.mem_cons_of_mem _ hx)) st hst
      · rw [if_neg hin]
        obtain ⟨st1, h1, p1⟩ := hself nb (List.mem_cons_self _ _)
          (by simpa [isInPath] using hin) st hst
        rw [h1]
        exact ih (fun x hx => hself x (List.mem_cons_of_mem _ hx)) st1 p1

theorem validLoop_spec (P : Finder → Prop) (self : List Int → Finder → Outcome Finder)
    (path rest : List Int)
    (hself : ∀ nb ∈ rest, ∀ st, P st →
      ∃ st1, self (path ++ [nb]) st = .done st1 ∧ P st1)
    (st : Finder) (hst : P st) :
    ∃ st1, validLoop self path rest st = .done st1 ∧ P st1 := by
  induction rest generalizing st with
  | nil => exact ⟨st, rfl, hst⟩
  | cons nb r ih =>
    unfold validLoop
    by_cases hf : st.found = true
    · rw [if_pos hf]
      exact ⟨st, rfl, hst⟩
    · rw [if_neg hf]
      obtain ⟨st1, h1, p1⟩ := hself nb (List.mem_cons_self _ _) st hst
      rw [h1]
      exact ih (fun x hx => hself x (List.mem_cons_of_mem _ hx)) st1 p1

theorem isPath_length_le (g : Graph) (startVertex : Int) (path : List Int)
    (hp : g.isPath startVertex path) : path.length ≤ g.getVertexCount := by
  obtain ⟨-, hnd, hv, -⟩ := hp
  have hinj : (path.map Int.toNat).Nodup := by
    refine (List.nodup_map_iff_inj_on hnd).2 ?_
    intro a ha b hb hab
    have := hv a ha
    have := hv b hb
    omega
  have hsub : (path.map Int.toNat).toFinset ⊆ Finset.range g.getVertexCount := by
    intro x hx
    simp only [List.mem_toFinset, List.mem_map] at hx
    obtain ⟨a, ha, rfl⟩ := hx
    have := hv a ha
    simp only [Finset.mem_range]
    omega
  have := Finset.card_le_card hsub
  rw [List.toFinset_card_of_nodup hinj, List.length_map, Finset.card_range] at this
  exact this

theorem sequentialFuel_spec (g : Graph) (startVertex : Int) (hvalid : g.validEntries)
    (fuel : Nat) (path : List Int) (st : Finder) (hp : g.isPath startVertex path)
    (hfuel : g.getVertexCount < fuel + path.length) (hst : g.goodResult startVertex st) :
    ∃ st1, sequentialFuel g startVertex fuel path st = .done st1 ∧
      g.goodResult startVertex st1 := by
  induction fuel generalizing path st with
  | zero =>
    have := isPath_length_le g startVertex path hp
    omega
  | succ fuel ih =>
    unfold sequentialFuel sequentialBody
    by_cases hf : st.found = true
    · rw [if_pos hf]
      exact ⟨st, rfl, hst⟩
    · rw [if_neg hf]
      by_cases hl : path.length = g.getVertexCount
      · rw [if_pos hl]
        exact leaf_spec g startVertex path st hp hl hst
      · rw [if_neg hl]
        obtain ⟨cur, neighbors, hlast, -, hnb, hadj⟩ := isPath_last g startVertex path hp
        rw [hlast]
        simp only [hnb]
        apply neighborLoop_spec (g.goodResult startVertex) _ path neighbors _ st hst
        intro nb hnbm hnew st2 hst2
        exact ih (path ++ [nb]) st2
          (isPath_extend g startVertex path cur nb neighbors hvalid hp hlast hnb hadj hnbm hnew)
          (by rw [List.length_append, List.length_singleton]; omega) hst2

theorem isPath_start (g : Graph) (startVertex : Int)
    (hstart : 0 ≤ startVertex ∧ startVertex < (g.getVertexCount : Int)) :
    g.isPath startVertex [startVertex] := by
  refine ⟨rfl, List.nodup_singleton _, ?_, List.chain'_singleton _⟩
  intro v hv
  simp only [List.mem_singleton] at hv
  rw [hv]
  exact hstart

theorem parallelSearch_spec (g : Graph) (startVertex : Int) (hvalid : g.validEntries)
    (path : List Int) (st : Finder) (hp : g.isPath startVertex path)
    (hst : g.goodResult startVertex st) :
    ∃ st1, parallelSearch g startVertex path st = .done st1 ∧
      g.goodResult startVertex st1 := by
  unfold parallelSearch
  by_cases hf : st.found = true
  · rw [if_pos hf]
    exact ⟨st, rfl, hst⟩
  · rw [if_neg hf]
    by_cases hl : path.length = g.getVertexCount
    · rw [if_pos hl]
      exact leaf_spec g startVertex path st hp hl hst
    · rw [if_neg hl]
      obtain ⟨cur, neighbors, hlast, -, hnb, hadj⟩ := isPath_last g startVertex path hp
      rw [hlast]
      simp only [hnb]
      split
      · exact ⟨st, rfl, hst⟩
      · apply validLoop_spec (g.goodResult startVertex) _ path _ _ st hst
        intro nb hnbm st2 hst2
        simp only [List.mem_filter, isInPath, Bool.not_eq_true', decide_eq_false_iff_not] at hnbm
        exact sequentialFuel_spec g startVertex hvalid _ (path ++ [nb]) st2
          (isPath_extend g startVertex path cur nb neighbors hvalid hp hlast hnb hadj
            hnbm.1 hnbm.2)
          (by rw [List.length_append, List.length_singleton]; omega) hst2

/-! ## More budget changes nothing -/

theorem neighborLoop_mono (f h : List Int → Finder → Outcome Finder)
    (hfh : ∀ p s, f p s ≠ .outOfFuel → h p s = f p s) (path rest : List Int) (st : Finder)
    (hne : neighborLoop f path rest st ≠ .outOfFuel) :
    neighborLoop h path rest st = neighborLoop f path rest st := by
  induction rest generalizing st with
  | nil => rfl
  | cons nb r ih =>
    unfold neighborLoop at hne ⊢
    by_cases hf : st.found = true
    · rw [if_pos hf]
      rw [if_pos hf]
    · rw [if_neg hf] at hne ⊢
      rw [if_neg hf]
      by_cases hin : isInPath path nb = true
      · rw [if_pos hin] at hne ⊢
        rw [if_pos hin]
        exact ih st hne
      · rw [if_neg hin] at hne ⊢
        rw [if_neg hin]
        cases hA : f (path ++ [nb]) st with
        | outOfFuel => simp [hA] at hne
        | undefined => rw [hfh _ _ (by rw [hA]; simp), hA]
        | done st1 =>
          rw [hfh _ _ (by rw [hA]; simp), hA]
          rw [hA] at hne
          exact ih st1 hne

theorem sequentialBody_mono (g : Graph) (startVertex : Int)
    (f h : List Int → Finder → Outcome Finder)
    (hfh : ∀ p s, f p s ≠ .outOfFuel → h p s = f p s) (path : List Int) (st : Finder)
    (hne : sequentialBody g startVertex f path st ≠ .outOfFuel) :
    sequentialBody g startVertex h path st = sequentialBody g startVertex f path st := by
  unfold sequentialBody at hne ⊢
  by_cases hf : st.found = true
  · rw [if_pos hf]
    rw [if_pos hf]
  · rw [if_neg hf] at hne ⊢
    rw [if_neg hf]
    by_cases hl : path.length = g.getVertexCount
    · rw [if_pos hl]
      rw [if_pos hl]
    · rw [if_neg hl] at hne ⊢
      rw [if_neg hl]
      cases hlast : path.getLast? with
      | none => rfl
      | some cur =>
        rw [hlast] at hne
        cases hnb : g.getNeighbors cur with
        | none => simp only [hnb]
        | some neighbors =>
          simp only [hnb] at hne ⊢
          exact neighborLoop_mono f h hfh path neighbors st hne

theorem sequentialFuel_succ (g : Graph) (startVertex : Int) (fuel : Nat) (path : List Int)
    (st : Finder) (hne : sequentialFuel g startVertex fuel path st ≠ .outOfFuel) :
    sequentialFuel g startVertex (fuel + 1) path st =
      sequentialFuel g startVertex fuel path st := by
  induction fuel generalizing path st with
  | zero => exact absurd rfl hne
  | succ fuel ih =>
    rw [sequentialFuel, sequentialFuel]
    exact sequentialBody_mono g startVertex _ _ (fun p s hps => ih p s hps) path st hne

theorem sequentialFuel_le (g : Graph) (startVertex : Int) (a b : Nat) (hab : a ≤ b)
    (path : List Int) (st : Finder)
    (hne : sequentialFuel g startVertex a path st ≠ .outOfFuel) :
    sequentialFuel g startVertex b path st = sequentialFuel g startVertex a path st := by
  induction b with
  | zero =>
    have : a = 0 := by omega
    rw [this]
  | succ b ih =>
    by_cases hb : a ≤ b
    · rw [sequentialFuel_succ g startVertex b path st (by rw [ih hb]; exact hne), ih hb]
    · have : a = b + 1 := by omega
      rw [this]

/-- C30: for every graph whose adjacency entries are vertex indices and every start vertex
of the graph (there is one, so the graph has at least one vertex), the search run with one
thread returns: no index leaves a vector and the recursion is at most as deep as the graph has
vertices.  The list that `findHamiltonianCycle` returns, and the list `sequentialSearch` leaves
in `result` when it is started on the path of the start vertex alone, is empty or has `n + 1`
entries, begins and ends with the start vertex, holds every vertex exactly once among its
first `n` entries and has an edge of the graph from every entry to the next; a larger budget
for the recursion gives the same list. -/
theorem hamiltonian_search_result (g : Graph) (startVertex : Int) (hvalid : g.validEntries)
    (hstart : 0 ≤ startVertex ∧ startVertex < (g.getVertexCount : Int)) :
    (∃ r, findHamiltonianCycle g startVertex = .done r ∧
      (r = [] ∨ g.isCycle startVertex r)) ∧
    (∃ st, sequentialSearch g startVertex [startVertex] ⟨false, []⟩ = .done st ∧
      (st.result = [] ∨ g.isCycle startVertex st.result) ∧
      ∀ fuel, g.getVertexCount ≤ fuel →
        sequentialFuel g startVertex fuel [startVertex] ⟨false, []⟩ = .done st) := by
  have hp := isPath_start g startVertex hstart
  have hinit : g.goodResult startVertex ⟨false, []⟩ := Or.inl rfl
  constructor
  · obtain ⟨st, h1, h2⟩ := parallelSearch_spec g startVertex hvalid [startVertex] _ hp hinit
    refine ⟨st.result, ?_, h2⟩
    unfold findHamiltonianCycle
    rw [h1]
  · obtain ⟨st, h1, h2⟩ := sequentialFuel_spec g startVertex hvalid g.getVertexCount
      [startVertex] _ hp (by simp) hinit
    have hle : ∀ fuel, g.getVertexCount ≤ fuel →
        sequentialFuel g startVertex fuel [startVertex] ⟨false, []⟩ = .done st := by
      intro fuel hfuel
      rw [sequentialFuel_le g startVertex _ fuel hfuel _ _ (by rw [h1]; simp), h1]
    exact ⟨st, hle _ (Nat.le_succ _), h2, hle⟩

/-- Witness for C30: the complete graph on three vertices, searched from vertex 0. -/
theorem hamiltonian_search_result_witness :
    (complete3.validEntries ∧
      (0 ≤ (0 : Int) ∧ (0 : Int) < (complete3.getVertexCount : Int)) ∧
      findHamiltonianCycle complete3 0 = .done [0, 1, 2, 0] ∧
      findHamiltonianCycle line3 0 = .done []) ∧
    (∃ r, findHamiltonianCycle complete3 0 = .done r ∧ (r = [] ∨ complete3.isCycle 0 r)) ∧
    (∃ st, sequentialSearch complete3 0 [0] ⟨false, []⟩ = .done st ∧
      (st.result = [] ∨ complete3.isCycle 0 st.result) ∧
      ∀ fuel, complete3.getVertexCount ≤ fuel →
        sequentialFuel complete3 0 fuel [0] ⟨false, []⟩ = .done st) :=
  ⟨⟨by decide, by decide, by decide, by decide⟩,
    hamiltonian_search_result complete3 0 (by decide) (by decide)⟩

end Lab6
